import Mathlib

/-!
quant_framework: replay engine, execution simulator, performance analytics

A shallow embedding of

* `src/backtest/backtest_engine.cpp` (`BacktestEngine`: constructor, `run`,
  `process_signal`, `update_portfolio`),
* `src/analysis/performance.cpp` (`calculate_performance`,
  `calculate_drawdowns`, `calculate_max_drawdown`, `calculate_sharpe_ratio`,
  `calculate_volatility`),

together with the value types of `data_types.hpp`, `order.hpp`, `strategy.hpp`
and `performance.hpp`.

Modelling conventions

* `double` is modelled by `ℚ` with exact arithmetic: rounding is not modelled,
  the literal `0.9` is the rational `9/10`.  Division is the total division of
  `ℚ` (`x / 0 = 0`); IEEE-754 gives an infinity or a NaN there.  The code
  divides by `bar.close` (BUY branch of `process_signal`) and by the running
  peak of an equity curve (`calculate_drawdowns`, `calculate_max_drawdown`).
  The namespace `ieee` embeds these functions a second time, over doubles with
  infinities and NaN, to evaluate the code where such a divisor is 0; the two
  embeddings agree wherever no divisor is 0 (`run_of_rational`,
  `calculate_drawdowns_of_rational`, `calculate_max_drawdown_of_rational`).
* `std::time_t` is `Int`, `int` counters are `Int` (no wrap-around),
  `std::vector` is `List`, `std::optional` is `Option`.
* `std::unordered_map<std::string, double>` is an association list
  (`Positions`) whose keys are pairwise distinct in every state the engine can
  reach; `operator[]` overwrites in place or appends a new key.
* The polymorphic collaborators (`Strategy`, `DataFeed`) are records of
  functions; a strategy carries its mutable state explicitly.
* `std::sort` is specified only up to the order of equal keys, so `run` takes
  any function meeting that contract (`StdSort`); `libstdcxx_sort` is the
  implementation of GNU libstdc++ (`stl_algo`).  `std::sqrt` and `std::pow`
  have no rational counterpart and are parameters (`CMath`).
-/

namespace quant

/-! ## data_types.hpp -/

namespace data

/-- The type `Timestamp` is `std::time_t`. -/
abbrev Timestamp := Int

/-- Price bar (`struct BarData`); the field `open` is spelled `open_`. -/
structure BarData where
  timestamp : Timestamp
  symbol : String
  open_ : ℚ
  high : ℚ
  low : ℚ
  close : ℚ
  volume : ℚ
deriving DecidableEq

/-- Alias `using MarketData = BarData`. -/
abbrev MarketData := BarData

/-- Class `DataFeed` seen through its virtual method `get_historical_bars`
(symbol, start time, end time, timeframe). -/
structure DataFeed where
  get_historical_bars : String → Timestamp → Timestamp → String → List BarData

end data

/-! ## order.hpp -/

namespace execution

inductive OrderType where
  | MARKET
  | LIMIT
  | STOP
  | STOP_LIMIT
deriving DecidableEq

inductive OrderSide where
  | BUY
  | SELL
deriving DecidableEq

inductive OrderStatus where
  | PENDING
  | SUBMITTED
  | ACCEPTED
  | REJECTED
  | CANCELED
  | FILLED
  | PARTIALLY_FILLED
deriving DecidableEq

/-- Record `struct Order` with the default member initialisers of the header. -/
structure Order where
  id : String := ""
  symbol : String
  timestamp : data.Timestamp
  type : OrderType
  side : OrderSide
  quantity : ℚ
  price : ℚ
  filled_quantity : ℚ := 0
  average_price : ℚ := 0
  status : OrderStatus := OrderStatus.PENDING
  metadata : List (String × String) := []
deriving DecidableEq

end execution

/-! ## strategy.hpp -/

namespace strategy

inductive SignalType where
  | BUY
  | SELL
  | HOLD
deriving DecidableEq

/-- Record `struct Signal`. -/
structure Signal where
  timestamp : data.Timestamp
  symbol : String
  type : SignalType
  strength : ℚ := 1
  metadata : List (String × String) := []
deriving DecidableEq

/-- Interface `class Strategy`: the object's mutable state is `state`,
`reset` is the virtual method `Strategy::initialize()` and `on_data` the
virtual method `Strategy::on_data`, returning the new state and the optional
signal. -/
structure Strategy (σ : Type) where
  state : σ
  reset : σ → σ
  on_data : σ → data.MarketData → σ × Option Signal

end strategy

/-! ## indicators/moving_average.hpp -/

namespace indicators

/-- The exceptions thrown by the indicators. -/
inductive Error where
  | invalid_argument (what : String)
  | runtime_error (what : String)
deriving DecidableEq

/-- Class `SimpleMovingAverage`: `period_` is a `size_t`, `values_` the deque
from front to back. -/
structure SimpleMovingAverage where
  period_ : Nat
  values_ : List ℚ := []
deriving DecidableEq

namespace SimpleMovingAverage

/-- The constructor `SimpleMovingAverage(size_t period)`. -/
def construct (period : Nat) : Except Error SimpleMovingAverage :=
  if period = 0 then Except.error (Error.invalid_argument "Period must be greater than 0")
  else Except.ok { period_ := period }

/-- Method `update`: push at the back, then drop the front when the deque is
longer than the period. -/
def update (s : SimpleMovingAverage) (value : ℚ) : SimpleMovingAverage :=
  if (s.values_ ++ [value]).length > s.period_ then
    { s with values_ := (s.values_ ++ [value]).tail }
  else { s with values_ := s.values_ ++ [value] }

/-- Method `get_value`. -/
def get_value (s : SimpleMovingAverage) : Except Error ℚ :=
  if s.values_.length < s.period_ then
    Except.error (Error.runtime_error "Not enough data points")
  else Except.ok (s.values_.sum / (s.values_.length : ℚ))

/-- Method `is_valid`. -/
def is_valid (s : SimpleMovingAverage) : Bool := decide (s.values_.length ≥ s.period_)

/-- Method `reset`. -/
def reset (s : SimpleMovingAverage) : SimpleMovingAverage := { s with values_ := [] }

end SimpleMovingAverage

end indicators

/-! ## strategy/moving_average_strategy.hpp -/

namespace strategy

open indicators

/-- Class `MovingAverageStrategy`: its private members, with the default
member initialisers of the two previous values. -/
structure MovingAverageStrategy where
  fast_period_ : Int
  slow_period_ : Int
  fast_ma_ : SimpleMovingAverage
  slow_ma_ : SimpleMovingAverage
  prev_fast_value_ : ℚ := 0
  prev_slow_value_ : ℚ := 0
deriving DecidableEq

namespace MovingAverageStrategy

/-- The constructor `MovingAverageStrategy(int fast_period, int slow_period)`;
each `int` is converted to the `size_t` period of its moving average. -/
def construct (fast_period : Int) (slow_period : Int) : Except Error MovingAverageStrategy :=
  match SimpleMovingAverage.construct (fast_period % 2 ^ 64).toNat,
      SimpleMovingAverage.construct (slow_period % 2 ^ 64).toNat with
  | Except.ok fast_ma, Except.ok slow_ma =>
    Except.ok { fast_period_ := fast_period, slow_period_ := slow_period,
                fast_ma_ := fast_ma, slow_ma_ := slow_ma }
  | Except.error err, _ => Except.error err
  | _, Except.error err => Except.error err

/-- Method `MovingAverageStrategy::initialize()` (lines 19-23): it resets the
two moving averages. -/
def reset (s : MovingAverageStrategy) : MovingAverageStrategy :=
  { s with fast_ma_ := s.fast_ma_.reset, slow_ma_ := s.slow_ma_.reset }

/-- Method `on_data` (lines 25-66): the new state and the optional signal. -/
def on_data (s : MovingAverageStrategy) (data : data.MarketData) :
    Except Error (MovingAverageStrategy × Option Signal) :=
  let s1 : MovingAverageStrategy :=
    { s with fast_ma_ := s.fast_ma_.update data.close, slow_ma_ := s.slow_ma_.update data.close }
  if !s1.fast_ma_.is_valid || !s1.slow_ma_.is_valid then Except.ok (s1, none)
  else
    match s1.fast_ma_.get_value, s1.slow_ma_.get_value with
    | Except.ok fast_value, Except.ok slow_value =>
      if s1.prev_fast_value_ < s1.prev_slow_value_ ∧ fast_value > slow_value then
        Except.ok
          ({ s1 with prev_fast_value_ := fast_value, prev_slow_value_ := slow_value },
            some { type := SignalType.BUY, symbol := data.symbol, timestamp := data.timestamp })
      else if s1.prev_fast_value_ > s1.prev_slow_value_ ∧ fast_value < slow_value then
        Except.ok
          ({ s1 with prev_fast_value_ := fast_value, prev_slow_value_ := slow_value },
            some { type := SignalType.SELL, symbol := data.symbol, timestamp := data.timestamp })
      else
        Except.ok
          ({ s1 with prev_fast_value_ := fast_value, prev_slow_value_ := slow_value }, none)
    | Except.error err, _ => Except.error err
    | _, Except.error err => Except.error err

/-- The signals emitted on a bar sequence, bar by bar, from a given state. -/
def signals (s : MovingAverageStrategy) : List data.MarketData → Except Error (List (Option Signal))
  | [] => Except.ok []
  | bar :: rest =>
    match s.on_data bar with
    | Except.ok (s1, signal) =>
      match signals s1 rest with
      | Except.ok tail => Except.ok (signal :: tail)
      | Except.error err => Except.error err
    | Except.error err => Except.error err

/-- The state reached after a bar sequence. -/
def after_bars (s : MovingAverageStrategy) : List data.MarketData → Except Error MovingAverageStrategy
  | [] => Except.ok s
  | bar :: rest =>
    match s.on_data bar with
    | Except.ok (s1, _) => after_bars s1 rest
    | Except.error err => Except.error err

end MovingAverageStrategy

end strategy

/-! ## performance.hpp / performance.cpp -/

namespace analysis

open data execution

/-- Record `struct PerformanceReport`; the default value is the header's
all-zero initialisation. -/
structure PerformanceReport where
  total_return : ℚ := 0
  annualized_return : ℚ := 0
  sharpe_ratio : ℚ := 0
  max_drawdown : ℚ := 0
  volatility : ℚ := 0
  total_trades : Int := 0
  winning_trades : Int := 0
  losing_trades : Int := 0
  win_rate : ℚ := 0
  profit_factor : ℚ := 0
  average_profit : ℚ := 0
  average_loss : ℚ := 0
  largest_profit : ℚ := 0
  largest_loss : ℚ := 0
  metrics : List (String × ℚ) := []
deriving DecidableEq

/-- The two `<cmath>` functions used by the analytics, as parameters. -/
structure CMath where
  sqrt : ℚ → ℚ
  pow : ℚ → ℚ → ℚ

/-- Function `std::max(a, b)`: returns `b` when `a < b`, else `a`. -/
def std_max (a b : ℚ) : ℚ := if a < b then b else a

/-- Function `std::abs` on a double. -/
def std_abs (a : ℚ) : ℚ := if a < 0 then -a else a

/-- One iteration of the loop of `calculate_max_drawdown`; the accumulator is
`(max_drawdown, peak)`. -/
def max_drawdown_step (acc : ℚ × ℚ) (p : Timestamp × ℚ) : ℚ × ℚ :=
  if p.2 > acc.2 then (acc.1, p.2)
  else (std_max acc.1 ((acc.2 - p.2) / acc.2), acc.2)

/-- Function `calculate_max_drawdown` (performance.cpp 125-145). -/
def calculate_max_drawdown (equity_curve : List (Timestamp × ℚ)) : ℚ :=
  match equity_curve with
  | [] => 0
  | first :: _ => (equity_curve.foldl max_drawdown_step (0, first.2)).1

/-- One iteration of the loop of `calculate_drawdowns`; the accumulator is
`(peak, drawdowns)`.  For a peak of 0 the rational quotient is 0, where the
double is an infinity or NaN: `ieee.drawdowns_step`. -/
def drawdowns_step (acc : ℚ × List (Timestamp × ℚ)) (p : Timestamp × ℚ) :
    ℚ × List (Timestamp × ℚ) :=
  let peak := if p.2 > acc.1 then p.2 else acc.1
  (peak, acc.2 ++ [(p.1, (peak - p.2) / peak)])

/-- Function `calculate_drawdowns` (performance.cpp 102-123). -/
def calculate_drawdowns (equity_curve : List (Timestamp × ℚ)) : List (Timestamp × ℚ) :=
  match equity_curve with
  | [] => []
  | first :: _ => (equity_curve.foldl drawdowns_step (first.2, [])).2

/-- The loop building `returns` in `calculate_sharpe_ratio` and in
`calculate_volatility` (the two copies are identical): one return per
consecutive pair whose earlier equity is positive. -/
def daily_returns : List (Timestamp × ℚ) → List ℚ
  | prev :: curr :: rest =>
      if prev.2 > 0 then ((curr.2 - prev.2) / prev.2) :: daily_returns (curr :: rest)
      else daily_returns (curr :: rest)
  | _ => []

/-- The value `mean_return`: `std::accumulate(...) / returns.size()`. -/
def mean_return (returns : List ℚ) : ℚ := returns.sum / (returns.length : ℚ)

/-- The value `sum_squared_diff` of both functions. -/
def sum_squared_diff (returns : List ℚ) : ℚ :=
  returns.foldl (fun acc r => acc + (r - mean_return returns) * (r - mean_return returns)) 0

/-- Function `calculate_sharpe_ratio` (performance.cpp 147-189). -/
def calculate_sharpe_ratio (m : CMath) (equity_curve : List (Timestamp × ℚ))
    (risk_free_rate : ℚ) : ℚ :=
  if equity_curve.length < 2 then 0
  else
    let returns := daily_returns equity_curve
    if returns.isEmpty then 0
    else
      let std_dev := m.sqrt (sum_squared_diff returns / (returns.length : ℚ))
      if std_dev = 0 then 0
      else (mean_return returns - risk_free_rate) / std_dev

/-- Function `calculate_volatility` (performance.cpp 191-229). -/
def calculate_volatility (m : CMath) (equity_curve : List (Timestamp × ℚ)) : ℚ :=
  if equity_curve.length < 2 then 0
  else
    let returns := daily_returns equity_curve
    if returns.isEmpty then 0
    else
      let variance := sum_squared_diff returns / (returns.length : ℚ)
      m.sqrt variance * m.sqrt 252

/-- The locals updated by the trade loop of `calculate_performance`. -/
structure TradeStats where
  winning_trades : Int := 0
  losing_trades : Int := 0
  total_profit : ℚ := 0
  total_loss : ℚ := 0
  largest_profit : ℚ := 0
  largest_loss : ℚ := 0
deriving DecidableEq

/-- The value `profit` of one (entry, exit) pair (performance.cpp 59-67). -/
def pair_profit (entry exit : Order) : ℚ :=
  let entry_value := entry.quantity * entry.price
  let exit_value := exit.quantity * exit.price
  if entry.side = OrderSide.BUY then exit_value - entry_value
  else entry_value - exit_value

/-- Classification of one pair (performance.cpp 69-77). -/
def trade_step (acc : TradeStats) (entry exit : Order) : TradeStats :=
  let profit := pair_profit entry exit
  if profit > 0 then
    { acc with
      winning_trades := acc.winning_trades + 1
      total_profit := acc.total_profit + profit
      largest_profit := std_max acc.largest_profit profit }
  else
    { acc with
      losing_trades := acc.losing_trades + 1
      total_loss := acc.total_loss + std_abs profit
      largest_loss := std_max acc.largest_loss (std_abs profit) }

/-- The loop `for (i = 0; i < orders.size(); i += 2)` with its `break` when
`i + 1 >= orders.size()` (performance.cpp 51-78). -/
def trade_loop : List Order → TradeStats → TradeStats
  | entry :: exit :: rest, acc => trade_loop rest (trade_step acc entry exit)
  | _, acc => acc

/-- Function `calculate_performance` (performance.cpp 10-100);
`calculate_sharpe_ratio` is called with its default `risk_free_rate = 0.0`. -/
def calculate_performance (m : CMath) (equity_curve : List (Timestamp × ℚ))
    (orders : List Order) (initial_capital : ℚ) : PerformanceReport :=
  match equity_curve with
  | [] => {}
  | front :: rest =>
    let back := (front :: rest).getLast (List.cons_ne_nil front rest)
    let final_equity := back.2
    let total_return := (final_equity - initial_capital) / initial_capital
    let duration_seconds : ℚ := ((back.1 - front.1 : Int) : ℚ)
    let years := duration_seconds / (36525 / 100 * 24 * 60 * 60)
    let annualized_return := if years > 0 then m.pow (1 + total_return) (1 / years) - 1 else 0
    let total_trades : Int := (orders.length : Int)
    let t := trade_loop orders {}
    { total_return := total_return
      annualized_return := annualized_return
      max_drawdown := calculate_max_drawdown equity_curve
      volatility := calculate_volatility m equity_curve
      sharpe_ratio := calculate_sharpe_ratio m equity_curve 0
      total_trades := total_trades
      winning_trades := t.winning_trades
      losing_trades := t.losing_trades
      largest_profit := t.largest_profit
      largest_loss := t.largest_loss
      win_rate := if total_trades > 0 then (t.winning_trades : ℚ) / (total_trades : ℚ) else 0
      profit_factor :=
        if t.losing_trades > 0 ∧ t.total_loss > 0 then t.total_profit / t.total_loss else 0
      average_profit :=
        if t.winning_trades > 0 then t.total_profit / (t.winning_trades : ℚ) else 0
      average_loss :=
        if t.losing_trades > 0 then t.total_loss / (t.losing_trades : ℚ) else 0 }

/-! ### Reference definitions, in the words of the specification -/

/-- Reference running peak: the entry of index i is the maximum of the
equities at indices 0..i. -/
def reference_peaks (equities : List ℚ) : List ℚ :=
  match equities with
  | [] => []
  | first :: rest => List.scanl max first rest

/-- Reference drawdown values: (peak_i - equity_i) / peak_i at the indices i
where equity_i < peak_i, in curve order. -/
def reference_dips (equities : List ℚ) : List ℚ :=
  ((reference_peaks equities).zip equities).filterMap
    (fun pe => if pe.2 < pe.1 then some ((pe.1 - pe.2) / pe.1) else none)

/-- Reference maximum drawdown: the maximum of the reference drawdown values,
and 0 when there is none (empty curve, or no equity below its peak). -/
def reference_max_drawdown (equity_curve : List (Timestamp × ℚ)) : ℚ :=
  match reference_dips (equity_curve.map Prod.snd) with
  | [] => 0
  | d :: ds => ds.foldl max d

/-- Reference per-step return series: r_i = (equity_i - equity_{i-1}) /
equity_{i-1} over the consecutive pairs of the curve, the steps whose prior
equity is <= 0 skipped. -/
def reference_returns (equity_curve : List (Timestamp × ℚ)) : List ℚ :=
  (equity_curve.zip equity_curve.tail).filterMap
    (fun pc => if pc.1.2 ≤ 0 then none else some ((pc.2.2 - pc.1.2) / pc.1.2))

/-- Reference mean of a series. -/
def reference_mean (r : List ℚ) : ℚ := r.sum / (r.length : ℚ)

/-- Reference population standard deviation (dividing by N), through the
library square root. -/
def reference_stddev (m : CMath) (r : List ℚ) : ℚ :=
  m.sqrt ((r.map (fun x => (x - reference_mean r) ^ 2)).sum / (r.length : ℚ))

/-- Reference pair of index k: (orders[2k], orders[2k+1]) when 2k+1 < n. -/
def reference_pair_at (orders : List Order) (k : Nat) : Option (Order × Order) :=
  match orders[2 * k]?, orders[2 * k + 1]? with
  | some entry, some exit => some (entry, exit)
  | _, _ => none

/-- Reference trade pairs: (orders[2k], orders[2k+1]) for the k with
2k+1 < n, in increasing k. -/
def reference_pairs (orders : List Order) : List (Order × Order) :=
  (List.range orders.length).filterMap (reference_pair_at orders)

/-- Reference profit of a pair: exit notional minus entry notional when the
entry is a BUY, entry notional minus exit notional otherwise. -/
def reference_profit (pair : Order × Order) : ℚ :=
  if pair.1.side = OrderSide.BUY then
    pair.2.quantity * pair.2.price - pair.1.quantity * pair.1.price
  else pair.1.quantity * pair.1.price - pair.2.quantity * pair.2.price

/-- Reference total profit: the sum of the profits of the winning pairs. -/
def reference_total_profit (orders : List Order) : ℚ :=
  (((reference_pairs orders).map reference_profit).filter (fun x => 0 < x)).sum

/-- Reference total loss: the sum of |profit| over the losing pairs. -/
def reference_total_loss (orders : List Order) : ℚ :=
  ((((reference_pairs orders).map reference_profit).filter (fun x => x ≤ 0)).map
    (fun x => |x|)).sum

end analysis

/-! ## backtest_engine.hpp / backtest_engine.cpp -/

namespace backtest

open data execution strategy analysis

/-- Record `struct BacktestConfig` with the header's defaults. -/
structure BacktestConfig where
  start_time : Timestamp
  end_time : Timestamp
  initial_capital : ℚ := 100000
  commission_rate : ℚ := 0
  use_fractional_shares : Bool := false
deriving DecidableEq

/-- The member `positions_`: `std::unordered_map<std::string, double>`. -/
abbrev Positions := List (String × ℚ)

namespace Positions

/-- Method `positions_.find(key)`: `none` stands for `positions_.end()`. -/
def find (m : Positions) (key : String) : Option ℚ :=
  match m with
  | [] => none
  | (k, v) :: rest => if k = key then some v else find rest key

/-- The quantity read by `positions_[key]`: the stored value, or the
value-initialised `0.0` that `operator[]` inserts for an absent key. -/
def held (m : Positions) (key : String) : ℚ := (find m key).getD 0

/-- Assignment through `operator[]`: overwrite the entry of `key`, or insert
a new entry when the key is absent. -/
def assign (m : Positions) (key : String) (value : ℚ) : Positions :=
  match m with
  | [] => [(key, value)]
  | (k, v) :: rest => if k = key then (k, value) :: rest else (k, v) :: assign rest key value

end Positions

/-- The exception `std::invalid_argument` thrown by the constructor. -/
inductive Exception where
  | invalid_argument (what : String)
deriving DecidableEq

/-- Class `BacktestEngine`: its private members. -/
structure BacktestEngine (σ : Type) where
  data_feed_ : DataFeed
  strategy_ : Strategy σ
  config_ : BacktestConfig
  cash_ : ℚ
  equity_ : ℚ
  positions_ : Positions := []
  order_history_ : List Order := []
  equity_curve_ : List (Timestamp × ℚ) := []
  performance_report_ : PerformanceReport := {}

/-- The contract of `std::sort(bars.begin(), bars.end(), cmp)` with
`cmp(a, b) = a.timestamp < b.timestamp`: the result is a permutation of the
input in which no element has a later element comparing less than it. -/
structure StdSort where
  sort : List BarData → List BarData
  is_perm : ∀ l, List.Perm (sort l) l
  is_sorted : ∀ l, List.Pairwise (fun a b : BarData => a.timestamp ≤ b.timestamp) (sort l)

/-- Insertion sort on the timestamp: one function meeting the contract. -/
def insertion_sort : StdSort where
  sort := List.insertionSort (fun a b : BarData => a.timestamp ≤ b.timestamp)
  is_perm := fun l => List.perm_insertionSort _ l
  is_sorted := fun l =>
    haveI : IsTotal BarData (fun a b : BarData => a.timestamp ≤ b.timestamp) :=
      ⟨fun a b => le_total a.timestamp b.timestamp⟩
    haveI : IsTrans BarData (fun a b : BarData => a.timestamp ≤ b.timestamp) :=
      ⟨fun _ _ _ h1 h2 => le_trans h1 h2⟩
    List.sorted_insertionSort _ l

namespace BacktestEngine

variable {σ : Type}

/-- The constructor (backtest_engine.cpp 10-26); a null `shared_ptr` is
`none`. -/
def construct (data_feed : Option DataFeed) (strategy : Option (Strategy σ))
    (config : BacktestConfig) : Except Exception (BacktestEngine σ) :=
  match data_feed, strategy with
  | none, _ => Except.error (Exception.invalid_argument "Data feed cannot be null")
  | some _, none => Except.error (Exception.invalid_argument "Strategy cannot be null")
  | some feed, some strat =>
    Except.ok
      { data_feed_ := feed
        strategy_ := strat
        config_ := config
        cash_ := config.initial_capital
        equity_ := config.initial_capital }

/-- The local `quantity` of the BUY branch after the optional `std::floor`
(backtest_engine.cpp 79-85).  For `bar.close = 0` the rational quotient is 0,
where the double is an infinity or NaN: `ieee.BacktestEngine.buy_quantity`. -/
def buy_quantity (e : BacktestEngine σ) (bar : BarData) : ℚ :=
  let amount_to_invest := e.cash_ * (9 / 10)
  let price := bar.close
  let quantity := amount_to_invest / price
  if !e.config_.use_fractional_shares then ((⌊quantity⌋ : Int) : ℚ) else quantity

/-- Method `process_signal` (backtest_engine.cpp 76-141). -/
def process_signal (e : BacktestEngine σ) (signal : Signal) (bar : BarData) :
    BacktestEngine σ :=
  if signal.type = SignalType.BUY then
    let amount_to_invest := e.cash_ * (9 / 10)
    let price := bar.close
    let quantity := e.buy_quantity bar
    if quantity ≤ 0 then e
    else
      let order : Order :=
        { symbol := signal.symbol
          timestamp := signal.timestamp
          type := OrderType.MARKET
          side := OrderSide.BUY
          quantity := quantity
          price := price
          status := OrderStatus.FILLED }
      let commission := amount_to_invest * e.config_.commission_rate
      { e with
        cash_ := e.cash_ - (quantity * price + commission)
        positions_ :=
          e.positions_.assign signal.symbol (e.positions_.held signal.symbol + quantity)
        order_history_ := e.order_history_ ++ [order] }
  else if signal.type = SignalType.SELL then
    match e.positions_.find signal.symbol with
    | none => e
    | some held =>
      if held ≤ 0 then e
      else
        let quantity := held
        let price := bar.close
        let order : Order :=
          { symbol := signal.symbol
            timestamp := signal.timestamp
            type := OrderType.MARKET
            side := OrderSide.SELL
            quantity := quantity
            price := price
            status := OrderStatus.FILLED }
        let commission := quantity * price * e.config_.commission_rate
        { e with
          cash_ := e.cash_ + (quantity * price - commission)
          positions_ := e.positions_.assign signal.symbol 0
          order_history_ := e.order_history_ ++ [order] }
  else e

/-- The local `position_value` of `update_portfolio`: the loop over all
entries of `positions_`. -/
def position_value (positions : Positions) (bar : BarData) : ℚ :=
  positions.foldl
    (fun acc entry => if entry.1 = bar.symbol then acc + entry.2 * bar.close else acc) 0

/-- Method `update_portfolio` (backtest_engine.cpp 143-154). -/
def update_portfolio (e : BacktestEngine σ) (bar : BarData) : BacktestEngine σ :=
  { e with equity_ := e.cash_ + position_value e.positions_ bar }

/-- The strategy call `strategy_->on_data(market_data)`: the signal returned
for `bar` in the current strategy state. -/
def signal_for (e : BacktestEngine σ) (bar : BarData) : Option Signal :=
  (e.strategy_.on_data e.strategy_.state bar).2

/-- The engine once the strategy call on `bar` has updated the strategy's
state. -/
def after_on_data (e : BacktestEngine σ) (bar : BarData) : BacktestEngine σ :=
  { e with strategy_ := { e.strategy_ with state := (e.strategy_.on_data e.strategy_.state bar).1 } }

/-- The step `if (signal) process_signal(*signal, bar)` of the loop body. -/
def after_signal (e : BacktestEngine σ) (bar : BarData) : BacktestEngine σ :=
  match e.signal_for bar with
  | some signal => (e.after_on_data bar).process_signal signal bar
  | none => e.after_on_data bar

/-- One iteration of the replay loop of `run` (backtest_engine.cpp 49-66). -/
def run_bar (e : BacktestEngine σ) (bar : BarData) : BacktestEngine σ :=
  let e1 := (e.after_signal bar).update_portfolio bar
  { e1 with equity_curve_ := e1.equity_curve_ ++ [(bar.timestamp, e1.equity_)] }

/-- The bar sequence replayed by `run`: fetched for the fixed symbol and
timeframe, then sorted by timestamp (backtest_engine.cpp 34-46). -/
def replay_bars (srt : StdSort) (e : BacktestEngine σ) : List BarData :=
  srt.sort (e.data_feed_.get_historical_bars "BTCUSDT" e.config_.start_time
    e.config_.end_time "1d")

/-- The engine after `strategy_->initialize()` (backtest_engine.cpp 30). -/
def after_reset (e : BacktestEngine σ) : BacktestEngine σ :=
  { e with strategy_ := { e.strategy_ with state := e.strategy_.reset e.strategy_.state } }

/-- Method `run` (backtest_engine.cpp 28-74). -/
def run (srt : StdSort) (m : CMath) (e : BacktestEngine σ) : BacktestEngine σ :=
  let e1 := (replay_bars srt e).foldl run_bar e.after_reset
  { e1 with
    performance_report_ :=
      calculate_performance m e1.equity_curve_ e1.order_history_ e1.config_.initial_capital }

/-- The engine states met by the replay loop: each bar paired with the state
in which its iteration starts. -/
def replay_trace (e : BacktestEngine σ) : List BarData → List (BacktestEngine σ × BarData)
  | [] => []
  | bar :: rest => (e, bar) :: replay_trace (e.run_bar bar) rest

end BacktestEngine

/-! ## A concrete replay: three ascending bars, BUY / HOLD / SELL -/

/-- Bar of symbol BTCUSDT with the given timestamp and close. -/
def scenario_bar (timestamp : Timestamp) (close : ℚ) : BarData :=
  { timestamp := timestamp, symbol := "BTCUSDT", open_ := close, high := close,
    low := close, close := close, volume := 1 }

/-- A supplier returning three bars with closes 100, 110, 120. -/
def scenario_feed : DataFeed :=
  { get_historical_bars := fun _ _ _ _ =>
      [scenario_bar 1 100, scenario_bar 2 110, scenario_bar 3 120] }

/-- Signal of the given kind for the bar's symbol and timestamp. -/
def scenario_signal (kind : SignalType) (bar : BarData) : Signal :=
  { timestamp := bar.timestamp, symbol := bar.symbol, type := kind }

/-- A strategy counting the bars it has seen: BUY on the first, HOLD on the
second, SELL on the third, nothing afterwards. -/
def scenario_strategy : Strategy Nat :=
  { state := 0
    reset := fun _ => 0
    on_data := fun n bar =>
      (n + 1,
        match n with
        | 0 => some (scenario_signal SignalType.BUY bar)
        | 1 => some (scenario_signal SignalType.HOLD bar)
        | 2 => some (scenario_signal SignalType.SELL bar)
        | _ => none) }

/-- The order recorded for the BUY on the first bar. -/
def scenario_buy_order : Order :=
  { symbol := "BTCUSDT", timestamp := 1, type := OrderType.MARKET, side := OrderSide.BUY,
    quantity := 90, price := 100, status := OrderStatus.FILLED }

/-- The order recorded for the SELL on the third bar. -/
def scenario_sell_order : Order :=
  { symbol := "BTCUSDT", timestamp := 3, type := OrderType.MARKET, side := OrderSide.SELL,
    quantity := 90, price := 120, status := OrderStatus.FILLED }

/-- Configuration: capital 10000, no commission, fractional shares. -/
def scenario_config : BacktestConfig :=
  { start_time := 0, end_time := 4, initial_capital := 10000, commission_rate := 0,
    use_fractional_shares := true }

/-- The freshly constructed engine of the scenario. -/
def scenario_engine : BacktestEngine Nat :=
  { data_feed_ := scenario_feed
    strategy_ := scenario_strategy
    config_ := scenario_config
    cash_ := 10000
    equity_ := 10000 }

/-- A computable stand-in for the two library functions, used to evaluate
concrete runs: the square root truncated to six decimals and the power with
its exponent truncated to an integer. -/
def sample_cmath : CMath where
  sqrt := fun x => if x ≤ 0 then 0 else ((Nat.sqrt (Int.toNat ⌊x * 10 ^ 12⌋) : Nat) : ℚ) / 10 ^ 6
  pow := fun x y => x ^ (⌊y⌋ : Int)

/-- A supplier that returns no bars. -/
def empty_feed : DataFeed :=
  { get_historical_bars := fun _ _ _ _ => [] }

/-- An engine with cash 1000, commission rate 1 percent and whole shares
only. -/
def whole_share_engine : BacktestEngine Nat :=
  { data_feed_ := scenario_feed
    strategy_ := scenario_strategy
    config_ := { start_time := 0, end_time := 4, initial_capital := 1000,
                 commission_rate := 1 / 100, use_fractional_shares := false }
    cash_ := 1000
    equity_ := 1000 }

/-- The signals a strategy returns on a bar sequence, bar by bar, from the
state `st`. -/
def emitted_signals {σ : Type} (on_data : σ → MarketData → σ × Option Signal) (st : σ) :
    List BarData → List (Option Signal)
  | [] => []
  | bar :: rest => (on_data st bar).2 :: emitted_signals on_data (on_data st bar).1 rest

/-- Two engines, possibly over different strategies, agree on configuration,
cash, equity, positions, order history and equity curve. -/
def same_portfolio {σ τ : Type} (e1 : BacktestEngine σ) (e2 : BacktestEngine τ) : Prop :=
  e1.config_ = e2.config_ ∧ e1.cash_ = e2.cash_ ∧ e1.equity_ = e2.equity_ ∧
    e1.positions_ = e2.positions_ ∧ e1.order_history_ = e2.order_history_ ∧
    e1.equity_curve_ = e2.equity_curve_

/-- The scenario strategy in another starting state: it has already counted
five bars before initialize() is called. -/
def scenario_strategy_used : Strategy Nat :=
  { scenario_strategy with state := 5 }

/-- A freshly constructed MovingAverageStrategy with periods 1 and 2. -/
def ma_fresh : MovingAverageStrategy :=
  { fast_period_ := 1, slow_period_ := 2, fast_ma_ := { period_ := 1 },
    slow_ma_ := { period_ := 2 } }

/-- The same strategy after the bars of closes 10 and 1: the fast average is 1
and the slow average 11/2. -/
def ma_used : MovingAverageStrategy :=
  { fast_period_ := 1, slow_period_ := 2,
    fast_ma_ := { period_ := 1, values_ := [1] },
    slow_ma_ := { period_ := 2, values_ := [10, 1] },
    prev_fast_value_ := 1, prev_slow_value_ := 11 / 2 }

/-! ### `std::sort` as implemented by GNU libstdc++ (`bits/stl_algo.h`)

The call at backtest_engine.cpp 43-46 resolves to the library's introsort:
quicksort partitioning while a range has more than 16 elements, then one
insertion-sort pass.  The vector is a list and an iterator is an index into
it.  The library's helper names are kept without their leading underscores. -/

namespace stl_algo

variable {α : Type}

/-- The call `comp(i, j)` on two iterators: the comparison of the elements
they point to. -/
def less_at (comp : α → α → Bool) (v : List α) (i j : Nat) : Bool :=
  match v[i]?, v[j]? with
  | some a, some b => comp a b
  | _, _ => false

/-- Function `std::iter_swap(i, j)`. -/
def iter_swap (v : List α) (i j : Nat) : List α :=
  match v[i]?, v[j]? with
  | some a, some b => (v.set i b).set j a
  | _, _ => v

/-- Function `__move_median_to_first(result, a, b, c, comp)`. -/
def move_median_to_first (comp : α → α → Bool) (v : List α) (result a b c : Nat) : List α :=
  if less_at comp v a b then
    if less_at comp v b c then iter_swap v result b
    else if less_at comp v a c then iter_swap v result c
    else iter_swap v result a
  else if less_at comp v a c then iter_swap v result a
  else if less_at comp v b c then iter_swap v result c
  else iter_swap v result b

/-- The loop `while (comp(first, pivot)) ++first` of `__unguarded_partition`;
the first argument bounds the number of iterations. -/
def scan_up (comp : α → α → Bool) (v : List α) (pivot : Nat) : Nat → Nat → Nat
  | 0, first => first
  | fuel + 1, first =>
    if less_at comp v first pivot then scan_up comp v pivot fuel (first + 1) else first

/-- The loop `while (comp(pivot, last)) --last` of `__unguarded_partition`;
the first argument bounds the number of iterations. -/
def scan_down (comp : α → α → Bool) (v : List α) (pivot : Nat) : Nat → Nat → Nat
  | 0, last => last
  | fuel + 1, last =>
    if less_at comp v pivot last then scan_down comp v pivot fuel (last - 1) else last

/-- Function `__unguarded_partition(first, last, pivot, comp)`: the vector
after the swaps and the returned cut.  The first argument bounds the number of
iterations of the outer `while (true)`; every iteration advances `first`, so
the length of the vector is enough. -/
def unguarded_partition (comp : α → α → Bool) (pivot : Nat) :
    Nat → List α → Nat → Nat → List α × Nat
  | 0, v, first, _ => (v, first)
  | fuel + 1, v, first, last =>
    let first1 := scan_up comp v pivot v.length first
    let last1 := scan_down comp v pivot v.length (last - 1)
    if first1 < last1 then
      unguarded_partition comp pivot fuel (iter_swap v first1 last1) (first1 + 1) last1
    else (v, first1)

/-- Function `__unguarded_partition_pivot(first, last, comp)`. -/
def unguarded_partition_pivot (comp : α → α → Bool) (v : List α) (first last : Nat) :
    List α × Nat :=
  let mid := first + (last - first) / 2
  let v1 := move_median_to_first comp v first (first + 1) mid (last - 1)
  unguarded_partition comp first v1.length v1 (first + 1) last

/-- Function `__introsort_loop(first, last, depth_limit, comp)`, by recursion
on `depth_limit`, which every iteration of its loop decrements.  The branch
taken at `depth_limit == 0` (`__partial_sort`, a heap sort) is not embedded:
the result is `none` there. -/
def introsort_loop (comp : α → α → Bool) : Nat → List α → Nat → Nat → Option (List α)
  | 0, v, first, last => if last - first > 16 then none else some v
  | depth_limit + 1, v, first, last =>
    if last - first > 16 then
      let cut := unguarded_partition_pivot comp v first last
      match introsort_loop comp depth_limit cut.1 cut.2 last with
      | none => none
      | some v1 => introsort_loop comp depth_limit v1 first cut.2
    else some v

/-- The loop of `__unguarded_linear_insert(last, comp)` for the saved value
`val`; the first argument bounds the number of iterations. -/
def linear_insert_loop (comp : α → α → Bool) (val : α) : Nat → List α → Nat → List α
  | 0, v, last => v.set last val
  | fuel + 1, v, last =>
    match v[last - 1]? with
    | some next =>
      if 0 < last ∧ comp val next then
        linear_insert_loop comp val fuel (v.set last next) (last - 1)
      else v.set last val
    | none => v.set last val

/-- Function `__unguarded_linear_insert(last, comp)`. -/
def unguarded_linear_insert (comp : α → α → Bool) (v : List α) (last : Nat) : List α :=
  match v[last]? with
  | some val => linear_insert_loop comp val v.length v last
  | none => v

/-- The branch `comp(i, first)` of `__insertion_sort`: the element at `i` is
saved, the range from `first` to `i` is moved up by one place
(`std::move_backward`) and the saved element is stored at `first`. -/
def move_to_first (v : List α) (first i : Nat) : List α :=
  match v[i]? with
  | some val => v.take first ++ val :: ((v.take i).drop first ++ v.drop (i + 1))
  | none => v

/-- The loop of `__insertion_sort(first, last, comp)` from iterator `i`, with
the number of remaining iterations as first argument. -/
def insertion_sort_loop (comp : α → α → Bool) (first : Nat) : Nat → List α → Nat → List α
  | 0, v, _ => v
  | count + 1, v, i =>
    insertion_sort_loop comp first count
      (if less_at comp v i first then move_to_first v first i
       else unguarded_linear_insert comp v i) (i + 1)

/-- Function `__insertion_sort(first, last, comp)`. -/
def insertion_sort (comp : α → α → Bool) (v : List α) (first last : Nat) : List α :=
  if first = last then v else insertion_sort_loop comp first (last - (first + 1)) v (first + 1)

/-- Function `__unguarded_insertion_sort(first, last, comp)` from iterator
`i`, with the number of remaining iterations as first argument. -/
def unguarded_insertion_sort (comp : α → α → Bool) : Nat → List α → Nat → List α
  | 0, v, _ => v
  | count + 1, v, i =>
    unguarded_insertion_sort comp count (unguarded_linear_insert comp v i) (i + 1)

/-- Function `__final_insertion_sort(first, last, comp)`; `_S_threshold` is
16. -/
def final_insertion_sort (comp : α → α → Bool) (v : List α) (first last : Nat) : List α :=
  if last - first > 16 then
    unguarded_insertion_sort comp (last - (first + 16))
      (insertion_sort comp v first (first + 16)) (first + 16)
  else insertion_sort comp v first last

/-- The loop behind `std::__lg`; the first argument bounds the number of
halvings. -/
def lg_loop : Nat → Nat → Nat
  | 0, _ => 0
  | fuel + 1, n => if 2 ≤ n then lg_loop fuel (n / 2) + 1 else 0

/-- Function `std::__lg(n)`: the position of the highest set bit of `n`. -/
def lg (n : Nat) : Nat := lg_loop n n

/-- Function `std::__sort(first, last, comp)` on the whole vector; `none`
when the heap-sort branch of `__introsort_loop` is reached. -/
def sort (comp : α → α → Bool) (v : List α) : Option (List α) :=
  if v.length = 0 then some v
  else
    match introsort_loop comp (lg v.length * 2) v 0 v.length with
    | none => none
    | some v1 => some (final_insertion_sort comp v1 0 v.length)

end stl_algo

/-- The comparison `run` passes to `std::sort` (backtest_engine.cpp 44-45). -/
def timestamp_less (a b : BarData) : Bool := decide (a.timestamp < b.timestamp)

/-- The library's `std::sort` as a function meeting the contract: the result
of `stl_algo.sort` wherever it is a sorted permutation of the input.  Where
the embedding stops (the heap-sort branch), and wherever the check would fail,
insertion sort stands in. -/
def libstdcxx_sort : StdSort where
  sort := fun l =>
    match stl_algo.sort timestamp_less l with
    | some r =>
      if List.Perm r l ∧ List.Pairwise (fun a b : BarData => a.timestamp ≤ b.timestamp) r then r
      else insertion_sort.sort l
    | none => insertion_sort.sort l
  is_perm := fun l => by
    dsimp only
    split
    · split_ifs with hc
      · exact hc.1
      · exact insertion_sort.is_perm l
    · exact insertion_sort.is_perm l
  is_sorted := fun l => by
    dsimp only
    split
    · split_ifs with hc
      · exact hc.2
      · exact insertion_sort.is_sorted l
    · exact insertion_sort.is_sorted l

/-- Seventeen bars of the same timestamp, closes 100 to 116 in supplier
order. -/
def seventeen_ties : List BarData :=
  [scenario_bar 1 100, scenario_bar 1 101, scenario_bar 1 102, scenario_bar 1 103,
   scenario_bar 1 104, scenario_bar 1 105, scenario_bar 1 106, scenario_bar 1 107,
   scenario_bar 1 108, scenario_bar 1 109, scenario_bar 1 110, scenario_bar 1 111,
   scenario_bar 1 112, scenario_bar 1 113, scenario_bar 1 114, scenario_bar 1 115,
   scenario_bar 1 116]

/-- The order in which the library's `std::sort` leaves the seventeen bars. -/
def seventeen_sorted : List BarData :=
  [scenario_bar 1 108, scenario_bar 1 116, scenario_bar 1 115, scenario_bar 1 114,
   scenario_bar 1 113, scenario_bar 1 112, scenario_bar 1 111, scenario_bar 1 110,
   scenario_bar 1 109, scenario_bar 1 100, scenario_bar 1 107, scenario_bar 1 106,
   scenario_bar 1 105, scenario_bar 1 104, scenario_bar 1 103, scenario_bar 1 102,
   scenario_bar 1 101]

/-- A supplier returning the seventeen bars of equal timestamp. -/
def seventeen_feed : DataFeed :=
  { get_historical_bars := fun _ _ _ _ => seventeen_ties }

/-- The freshly constructed scenario engine on that supplier. -/
def seventeen_engine : BacktestEngine Nat :=
  { data_feed_ := seventeen_feed
    strategy_ := scenario_strategy
    config_ := scenario_config
    cash_ := 10000
    equity_ := 10000 }

/-- A supplier returning two bars of the same timestamp, closes 100 then 200. -/
def tie_feed : DataFeed :=
  { get_historical_bars := fun _ _ _ _ => [scenario_bar 1 100, scenario_bar 1 200] }

/-- Reference open quantity of an order list: the sum of the quantities of the
BUY orders recorded since the last SELL (or since the start). -/
def reference_open_quantity (orders : List Order) : ℚ :=
  ((orders.reverse.takeWhile (fun o => decide (o.side = OrderSide.BUY))).map
    (fun o => o.quantity)).sum

/-- A strategy that emits a BUY for every bar. -/
def buy_strategy : Strategy Nat :=
  { state := 0
    reset := fun _ => 0
    on_data := fun n bar => (n + 1, some (scenario_signal SignalType.BUY bar)) }

/-- The freshly constructed engine of the always-BUY strategy on the supplier
of two bars, closes 100 and 200. -/
def buy_engine : BacktestEngine Nat :=
  { data_feed_ := tie_feed
    strategy_ := buy_strategy
    config_ := scenario_config
    cash_ := 10000
    equity_ := 10000 }

/-- Every SELL order of the list sells exactly the open quantity before it,
which is positive. -/
def sells_open_quantity (orders : List Order) : Prop :=
  ∀ (pre : List Order) (o : Order) (post : List Order), orders = pre ++ o :: post →
    o.side = OrderSide.SELL →
    o.quantity = reference_open_quantity pre ∧ 0 < reference_open_quantity pre

/-- The order `order` is the record of acting on `signal` at `bar`: status
FILLED, type MARKET, positive quantity, price the bar's close, and the side,
symbol and timestamp of the signal. -/
def caused_by (order : Order) (signal : Signal) (bar : BarData) : Prop :=
  order.status = OrderStatus.FILLED ∧ order.type = OrderType.MARKET ∧ 0 < order.quantity ∧
    order.price = bar.close ∧ order.symbol = signal.symbol ∧
    order.timestamp = signal.timestamp ∧
    ((signal.type = SignalType.BUY ∧ order.side = OrderSide.BUY) ∨
      (signal.type = SignalType.SELL ∧ order.side = OrderSide.SELL))

end backtest

/-! ## The same code over doubles with infinities and NaN

In the embedding above a `double` is a rational, and a quotient whose divisor
is 0 is the rational 0.  The code divides in two places by a value that can be
0: by `bar.close` in the BUY branch of `process_signal`, and by the running
peak in `calculate_drawdowns` and `calculate_max_drawdown`.  Here the same
functions are embedded over `Double`, a rational or one of the three special
values of IEEE-754, with the special cases of the arithmetic and of the
comparisons.  Rounding and overflow are not modelled, and the sign of a zero
is not represented: a zero divisor counts as `+0.0`. -/

namespace ieee

open data execution strategy analysis backtest

/-- A `double`: a finite value, `+inf`, `-inf` or NaN. -/
inductive Double where
  | finite (value : ℚ)
  | pos_inf
  | neg_inf
  | nan
deriving DecidableEq

namespace Double

/-- The infinity of the given sign. -/
def signed_inf (negative : Bool) : Double := if negative then neg_inf else pos_inf

/-- Unary minus. -/
def neg : Double → Double
  | finite a => finite (-a)
  | pos_inf => neg_inf
  | neg_inf => pos_inf
  | nan => nan

/-- Operator `+`: NaN propagates and `inf + (-inf)` is NaN. -/
def add : Double → Double → Double
  | finite a, finite b => finite (a + b)
  | finite _, pos_inf => pos_inf
  | finite _, neg_inf => neg_inf
  | pos_inf, finite _ => pos_inf
  | pos_inf, pos_inf => pos_inf
  | neg_inf, finite _ => neg_inf
  | neg_inf, neg_inf => neg_inf
  | _, _ => nan

/-- Operator `-`. -/
def sub (x y : Double) : Double := add x (neg y)

/-- Operator `*`: NaN propagates and `inf * 0` is NaN. -/
def mul : Double → Double → Double
  | finite a, finite b => finite (a * b)
  | finite a, pos_inf => if a = 0 then nan else signed_inf (decide (a < 0))
  | finite a, neg_inf => if a = 0 then nan else signed_inf (decide (0 < a))
  | pos_inf, finite b => if b = 0 then nan else signed_inf (decide (b < 0))
  | neg_inf, finite b => if b = 0 then nan else signed_inf (decide (0 < b))
  | pos_inf, pos_inf => pos_inf
  | pos_inf, neg_inf => neg_inf
  | neg_inf, pos_inf => neg_inf
  | neg_inf, neg_inf => pos_inf
  | _, _ => nan

/-- Operator `/`: NaN propagates, `0 / 0` and `inf / inf` are NaN, and a
non-zero value over 0 is the infinity of its sign. -/
def div : Double → Double → Double
  | finite a, finite b =>
    if b = 0 then (if a = 0 then nan else signed_inf (decide (a < 0))) else finite (a / b)
  | finite _, pos_inf => finite 0
  | finite _, neg_inf => finite 0
  | pos_inf, finite b => signed_inf (decide (b < 0))
  | neg_inf, finite b => signed_inf (decide (0 ≤ b))
  | _, _ => nan

/-- Function `std::floor`: the special values are returned unchanged. -/
def floor : Double → Double
  | finite a => finite ((⌊a⌋ : Int) : ℚ)
  | x => x

/-- Operator `<`: false when either side is NaN. -/
def lt : Double → Double → Bool
  | finite a, finite b => decide (a < b)
  | finite _, pos_inf => true
  | neg_inf, finite _ => true
  | neg_inf, pos_inf => true
  | _, _ => false

/-- Operator `<=`: false when either side is NaN. -/
def le : Double → Double → Bool
  | finite a, finite b => decide (a ≤ b)
  | finite _, pos_inf => true
  | pos_inf, pos_inf => true
  | neg_inf, finite _ => true
  | neg_inf, pos_inf => true
  | neg_inf, neg_inf => true
  | _, _ => false

end Double

/-- Record `struct Order` with the default member initialisers of the header. -/
structure Order where
  id : String := ""
  symbol : String
  timestamp : Timestamp
  type : OrderType
  side : OrderSide
  quantity : Double
  price : Double
  filled_quantity : Double := Double.finite 0
  average_price : Double := Double.finite 0
  status : OrderStatus := OrderStatus.PENDING
  metadata : List (String × String) := []
deriving DecidableEq

/-- The member `positions_`: `std::unordered_map<std::string, double>`. -/
abbrev Positions := List (String × Double)

namespace Positions

/-- Method `positions_.find(key)`: `none` stands for `positions_.end()`. -/
def find (m : Positions) (key : String) : Option Double :=
  match m with
  | [] => none
  | (k, v) :: rest => if k = key then some v else find rest key

/-- The quantity read by `positions_[key]`: the stored value, or the
value-initialised `0.0` that `operator[]` inserts for an absent key. -/
def held (m : Positions) (key : String) : Double := (find m key).getD (Double.finite 0)

/-- Assignment through `operator[]`: overwrite the entry of `key`, or insert
a new entry when the key is absent. -/
def assign (m : Positions) (key : String) (value : Double) : Positions :=
  match m with
  | [] => [(key, value)]
  | (k, v) :: rest => if k = key then (k, value) :: rest else (k, v) :: assign rest key value

end Positions

/-- Class `BacktestEngine`: its private members, without
`performance_report_` (the report is computed after the loop and is not part
of this embedding). -/
structure BacktestEngine (σ : Type) where
  data_feed_ : DataFeed
  strategy_ : Strategy σ
  config_ : BacktestConfig
  cash_ : Double
  equity_ : Double
  positions_ : Positions := []
  order_history_ : List Order := []
  equity_curve_ : List (Timestamp × Double) := []

namespace BacktestEngine

variable {σ : Type}

/-- The constructor (backtest_engine.cpp 10-26); a null `shared_ptr` is
`none`. -/
def construct (data_feed : Option DataFeed) (strategy : Option (Strategy σ))
    (config : BacktestConfig) : Except Exception (BacktestEngine σ) :=
  match data_feed, strategy with
  | none, _ => Except.error (Exception.invalid_argument "Data feed cannot be null")
  | some _, none => Except.error (Exception.invalid_argument "Strategy cannot be null")
  | some feed, some strat =>
    Except.ok
      { data_feed_ := feed
        strategy_ := strat
        config_ := config
        cash_ := Double.finite config.initial_capital
        equity_ := Double.finite config.initial_capital }

/-- The local `quantity` of the BUY branch after the optional `std::floor`
(backtest_engine.cpp 79-85). -/
def buy_quantity (e : BacktestEngine σ) (bar : BarData) : Double :=
  let amount_to_invest := e.cash_.mul (Double.finite (9 / 10))
  let price := Double.finite bar.close
  let quantity := amount_to_invest.div price
  if !e.config_.use_fractional_shares then quantity.floor else quantity

/-- Method `process_signal` (backtest_engine.cpp 76-141). -/
def process_signal (e : BacktestEngine σ) (signal : Signal) (bar : BarData) :
    BacktestEngine σ :=
  if signal.type = SignalType.BUY then
    let amount_to_invest := e.cash_.mul (Double.finite (9 / 10))
    let price := Double.finite bar.close
    let quantity := e.buy_quantity bar
    if quantity.le (Double.finite 0) then e
    else
      let order : Order :=
        { symbol := signal.symbol
          timestamp := signal.timestamp
          type := OrderType.MARKET
          side := OrderSide.BUY
          quantity := quantity
          price := price
          status := OrderStatus.FILLED }
      let commission := amount_to_invest.mul (Double.finite e.config_.commission_rate)
      { e with
        cash_ := e.cash_.sub ((quantity.mul price).add commission)
        positions_ :=
          e.positions_.assign signal.symbol ((e.positions_.held signal.symbol).add quantity)
        order_history_ := e.order_history_ ++ [order] }
  else if signal.type = SignalType.SELL then
    match e.positions_.find signal.symbol with
    | none => e
    | some held =>
      if held.le (Double.finite 0) then e
      else
        let quantity := held
        let price := Double.finite bar.close
        let order : Order :=
          { symbol := signal.symbol
            timestamp := signal.timestamp
            type := OrderType.MARKET
            side := OrderSide.SELL
            quantity := quantity
            price := price
            status := OrderStatus.FILLED }
        let commission := (quantity.mul price).mul (Double.finite e.config_.commission_rate)
        { e with
          cash_ := e.cash_.add ((quantity.mul price).sub commission)
          positions_ := e.positions_.assign signal.symbol (Double.finite 0)
          order_history_ := e.order_history_ ++ [order] }
  else e

/-- The local `position_value` of `update_portfolio`: the loop over all
entries of `positions_`. -/
def position_value (positions : Positions) (bar : BarData) : Double :=
  positions.foldl
    (fun acc entry =>
      if entry.1 = bar.symbol then acc.add (entry.2.mul (Double.finite bar.close)) else acc)
    (Double.finite 0)

/-- Method `update_portfolio` (backtest_engine.cpp 143-154). -/
def update_portfolio (e : BacktestEngine σ) (bar : BarData) : BacktestEngine σ :=
  { e with equity_ := e.cash_.add (position_value e.positions_ bar) }

/-- The strategy call `strategy_->on_data(market_data)`: the signal returned
for `bar` in the current strategy state. -/
def signal_for (e : BacktestEngine σ) (bar : BarData) : Option Signal :=
  (e.strategy_.on_data e.strategy_.state bar).2

/-- The engine once the strategy call on `bar` has updated the strategy's
state. -/
def after_on_data (e : BacktestEngine σ) (bar : BarData) : BacktestEngine σ :=
  { e with strategy_ := { e.strategy_ with state := (e.strategy_.on_data e.strategy_.state bar).1 } }

/-- The step `if (signal) process_signal(*signal, bar)` of the loop body. -/
def after_signal (e : BacktestEngine σ) (bar : BarData) : BacktestEngine σ :=
  match e.signal_for bar with
  | some signal => (e.after_on_data bar).process_signal signal bar
  | none => e.after_on_data bar

/-- One iteration of the replay loop of `run` (backtest_engine.cpp 49-66). -/
def run_bar (e : BacktestEngine σ) (bar : BarData) : BacktestEngine σ :=
  let e1 := (e.after_signal bar).update_portfolio bar
  { e1 with equity_curve_ := e1.equity_curve_ ++ [(bar.timestamp, e1.equity_)] }

/-- The bar sequence replayed by `run`: fetched for the fixed symbol and
timeframe, then sorted by timestamp (backtest_engine.cpp 34-46). -/
def replay_bars (srt : StdSort) (e : BacktestEngine σ) : List BarData :=
  srt.sort (e.data_feed_.get_historical_bars "BTCUSDT" e.config_.start_time
    e.config_.end_time "1d")

/-- The engine after `strategy_->initialize()` (backtest_engine.cpp 30). -/
def after_reset (e : BacktestEngine σ) : BacktestEngine σ :=
  { e with strategy_ := { e.strategy_ with state := e.strategy_.reset e.strategy_.state } }

/-- Method `run` up to the end of the replay loop (backtest_engine.cpp 28-66). -/
def run (srt : StdSort) (e : BacktestEngine σ) : BacktestEngine σ :=
  (replay_bars srt e).foldl run_bar e.after_reset

/-- The engine states met by the replay loop: each bar paired with the state
in which its iteration starts. -/
def replay_trace (e : BacktestEngine σ) : List BarData → List (BacktestEngine σ × BarData)
  | [] => []
  | bar :: rest => (e, bar) :: replay_trace (e.run_bar bar) rest

end BacktestEngine

/-- Function `std::max(a, b)`: returns `b` when `a < b`, else `a`. -/
def std_max (a b : Double) : Double := if Double.lt a b then b else a

/-- One iteration of the loop of `calculate_max_drawdown`; the accumulator is
`(max_drawdown, peak)`. -/
def max_drawdown_step (acc : Double × Double) (p : Timestamp × Double) : Double × Double :=
  if Double.lt acc.2 p.2 then (acc.1, p.2)
  else (std_max acc.1 ((acc.2.sub p.2).div acc.2), acc.2)

/-- Function `calculate_max_drawdown` (performance.cpp 125-145). -/
def calculate_max_drawdown (equity_curve : List (Timestamp × Double)) : Double :=
  match equity_curve with
  | [] => Double.finite 0
  | first :: _ => (equity_curve.foldl max_drawdown_step (Double.finite 0, first.2)).1

/-- One iteration of the loop of `calculate_drawdowns`; the accumulator is
`(peak, drawdowns)`. -/
def drawdowns_step (acc : Double × List (Timestamp × Double)) (p : Timestamp × Double) :
    Double × List (Timestamp × Double) :=
  let peak := if Double.lt acc.1 p.2 then p.2 else acc.1
  (peak, acc.2 ++ [(p.1, (peak.sub p.2).div peak)])

/-- Function `calculate_drawdowns` (performance.cpp 102-123). -/
def calculate_drawdowns (equity_curve : List (Timestamp × Double)) :
    List (Timestamp × Double) :=
  match equity_curve with
  | [] => []
  | first :: _ => (equity_curve.foldl drawdowns_step (first.2, [])).2

/-- An order of the rational embedding as an order over doubles. -/
def Order.of_rational (o : execution.Order) : Order :=
  { id := o.id
    symbol := o.symbol
    timestamp := o.timestamp
    type := o.type
    side := o.side
    quantity := Double.finite o.quantity
    price := Double.finite o.price
    filled_quantity := Double.finite o.filled_quantity
    average_price := Double.finite o.average_price
    status := o.status
    metadata := o.metadata }

/-- A position map of the rational embedding as a map over doubles. -/
def Positions.of_rational (m : backtest.Positions) : Positions :=
  m.map (fun kv => (kv.1, Double.finite kv.2))

/-- An engine state of the rational embedding as a state over doubles: the
same members, every value finite. -/
def BacktestEngine.of_rational {σ : Type} (e : backtest.BacktestEngine σ) : BacktestEngine σ :=
  { data_feed_ := e.data_feed_
    strategy_ := e.strategy_
    config_ := e.config_
    cash_ := Double.finite e.cash_
    equity_ := Double.finite e.equity_
    positions_ := Positions.of_rational e.positions_
    order_history_ := e.order_history_.map Order.of_rational
    equity_curve_ := e.equity_curve_.map (fun p => (p.1, Double.finite p.2)) }

end ieee

/-! ## Theorems -/

open data execution strategy analysis backtest

section positions

theorem find_assign_same (m : Positions) (key : String) (value : ℚ) :
    Positions.find (Positions.assign m key value) key = some value := by
  induction m with
  | nil => simp [Positions.assign, Positions.find]
  | cons hd tl ih =>
    obtain ⟨k, v⟩ := hd
    by_cases h : k = key
    · simp [Positions.assign, Positions.find, h]
    · simp [Positions.assign, Positions.find, h, ih]

theorem find_assign_other (m : Positions) (key other : String) (value : ℚ)
    (h : other ≠ key) :
    Positions.find (Positions.assign m key value) other = Positions.find m other := by
  induction m with
  | nil =>
    have h2 : ¬ key = other := fun hk => h hk.symm
    simp [Positions.assign, Positions.find, h2]
  | cons hd tl ih =>
    obtain ⟨k, v⟩ := hd
    by_cases hk : k = key
    · have h2 : ¬ key = other := fun hk2 => h hk2.symm
      simp [Positions.assign, Positions.find, hk, h2]
    · by_cases ho : k = other
      · subst ho
        simp [Positions.assign, Positions.find, hk]
      · simp [Positions.assign, Positions.find, hk, ho, ih]

theorem held_assign_same (m : Positions) (key : String) (value : ℚ) :
    Positions.held (Positions.assign m key value) key = value := by
  simp [Positions.held, find_assign_same]

end positions

section process_signal

variable {σ : Type}

theorem buy_quantity_eq (e : BacktestEngine σ) (bar : BarData) :
    e.buy_quantity bar =
      if e.config_.use_fractional_shares then 9 / 10 * e.cash_ / bar.close
      else ((⌊9 / 10 * e.cash_ / bar.close⌋ : Int) : ℚ) := by
  unfold BacktestEngine.buy_quantity
  cases e.config_.use_fractional_shares <;> simp [mul_comm]

theorem process_signal_buy_skip (e : BacktestEngine σ) (signal : Signal) (bar : BarData)
    (hbuy : signal.type = SignalType.BUY) (h : e.buy_quantity bar ≤ 0) :
    e.process_signal signal bar = e := by
  simp [BacktestEngine.process_signal, hbuy, h]

theorem process_signal_buy_fill (e : BacktestEngine σ) (signal : Signal) (bar : BarData)
    (hbuy : signal.type = SignalType.BUY) (h : 0 < e.buy_quantity bar) :
    e.process_signal signal bar =
      { e with
        cash_ := e.cash_ -
          (e.buy_quantity bar * bar.close + e.cash_ * (9 / 10) * e.config_.commission_rate)
        positions_ := e.positions_.assign signal.symbol
          (e.positions_.held signal.symbol + e.buy_quantity bar)
        order_history_ := e.order_history_ ++
          [{ symbol := signal.symbol, timestamp := signal.timestamp,
             type := OrderType.MARKET, side := OrderSide.BUY,
             quantity := e.buy_quantity bar, price := bar.close,
             status := OrderStatus.FILLED }] } := by
  simp [BacktestEngine.process_signal, hbuy, not_le.mpr h]

theorem process_signal_sell_absent (e : BacktestEngine σ) (signal : Signal) (bar : BarData)
    (hsell : signal.type = SignalType.SELL) (h : e.positions_.find signal.symbol = none) :
    e.process_signal signal bar = e := by
  simp [BacktestEngine.process_signal, hsell, h]

theorem process_signal_sell_skip (e : BacktestEngine σ) (signal : Signal) (bar : BarData)
    (q : ℚ) (hsell : signal.type = SignalType.SELL)
    (h : e.positions_.find signal.symbol = some q) (hq : q ≤ 0) :
    e.process_signal signal bar = e := by
  simp [BacktestEngine.process_signal, hsell, h, hq]

theorem process_signal_sell_fill (e : BacktestEngine σ) (signal : Signal) (bar : BarData)
    (q : ℚ) (hsell : signal.type = SignalType.SELL)
    (h : e.positions_.find signal.symbol = some q) (hq : 0 < q) :
    e.process_signal signal bar =
      { e with
        cash_ := e.cash_ + (q * bar.close - q * bar.close * e.config_.commission_rate)
        positions_ := e.positions_.assign signal.symbol 0
        order_history_ := e.order_history_ ++
          [{ symbol := signal.symbol, timestamp := signal.timestamp,
             type := OrderType.MARKET, side := OrderSide.SELL,
             quantity := q, price := bar.close,
             status := OrderStatus.FILLED }] } := by
  simp [BacktestEngine.process_signal, hsell, h, not_le.mpr hq]

theorem process_signal_hold (e : BacktestEngine σ) (signal : Signal) (bar : BarData)
    (hhold : signal.type = SignalType.HOLD) :
    e.process_signal signal bar = e := by
  simp [BacktestEngine.process_signal, hhold]

/-- C2: BUY postcondition. With A = 0.9 * cash and q = A / close (floored
when fractional shares are disabled), a BUY signal with q > 0 sets cash to
cash - q * close - A * commission_rate, raises the quantity held under the
signal's symbol by exactly q and appends exactly one order, of side BUY,
quantity q and price close. -/
theorem process_signal_buy_post (e : BacktestEngine σ) (signal : Signal) (bar : BarData)
    (A q : ℚ) (hbuy : signal.type = SignalType.BUY) (hA : A = 9 / 10 * e.cash_)
    (hq : q = if e.config_.use_fractional_shares then A / bar.close
              else ((⌊A / bar.close⌋ : Int) : ℚ))
    (hpos : 0 < q) :
    (e.process_signal signal bar).cash_
        = e.cash_ - q * bar.close - A * e.config_.commission_rate ∧
      (e.process_signal signal bar).positions_.held signal.symbol
        = e.positions_.held signal.symbol + q ∧
      ∃ order : Order,
        (e.process_signal signal bar).order_history_ = e.order_history_ ++ [order] ∧
        order.side = OrderSide.BUY ∧ order.quantity = q ∧ order.price = bar.close := by
  have hbq : e.buy_quantity bar = q := by rw [buy_quantity_eq, hq, hA]
  rw [process_signal_buy_fill e signal bar hbuy (by rw [hbq]; exact hpos), hbq]
  refine ⟨?_, ?_, ?_⟩
  · show e.cash_ - (q * bar.close + e.cash_ * (9 / 10) * e.config_.commission_rate) = _
    rw [hA]; ring
  · exact held_assign_same _ _ _
  · exact ⟨_, rfl, rfl, rfl, rfl⟩

/-- C3: SELL postcondition. When the quantity q held under the signal's
symbol is positive, a SELL signal liquidates it in one order: cash becomes
cash + q * close - q * close * commission_rate, the held quantity becomes 0,
other symbols keep their entries, and exactly one order, of side SELL,
quantity q and price close, is appended. -/
theorem process_signal_sell_post (e : BacktestEngine σ) (signal : Signal) (bar : BarData)
    (q : ℚ) (hsell : signal.type = SignalType.SELL)
    (hfind : e.positions_.find signal.symbol = some q) (hpos : 0 < q) :
    (e.process_signal signal bar).cash_
        = e.cash_ + q * bar.close - q * bar.close * e.config_.commission_rate ∧
      (e.process_signal signal bar).positions_.find signal.symbol = some 0 ∧
      (∀ other : String, other ≠ signal.symbol →
        (e.process_signal signal bar).positions_.find other = e.positions_.find other) ∧
      ∃ order : Order,
        (e.process_signal signal bar).order_history_ = e.order_history_ ++ [order] ∧
        order.side = OrderSide.SELL ∧ order.quantity = q ∧ order.price = bar.close := by
  rw [process_signal_sell_fill e signal bar q hsell hfind hpos]
  refine ⟨?_, ?_, ?_, ?_⟩
  · show e.cash_ + (q * bar.close - q * bar.close * e.config_.commission_rate) = _
    ring
  · exact find_assign_same _ _ _
  · intro other ho
    exact find_assign_other _ _ _ _ ho
  · exact ⟨_, rfl, rfl, rfl, rfl⟩

/-- C4: a SELL signal whose symbol has no position (absent from the map, or
held quantity not positive) leaves the whole engine state unchanged: no order,
same cash, same positions, same order history. -/
theorem process_signal_sell_ignored (e : BacktestEngine σ) (signal : Signal) (bar : BarData)
    (hsell : signal.type = SignalType.SELL)
    (hnone : e.positions_.find signal.symbol = none ∨
      ∃ q : ℚ, e.positions_.find signal.symbol = some q ∧ q ≤ 0) :
    e.process_signal signal bar = e := by
  rcases hnone with h | ⟨q, h, hq⟩
  · exact process_signal_sell_absent e signal bar hsell h
  · exact process_signal_sell_skip e signal bar q hsell h hq

/-- C5: a BUY signal whose computed quantity (0.9 * cash / close, floored when
fractional shares are disabled) is not positive leaves the whole engine state
unchanged; this covers cash <= 0 with close > 0, and fractional shares
disabled with 0 <= 0.9 * cash < close. -/
theorem process_signal_buy_ignored (e : BacktestEngine σ) (signal : Signal) (bar : BarData)
    (hbuy : signal.type = SignalType.BUY) :
    ((if e.config_.use_fractional_shares then 9 / 10 * e.cash_ / bar.close
        else ((⌊9 / 10 * e.cash_ / bar.close⌋ : Int) : ℚ)) ≤ 0 →
        e.process_signal signal bar = e) ∧
      (e.cash_ ≤ 0 → 0 < bar.close → e.process_signal signal bar = e) ∧
      (e.config_.use_fractional_shares = false → 0 ≤ 9 / 10 * e.cash_ →
        9 / 10 * e.cash_ < bar.close → e.process_signal signal bar = e) := by
  have key : e.buy_quantity bar ≤ 0 → e.process_signal signal bar = e :=
    process_signal_buy_skip e signal bar hbuy
  refine ⟨?_, ?_, ?_⟩
  · intro h
    exact key (by rw [buy_quantity_eq]; exact h)
  · intro hc hp
    apply key
    rw [buy_quantity_eq]
    have hdiv : 9 / 10 * e.cash_ / bar.close ≤ 0 :=
      div_nonpos_of_nonpos_of_nonneg (by linarith) hp.le
    split
    · exact hdiv
    · have hfl : ⌊9 / 10 * e.cash_ / bar.close⌋ ≤ 0 := by
        have h1 : ⌊9 / 10 * e.cash_ / bar.close⌋ ≤ ⌊(0 : ℚ)⌋ := Int.floor_mono hdiv
        simpa using h1
      exact_mod_cast hfl
  · intro hf h0 hlt
    apply key
    rw [buy_quantity_eq, hf]
    have hp : 0 < bar.close := lt_of_le_of_lt h0 hlt
    have hfl : ⌊9 / 10 * e.cash_ / bar.close⌋ = 0 := by
      rw [Int.floor_eq_iff]
      constructor
      · simpa using div_nonneg h0 hp.le
      · simpa using (div_lt_one hp).mpr hlt
    simp [hfl]

/-- Witness of C2: cash 1000, whole shares, close 400, commission 1 percent:
A = 900, q = 2, cash becomes 1000 - 800 - 9 = 191. -/
theorem process_signal_buy_post_witness :
    (whole_share_engine.process_signal (scenario_signal SignalType.BUY (scenario_bar 1 400))
        (scenario_bar 1 400)).cash_ = 191 ∧
      (whole_share_engine.process_signal (scenario_signal SignalType.BUY (scenario_bar 1 400))
        (scenario_bar 1 400)).positions_.held "BTCUSDT" = 2 := by
  have h := process_signal_buy_post whole_share_engine
    (scenario_signal SignalType.BUY (scenario_bar 1 400)) (scenario_bar 1 400) 900 2 rfl
    (by norm_num [whole_share_engine])
    (by
      have hfl : ⌊(900 : ℚ) / 400⌋ = 2 := by
        rw [Int.floor_eq_iff]; constructor <;> norm_num
      simp [whole_share_engine, scenario_bar, hfl])
    (by norm_num)
  refine ⟨?_, ?_⟩
  · rw [h.1]; norm_num [whole_share_engine, scenario_bar]
  · have h2 := h.2.1
    simp only [scenario_signal, scenario_bar] at h2 ⊢
    rw [h2]; norm_num [whole_share_engine, Positions.held, Positions.find]

/-- Witness of C3: 90 units held, close 120, no commission: cash becomes
1000 + 10800 = 11800. -/
theorem process_signal_sell_post_witness :
    ({ scenario_engine with cash_ := 1000, positions_ := [("BTCUSDT", 90)] }.process_signal
        (scenario_signal SignalType.SELL (scenario_bar 3 120)) (scenario_bar 3 120)).cash_
      = 11800 := by
  have h := process_signal_sell_post
    { scenario_engine with cash_ := 1000, positions_ := [("BTCUSDT", 90)] }
    (scenario_signal SignalType.SELL (scenario_bar 3 120)) (scenario_bar 3 120) 90 rfl
    (by simp [scenario_signal, scenario_bar, Positions.find]) (by norm_num)
  rw [h.1]; norm_num [scenario_engine, scenario_config, scenario_bar]

/-- Witness of C4: a SELL on the fresh scenario engine, which holds nothing. -/
theorem process_signal_sell_ignored_witness :
    scenario_engine.process_signal (scenario_signal SignalType.SELL (scenario_bar 1 100))
      (scenario_bar 1 100) = scenario_engine :=
  process_signal_sell_ignored scenario_engine
    (scenario_signal SignalType.SELL (scenario_bar 1 100)) (scenario_bar 1 100) rfl
    (Or.inl rfl)

/-- Witness of C5: cash 1000, whole shares, close 1000: 0.9 * 1000 = 900 buys
no whole share. -/
theorem process_signal_buy_ignored_witness :
    whole_share_engine.process_signal (scenario_signal SignalType.BUY (scenario_bar 1 1000))
      (scenario_bar 1 1000) = whole_share_engine :=
  (process_signal_buy_ignored whole_share_engine
    (scenario_signal SignalType.BUY (scenario_bar 1 1000)) (scenario_bar 1 1000) rfl).2.2
    rfl (by norm_num [whole_share_engine]) (by norm_num [whole_share_engine, scenario_bar])

end process_signal

section performance

theorem total_return_eq (m : CMath) (equity_curve : List (Timestamp × ℚ))
    (orders : List Order) (initial_capital : ℚ) (h : equity_curve ≠ []) :
    (calculate_performance m equity_curve orders initial_capital).total_return
      = ((equity_curve.getLast h).2 - initial_capital) / initial_capital := by
  cases equity_curve with
  | nil => exact absurd rfl h
  | cons front rest => rfl

/-- C9: for a non-empty equity curve, total_return is
(final_equity - initial_capital) / initial_capital, final_equity being the
equity of the last curve entry. -/
theorem calculate_performance_total_return (m : CMath) (equity_curve : List (Timestamp × ℚ))
    (orders : List Order) (initial_capital : ℚ) (h : equity_curve ≠ []) :
    (calculate_performance m equity_curve orders initial_capital).total_return
      = ((equity_curve.getLast h).2 - initial_capital) / initial_capital :=
  total_return_eq m equity_curve orders initial_capital h

/-- Witness of C9: the curve 10000, 10900, 11800 with capital 10000 has
total_return 18/100. -/
theorem calculate_performance_total_return_witness :
    (calculate_performance sample_cmath [(1, 10000), (2, 10900), (3, 11800)] []
        10000).total_return
      = 18 / 100 := by
  rw [calculate_performance_total_return sample_cmath [(1, 10000), (2, 10900), (3, 11800)] []
    10000 (by simp)]
  norm_num

theorem std_max_nonneg (a b : ℚ) (ha : 0 ≤ a) : 0 ≤ std_max a b := by
  unfold std_max
  split
  · linarith
  · exact ha

theorem std_max_le (a b c : ℚ) (ha : a ≤ c) (hb : b ≤ c) : std_max a b ≤ c := by
  unfold std_max
  split
  · exact hb
  · exact ha

theorem max_drawdown_fold_nonneg (l : List (Timestamp × ℚ)) (acc : ℚ × ℚ) (h : 0 ≤ acc.1) :
    0 ≤ (l.foldl max_drawdown_step acc).1 := by
  induction l generalizing acc with
  | nil => exact h
  | cons p rest ih =>
    rw [List.foldl_cons]
    apply ih
    unfold max_drawdown_step
    split
    · exact h
    · exact std_max_nonneg _ _ h

theorem max_drawdown_fold_le_one (l : List (Timestamp × ℚ)) (acc : ℚ × ℚ)
    (hl : ∀ p ∈ l, 0 ≤ p.2) (h : acc.1 ≤ 1) (hpeak : 0 ≤ acc.2) :
    (l.foldl max_drawdown_step acc).1 ≤ 1 := by
  induction l generalizing acc with
  | nil => exact h
  | cons p rest ih =>
    rw [List.foldl_cons]
    have hp : 0 ≤ p.2 := hl p (List.mem_cons_self _ _)
    have hrest : ∀ x ∈ rest, 0 ≤ x.2 := fun x hx => hl x (List.mem_cons_of_mem _ hx)
    unfold max_drawdown_step
    split
    · exact ih _ hrest h hp
    · refine ih _ hrest ?_ hpeak
      apply std_max_le _ _ _ h
      rcases eq_or_lt_of_le hpeak with h0 | hpos
      · rw [← h0]; simp
      · rw [div_le_one hpos]; linarith

/-- C10 (amended): the result of calculate_max_drawdown is never negative, and
it is at most 1 for every curve whose equity values are all non-negative. -/
theorem calculate_max_drawdown_bounds (equity_curve : List (Timestamp × ℚ)) :
    0 ≤ calculate_max_drawdown equity_curve ∧
      ((∀ p ∈ equity_curve, 0 ≤ p.2) → calculate_max_drawdown equity_curve ≤ 1) := by
  cases equity_curve with
  | nil => simp [calculate_max_drawdown]
  | cons first rest =>
    refine ⟨max_drawdown_fold_nonneg _ _ (le_refl _), fun hl => ?_⟩
    exact max_drawdown_fold_le_one _ _ hl (by norm_num) (hl first (List.mem_cons_self _ _))

/-- Witness of C10 (amended): the curve 100, 50, 120 has a drawdown in
[0, 1]. -/
theorem calculate_max_drawdown_bounds_witness :
    calculate_max_drawdown [(1, 100), (2, 50), (3, 120)] ≤ 1 :=
  (calculate_max_drawdown_bounds [(1, 100), (2, 50), (3, 120)]).2
    (by
      intro p hp
      simp only [List.mem_cons, List.mem_singleton, List.not_mem_nil, or_false] at hp
      rcases hp with h | h | h <;> rw [h] <;> norm_num)

/-- Counterexample to C10 as stated: on the curve 100, -50 the running peak is
100 and the second point gives (100 - (-50)) / 100 = 3/2, outside [0, 1]. -/
theorem calculate_max_drawdown_exceeds_one :
    calculate_max_drawdown [(0, 100), (1, -50)] = 3 / 2 ∧
      ¬ (0 ≤ calculate_max_drawdown [(0, 100), (1, -50)] ∧
          calculate_max_drawdown [(0, 100), (1, -50)] ≤ 1) := by
  have h : calculate_max_drawdown [(0, 100), (1, -50)] = 3 / 2 := by
    norm_num [calculate_max_drawdown, max_drawdown_step, std_max]
  rw [h]
  norm_num

end performance

section replay

variable {σ : Type}

/-- The keys of a position map. -/
theorem keys_assign (m : Positions) (key : String) (value : ℚ) :
    (Positions.assign m key value).map Prod.fst
      = if key ∈ m.map Prod.fst then m.map Prod.fst else m.map Prod.fst ++ [key] := by
  induction m with
  | nil => simp [Positions.assign]
  | cons hd tl ih =>
    obtain ⟨k, v⟩ := hd
    by_cases h : k = key
    · subst h
      simp [Positions.assign]
    · have h2 : ¬ key = k := fun hk => h hk.symm
      by_cases hmem : key ∈ tl.map Prod.fst
      · rw [if_pos hmem] at ih
        have hmem2 : key ∈ ((k, v) :: tl).map Prod.fst := by
          rw [List.map_cons]; exact List.mem_cons_of_mem _ hmem
        rw [if_pos hmem2]
        simp only [Positions.assign, h, if_false, List.map_cons, ih]
      · rw [if_neg hmem] at ih
        have hmem2 : ¬ key ∈ ((k, v) :: tl).map Prod.fst := by
          rw [List.map_cons, List.mem_cons]
          rintro (hk | hk)
          · exact h2 hk
          · exact hmem hk
        rw [if_neg hmem2]
        simp only [Positions.assign, h, if_false, List.map_cons, ih, List.cons_append]

theorem nodup_keys_assign (m : Positions) (key : String) (value : ℚ)
    (h : (m.map Prod.fst).Nodup) : ((Positions.assign m key value).map Prod.fst).Nodup := by
  rw [keys_assign]
  split
  · exact h
  · rename_i hmem
    rw [List.nodup_append]
    refine ⟨h, List.nodup_singleton _, ?_⟩
    intro a ha hb
    rw [List.mem_singleton] at hb
    exact hmem (hb ▸ ha)

theorem position_fold_absent (m : Positions) (bar : BarData) (acc : ℚ)
    (h : bar.symbol ∉ m.map Prod.fst) :
    m.foldl (fun a entry => if entry.1 = bar.symbol then a + entry.2 * bar.close else a) acc
      = acc := by
  induction m generalizing acc with
  | nil => rfl
  | cons hd tl ih =>
    rw [List.map_cons, List.mem_cons, not_or] at h
    rw [List.foldl_cons, if_neg (fun hk => h.1 hk.symm)]
    exact ih acc h.2

theorem position_fold_nodup (m : Positions) (bar : BarData) (acc : ℚ)
    (h : (m.map Prod.fst).Nodup) :
    m.foldl (fun a entry => if entry.1 = bar.symbol then a + entry.2 * bar.close else a) acc
      = acc + Positions.held m bar.symbol * bar.close := by
  induction m generalizing acc with
  | nil => simp [Positions.held, Positions.find]
  | cons hd tl ih =>
    obtain ⟨k, v⟩ := hd
    rw [List.map_cons, List.nodup_cons] at h
    rw [List.foldl_cons]
    by_cases hk : k = bar.symbol
    · have habs : bar.symbol ∉ tl.map Prod.fst := hk ▸ h.1
      rw [if_pos hk, position_fold_absent tl bar _ habs]
      simp [Positions.held, Positions.find, hk]
    · rw [if_neg hk, ih acc h.2]
      simp [Positions.held, Positions.find, hk]

/-- With pairwise distinct keys, the loop of update_portfolio marks exactly the
quantity held under the bar's symbol. -/
theorem position_value_eq (m : Positions) (bar : BarData) (h : (m.map Prod.fst).Nodup) :
    BacktestEngine.position_value m bar = Positions.held m bar.symbol * bar.close := by
  unfold BacktestEngine.position_value
  rw [position_fold_nodup m bar 0 h, zero_add]

/-- The two outcomes of process_signal: nothing changes, or cash, one position
entry and the order history change. -/
theorem process_signal_cases (e : BacktestEngine σ) (signal : Signal) (bar : BarData) :
    e.process_signal signal bar = e ∨
      ∃ (cash value : ℚ) (order : Order),
        e.process_signal signal bar =
          { e with
            cash_ := cash
            positions_ := e.positions_.assign signal.symbol value
            order_history_ := e.order_history_ ++ [order] } := by
  rcases hs : signal.type with _ | _ | _
  · rcases le_or_lt (e.buy_quantity bar) 0 with h | h
    · exact Or.inl (process_signal_buy_skip e signal bar hs h)
    · exact Or.inr ⟨_, _, _, process_signal_buy_fill e signal bar hs h⟩
  · rcases hf : e.positions_.find signal.symbol with _ | q
    · exact Or.inl (process_signal_sell_absent e signal bar hs hf)
    · rcases le_or_lt q 0 with h | h
      · exact Or.inl (process_signal_sell_skip e signal bar q hs hf h)
      · exact Or.inr ⟨_, _, _, process_signal_sell_fill e signal bar q hs hf h⟩
  · exact Or.inl (process_signal_hold e signal bar hs)

theorem process_signal_nodup (e : BacktestEngine σ) (signal : Signal) (bar : BarData)
    (h : (e.positions_.map Prod.fst).Nodup) :
    ((e.process_signal signal bar).positions_.map Prod.fst).Nodup := by
  rcases process_signal_cases e signal bar with h1 | ⟨c, v, o, h1⟩
  · rw [h1]; exact h
  · rw [h1]; exact nodup_keys_assign _ _ _ h

theorem process_signal_curve (e : BacktestEngine σ) (signal : Signal) (bar : BarData) :
    (e.process_signal signal bar).equity_curve_ = e.equity_curve_ := by
  rcases process_signal_cases e signal bar with h1 | ⟨c, v, o, h1⟩ <;> rw [h1]

theorem process_signal_config (e : BacktestEngine σ) (signal : Signal) (bar : BarData) :
    (e.process_signal signal bar).config_ = e.config_ := by
  rcases process_signal_cases e signal bar with h1 | ⟨c, v, o, h1⟩ <;> rw [h1]

theorem after_signal_nodup (e : BacktestEngine σ) (bar : BarData)
    (h : (e.positions_.map Prod.fst).Nodup) :
    ((e.after_signal bar).positions_.map Prod.fst).Nodup := by
  unfold BacktestEngine.after_signal
  split
  · exact process_signal_nodup _ _ _ h
  · exact h

theorem after_signal_curve (e : BacktestEngine σ) (bar : BarData) :
    (e.after_signal bar).equity_curve_ = e.equity_curve_ := by
  unfold BacktestEngine.after_signal
  split
  · rw [process_signal_curve]; rfl
  · rfl

theorem after_signal_config (e : BacktestEngine σ) (bar : BarData) :
    (e.after_signal bar).config_ = e.config_ := by
  unfold BacktestEngine.after_signal
  split
  · rw [process_signal_config]; rfl
  · rfl

theorem run_bar_nodup (e : BacktestEngine σ) (bar : BarData)
    (h : (e.positions_.map Prod.fst).Nodup) :
    ((e.run_bar bar).positions_.map Prod.fst).Nodup :=
  after_signal_nodup e bar h

theorem run_bar_curve (e : BacktestEngine σ) (bar : BarData) :
    (e.run_bar bar).equity_curve_
      = e.equity_curve_ ++
        [(bar.timestamp,
          (e.after_signal bar).cash_
            + BacktestEngine.position_value (e.after_signal bar).positions_ bar)] := by
  show (e.after_signal bar).equity_curve_ ++ _ = _
  rw [after_signal_curve]
  rfl

theorem run_bar_config (e : BacktestEngine σ) (bar : BarData) :
    (e.run_bar bar).config_ = e.config_ :=
  after_signal_config e bar

theorem replay_curve (bars : List BarData) (e : BacktestEngine σ)
    (h : (e.positions_.map Prod.fst).Nodup) :
    (bars.foldl BacktestEngine.run_bar e).equity_curve_
      = e.equity_curve_ ++
        (e.replay_trace bars).map (fun sb =>
          (sb.2.timestamp,
            (sb.1.after_signal sb.2).cash_
              + (sb.1.after_signal sb.2).positions_.held sb.2.symbol * sb.2.close)) := by
  induction bars generalizing e with
  | nil => simp [BacktestEngine.replay_trace]
  | cons bar rest ih =>
    rw [List.foldl_cons, ih _ (run_bar_nodup e bar h), run_bar_curve,
      position_value_eq _ _ (after_signal_nodup e bar h)]
    simp [BacktestEngine.replay_trace]

theorem replay_trace_bars (bars : List BarData) (e : BacktestEngine σ) :
    (e.replay_trace bars).map Prod.snd = bars := by
  induction bars generalizing e with
  | nil => rfl
  | cons bar rest ih => simp [BacktestEngine.replay_trace, ih]

theorem replay_curve_timestamps (bars : List BarData) (e : BacktestEngine σ) :
    (bars.foldl BacktestEngine.run_bar e).equity_curve_.map Prod.fst
      = e.equity_curve_.map Prod.fst ++ bars.map BarData.timestamp := by
  induction bars generalizing e with
  | nil => simp
  | cons bar rest ih =>
    rw [List.foldl_cons, ih, run_bar_curve]
    simp

/-- What the constructor establishes when both collaborators are present. -/
theorem construct_ok (feed : DataFeed) (strat : Strategy σ) (config : BacktestConfig)
    (e : BacktestEngine σ)
    (h : BacktestEngine.construct (some feed) (some strat) config = Except.ok e) :
    e = { data_feed_ := feed, strategy_ := strat, config_ := config,
          cash_ := config.initial_capital, equity_ := config.initial_capital } := by
  simp only [BacktestEngine.construct, Except.ok.injEq] at h
  exact h.symm

/-- C7: mark-to-market. After run() on a fresh engine, the equity-curve entry
of every replayed bar is the cash after that bar's signal processing plus the
quantity then held under the bar's symbol times the bar's close; no other
symbol contributes, and the value is recomputed from the current cash and
positions at every bar. -/
theorem run_equity_curve_marks (srt : StdSort) (m : CMath) (feed : DataFeed)
    (strat : Strategy σ) (config : BacktestConfig) (e : BacktestEngine σ)
    (hfresh : BacktestEngine.construct (some feed) (some strat) config = Except.ok e) :
    (e.run srt m).equity_curve_
      = (e.after_reset.replay_trace (BacktestEngine.replay_bars srt e)).map (fun sb =>
          (sb.2.timestamp,
            (sb.1.after_signal sb.2).cash_
              + (sb.1.after_signal sb.2).positions_.held sb.2.symbol * sb.2.close)) := by
  have he := construct_ok feed strat config e hfresh
  have hpos : (e.after_reset.positions_.map Prod.fst).Nodup := by
    rw [he]; exact List.nodup_nil
  have hcurve : e.after_reset.equity_curve_ = [] := by rw [he]; rfl
  show ((BacktestEngine.replay_bars srt e).foldl BacktestEngine.run_bar
    e.after_reset).equity_curve_ = _
  rw [replay_curve _ _ hpos, hcurve, List.nil_append]

/-- C8: after run() on a fresh engine the equity curve has one entry per
supplied bar, and its timestamps are the supplied timestamps in non-decreasing
order (a sorted permutation of them). -/
theorem run_equity_curve_timestamps (srt : StdSort) (m : CMath) (feed : DataFeed)
    (strat : Strategy σ) (config : BacktestConfig) (e : BacktestEngine σ)
    (hfresh : BacktestEngine.construct (some feed) (some strat) config = Except.ok e) :
    (e.run srt m).equity_curve_.length
        = (feed.get_historical_bars "BTCUSDT" config.start_time config.end_time "1d").length ∧
      List.Perm ((e.run srt m).equity_curve_.map Prod.fst)
        ((feed.get_historical_bars "BTCUSDT" config.start_time config.end_time "1d").map
          BarData.timestamp) ∧
      List.Pairwise (fun a b : Timestamp => a ≤ b) ((e.run srt m).equity_curve_.map Prod.fst) := by
  have he := construct_ok feed strat config e hfresh
  have hcurve : e.after_reset.equity_curve_ = [] := by rw [he]; rfl
  have hbars : BacktestEngine.replay_bars srt e
      = srt.sort (feed.get_historical_bars "BTCUSDT" config.start_time config.end_time "1d") := by
    rw [he]; rfl
  have hts : (e.run srt m).equity_curve_.map Prod.fst
      = (srt.sort (feed.get_historical_bars "BTCUSDT" config.start_time config.end_time
          "1d")).map BarData.timestamp := by
    show ((BacktestEngine.replay_bars srt e).foldl BacktestEngine.run_bar
      e.after_reset).equity_curve_.map Prod.fst = _
    rw [replay_curve_timestamps, hcurve, hbars]
    simp
  refine ⟨?_, ?_, ?_⟩
  · have hlen := congrArg List.length hts
    rw [List.length_map, List.length_map] at hlen
    rw [hlen]
    exact (srt.is_perm _).length_eq
  · rw [hts]
    exact (srt.is_perm _).map _
  · rw [hts, List.pairwise_map]
    exact srt.is_sorted _

/-- A sort meeting the contract of std::sort returns an input whose timestamps
are strictly ascending unchanged. -/
theorem std_sort_ascending (srt : StdSort) (l : List BarData)
    (h : l.Pairwise (fun a b : BarData => a.timestamp < b.timestamp)) : srt.sort l = l := by
  have hperm := srt.is_perm l
  have hnd : l.Nodup := h.imp (fun hab heq => by subst heq; exact lt_irrefl _ hab)
  have hnd2 : (srt.sort l).Nodup := hperm.nodup_iff.mpr hnd
  have hinj : ∀ a ∈ l, ∀ b ∈ l, a ≠ b → a.timestamp ≠ b.timestamp :=
    List.Pairwise.forall (fun _ _ hxy => Ne.symm hxy) (h.imp (fun hab => ne_of_lt hab))
  have hstrict : (srt.sort l).Pairwise (fun a b : BarData => a.timestamp < b.timestamp) :=
    ((srt.is_sorted l).and hnd2).imp_of_mem (fun ha hb hab =>
      lt_of_le_of_ne hab.1 (hinj _ (hperm.subset ha) _ (hperm.subset hb) hab.2))
  haveI : IsAntisymm BarData (fun a b : BarData => a.timestamp < b.timestamp) :=
    ⟨fun _ _ h1 h2 => absurd h1 (not_lt.mpr (le_of_lt h2))⟩
  exact List.eq_of_perm_of_sorted hperm hstrict h

theorem scenario_replay_bars (srt : StdSort) :
    BacktestEngine.replay_bars srt scenario_engine
      = [scenario_bar 1 100, scenario_bar 2 110, scenario_bar 3 120] := by
  show srt.sort [scenario_bar 1 100, scenario_bar 2 110, scenario_bar 3 120] = _
  apply std_sort_ascending
  simp [scenario_bar]

theorem scenario_first_bar :
    scenario_engine.after_reset.run_bar (scenario_bar 1 100)
      = { scenario_engine with
          strategy_ := { scenario_strategy with state := 1 }
          cash_ := 1000
          equity_ := 10000
          positions_ := [("BTCUSDT", 90)]
          order_history_ := [scenario_buy_order]
          equity_curve_ := [(1, 10000)] } := by
  norm_num [BacktestEngine.run_bar, BacktestEngine.after_signal, BacktestEngine.signal_for,
    BacktestEngine.after_on_data, BacktestEngine.after_reset, BacktestEngine.process_signal,
    BacktestEngine.buy_quantity, BacktestEngine.update_portfolio,
    BacktestEngine.position_value, Positions.assign, Positions.held, Positions.find,
    scenario_engine, scenario_strategy, scenario_signal, scenario_bar, scenario_config,
    scenario_buy_order]

theorem scenario_second_bar :
    BacktestEngine.run_bar
        { scenario_engine with
          strategy_ := { scenario_strategy with state := 1 }
          cash_ := 1000
          equity_ := 10000
          positions_ := [("BTCUSDT", 90)]
          order_history_ := [scenario_buy_order]
          equity_curve_ := [(1, 10000)] } (scenario_bar 2 110)
      = { scenario_engine with
          strategy_ := { scenario_strategy with state := 2 }
          cash_ := 1000
          equity_ := 10900
          positions_ := [("BTCUSDT", 90)]
          order_history_ := [scenario_buy_order]
          equity_curve_ := [(1, 10000), (2, 10900)] } := by
  simp [BacktestEngine.run_bar, BacktestEngine.after_signal, BacktestEngine.signal_for,
    BacktestEngine.after_on_data, BacktestEngine.process_signal,
    BacktestEngine.update_portfolio,
    BacktestEngine.position_value, Positions.assign, Positions.held, Positions.find,
    scenario_engine, scenario_strategy, scenario_signal, scenario_bar, scenario_config]
  norm_num

theorem scenario_third_bar :
    BacktestEngine.run_bar
        { scenario_engine with
          strategy_ := { scenario_strategy with state := 2 }
          cash_ := 1000
          equity_ := 10900
          positions_ := [("BTCUSDT", 90)]
          order_history_ := [scenario_buy_order]
          equity_curve_ := [(1, 10000), (2, 10900)] } (scenario_bar 3 120)
      = { scenario_engine with
          strategy_ := { scenario_strategy with state := 3 }
          cash_ := 11800
          equity_ := 11800
          positions_ := [("BTCUSDT", 0)]
          order_history_ := [scenario_buy_order, scenario_sell_order]
          equity_curve_ := [(1, 10000), (2, 10900), (3, 11800)] } := by
  simp [BacktestEngine.run_bar, BacktestEngine.after_signal, BacktestEngine.signal_for,
    BacktestEngine.after_on_data, BacktestEngine.process_signal,
    BacktestEngine.update_portfolio,
    BacktestEngine.position_value, Positions.assign, Positions.held, Positions.find,
    scenario_engine, scenario_strategy, scenario_signal, scenario_bar, scenario_config,
    scenario_buy_order, scenario_sell_order]
  norm_num

/-- The whole scenario run, for any conforming sort and any library. -/
theorem scenario_run_eq (srt : StdSort) (m : CMath) :
    scenario_engine.run srt m
      = { scenario_engine with
          strategy_ := { scenario_strategy with state := 3 }
          cash_ := 11800
          equity_ := 11800
          positions_ := [("BTCUSDT", 0)]
          order_history_ := [scenario_buy_order, scenario_sell_order]
          equity_curve_ := [(1, 10000), (2, 10900), (3, 11800)]
          performance_report_ :=
            calculate_performance m [(1, 10000), (2, 10900), (3, 11800)]
              [scenario_buy_order, scenario_sell_order] 10000 } := by
  unfold BacktestEngine.run
  rw [scenario_replay_bars, List.foldl_cons, scenario_first_bar, List.foldl_cons,
    scenario_second_bar, List.foldl_cons, scenario_third_bar, List.foldl_nil]
  rfl

/-- C1: the end-to-end scenario. Capital 10000, no commission, fractional
shares, three bars of one symbol with closes 100, 110, 120 and a strategy
emitting BUY, HOLD, SELL: after bar 1 there is one BUY order of quantity 90 and
cash is 1000; the equity curve is 10000, 10900, 11800; the SELL order has
quantity 90 at price 120 and leaves cash 11800 and position 0; total_return is
18/100. -/
theorem scenario_run (srt : StdSort) (m : CMath) :
    BacktestEngine.construct (some scenario_feed) (some scenario_strategy) scenario_config
        = Except.ok scenario_engine ∧
      (scenario_engine.after_reset.run_bar (scenario_bar 1 100)).cash_ = 1000 ∧
      (scenario_engine.after_reset.run_bar (scenario_bar 1 100)).order_history_
        = [{ symbol := "BTCUSDT", timestamp := 1, type := OrderType.MARKET,
             side := OrderSide.BUY, quantity := 90, price := 100,
             status := OrderStatus.FILLED }] ∧
      (scenario_engine.run srt m).equity_curve_ = [(1, 10000), (2, 10900), (3, 11800)] ∧
      (scenario_engine.run srt m).order_history_
        = [{ symbol := "BTCUSDT", timestamp := 1, type := OrderType.MARKET,
             side := OrderSide.BUY, quantity := 90, price := 100,
             status := OrderStatus.FILLED },
           { symbol := "BTCUSDT", timestamp := 3, type := OrderType.MARKET,
             side := OrderSide.SELL, quantity := 90, price := 120,
             status := OrderStatus.FILLED }] ∧
      (scenario_engine.run srt m).cash_ = 11800 ∧
      (scenario_engine.run srt m).positions_.find "BTCUSDT" = some 0 ∧
      (scenario_engine.run srt m).performance_report_.total_return = 18 / 100 := by
  rw [scenario_run_eq, scenario_first_bar]
  refine ⟨rfl, rfl, rfl, rfl, rfl, rfl, ?_, ?_⟩
  · simp [Positions.find]
  · show (calculate_performance m _ _ _).total_return = _
    rw [total_return_eq m _ _ _ (by simp)]
    norm_num

/-- Witness of C7 on the scenario engine: the marked values of the three bars
are 10000, 10900 and 11800. -/
theorem run_equity_curve_marks_witness :
    (scenario_engine.after_reset.replay_trace
        (BacktestEngine.replay_bars insertion_sort scenario_engine)).map (fun sb =>
        (sb.2.timestamp,
          (sb.1.after_signal sb.2).cash_
            + (sb.1.after_signal sb.2).positions_.held sb.2.symbol * sb.2.close))
      = [(1, 10000), (2, 10900), (3, 11800)] := by
  rw [← run_equity_curve_marks insertion_sort sample_cmath scenario_feed scenario_strategy
    scenario_config scenario_engine rfl, scenario_run_eq]

/-- Witness of C8 on the scenario engine: three bars, three curve entries. -/
theorem run_equity_curve_timestamps_witness :
    (scenario_engine.run insertion_sort sample_cmath).equity_curve_.length = 3 :=
  (run_equity_curve_timestamps insertion_sort sample_cmath scenario_feed scenario_strategy
    scenario_config scenario_engine rfl).1

end replay

section drawdown

theorem std_max_eq_max (a b : ℚ) : std_max a b = max a b := by
  unfold std_max
  rcases lt_or_le a b with h | h
  · rw [if_pos h, max_eq_right h.le]
  · rw [if_neg (not_lt.mpr h), max_eq_left h]

theorem max_drawdown_fold_mono (l : List (Timestamp × ℚ)) (acc : ℚ × ℚ) :
    acc.1 ≤ (l.foldl max_drawdown_step acc).1 := by
  induction l generalizing acc with
  | nil => exact le_refl _
  | cons p rest ih =>
    rw [List.foldl_cons]
    refine le_trans ?_ (ih _)
    unfold max_drawdown_step
    split
    · exact le_refl _
    · rw [std_max_eq_max]; exact le_max_left _ _

theorem max_drawdown_step_gt (md peak : ℚ) (p : Timestamp × ℚ) (h : p.2 > peak) :
    max_drawdown_step (md, peak) p = (md, p.2) := by
  simp [max_drawdown_step, h]

theorem max_drawdown_step_le (md peak : ℚ) (p : Timestamp × ℚ) (h : p.2 ≤ peak) :
    max_drawdown_step (md, peak) p = (std_max md ((peak - p.2) / peak), peak) := by
  simp [max_drawdown_step, not_lt.mpr h]

/-- A curve that never falls below the running peak leaves the maximum
drawdown at 0. -/
theorem max_drawdown_fold_chain (l : List (Timestamp × ℚ)) (peak : ℚ)
    (h : List.Chain (fun a b : ℚ => a ≤ b) peak (l.map Prod.snd)) :
    (l.foldl max_drawdown_step (0, peak)).1 = 0 := by
  induction l generalizing peak with
  | nil => rfl
  | cons p rest ih =>
    rw [List.map_cons, List.chain_cons] at h
    rw [List.foldl_cons]
    unfold max_drawdown_step
    rcases lt_or_eq_of_le h.1 with hlt | heq
    · rw [if_pos hlt]
      exact ih _ h.2
    · have hnot : ¬ p.2 > peak := by rw [heq]; exact lt_irrefl _
      rw [if_neg hnot]
      have hz : std_max (0 : ℚ) ((peak - p.2) / peak) = 0 := by
        rw [heq, sub_self, zero_div]; simp [std_max]
      simp only [hz]
      rw [heq]
      exact ih _ h.2

/-- With non-negative equities, a maximum drawdown of 0 forces every entry to
reach the running peak. -/
theorem max_drawdown_fold_zero (l : List (Timestamp × ℚ)) (peak : ℚ) (hpk : 0 ≤ peak)
    (hl : ∀ p ∈ l, 0 ≤ p.2) (h0 : (l.foldl max_drawdown_step (0, peak)).1 = 0) :
    List.Chain (fun a b : ℚ => a ≤ b) peak (l.map Prod.snd) := by
  induction l generalizing peak with
  | nil => exact List.Chain.nil
  | cons p rest ih =>
    have hp : 0 ≤ p.2 := hl p (List.mem_cons_self _ _)
    have hrest : ∀ x ∈ rest, 0 ≤ x.2 := fun x hx => hl x (List.mem_cons_of_mem _ hx)
    rw [List.foldl_cons] at h0
    rw [List.map_cons, List.chain_cons]
    by_cases hgt : p.2 > peak
    · rw [max_drawdown_step_gt _ _ _ hgt] at h0
      exact ⟨le_of_lt hgt, ih _ hp hrest h0⟩
    · have hle : p.2 ≤ peak := not_lt.mp hgt
      rw [max_drawdown_step_le _ _ _ hle] at h0
      have hmono := max_drawdown_fold_mono rest (std_max 0 ((peak - p.2) / peak), peak)
      rw [h0] at hmono
      have hz : std_max (0 : ℚ) ((peak - p.2) / peak) = 0 :=
        le_antisymm hmono (std_max_nonneg _ _ (le_refl _))
      have hdd : (peak - p.2) / peak ≤ 0 := by
        rw [std_max_eq_max] at hz
        exact le_trans (le_max_right _ _) (le_of_eq hz)
      have heq : peak = p.2 := by
        rcases eq_or_lt_of_le hpk with hzero | hpos
        · exact le_antisymm (by rw [← hzero]; exact hp) hle
        · by_contra hne
          have hlt : p.2 < peak := lt_of_le_of_ne hle (fun h => hne h.symm)
          have : 0 < (peak - p.2) / peak := div_pos (by linarith) hpos
          linarith
      rw [hz] at h0
      refine ⟨le_of_eq heq, ?_⟩
      rw [← heq]
      exact ih _ hpk hrest h0

/-- C11 (amended): a curve whose equity never decreases has maximum drawdown
0; and for every curve whose equity values are all non-negative, the maximum
drawdown is 0 exactly when every entry is at least the entry before it. -/
theorem calculate_max_drawdown_zero_iff (equity_curve : List (Timestamp × ℚ)) :
    (List.Chain' (fun a b : ℚ => a ≤ b) (equity_curve.map Prod.snd) →
        calculate_max_drawdown equity_curve = 0) ∧
      ((∀ p ∈ equity_curve, 0 ≤ p.2) →
        (calculate_max_drawdown equity_curve = 0 ↔
          List.Chain' (fun a b : ℚ => a ≤ b) (equity_curve.map Prod.snd))) := by
  cases equity_curve with
  | nil => simp [calculate_max_drawdown]
  | cons first rest =>
    have hfwd : List.Chain' (fun a b : ℚ => a ≤ b) ((first :: rest).map Prod.snd) →
        calculate_max_drawdown (first :: rest) = 0 := by
      intro hc
      apply max_drawdown_fold_chain
      rw [List.map_cons, List.chain_cons]
      exact ⟨le_refl _, hc⟩
    refine ⟨hfwd, fun hl => ⟨fun h0 => ?_, hfwd⟩⟩
    have hc := max_drawdown_fold_zero (first :: rest) first.2
      (hl first (List.mem_cons_self _ _)) hl h0
    rw [List.map_cons, List.chain_cons] at hc
    exact hc.2

/-- Witness of C11 (amended): the non-negative curve 100, 120, 120 never
decreases and has maximum drawdown 0. -/
theorem calculate_max_drawdown_zero_iff_witness :
    calculate_max_drawdown [(1, 100), (2, 120), (3, 120)] = 0 :=
  ((calculate_max_drawdown_zero_iff [(1, 100), (2, 120), (3, 120)]).2
    (by
      intro p hp
      simp only [List.mem_cons, List.mem_singleton, List.not_mem_nil, or_false] at hp
      rcases hp with h | h | h <;> rw [h] <;> norm_num)).mpr
    (by norm_num [List.Chain'])

/-- Counterexample to C11 as stated: on the curve -1, -2 the equity decreases,
yet the only drawdown value is (-1 - (-2)) / (-1) = -1 and the maximum with 0
stays 0. -/
theorem calculate_max_drawdown_zero_decreasing :
    calculate_max_drawdown [(0, -1), (1, -2)] = 0 ∧
      ¬ List.Chain' (fun a b : ℚ => a ≤ b) ([((0 : Timestamp), (-1 : ℚ)), (1, -2)].map Prod.snd) ∧
      ¬ (calculate_max_drawdown [(0, -1), (1, -2)] = 0 ↔
          List.Chain' (fun a b : ℚ => a ≤ b)
            ([((0 : Timestamp), (-1 : ℚ)), (1, -2)].map Prod.snd)) := by
  have h : calculate_max_drawdown [(0, -1), (1, -2)] = 0 := by
    norm_num [calculate_max_drawdown, max_drawdown_step, std_max]
  have hc : ¬ List.Chain' (fun a b : ℚ => a ≤ b)
      ([((0 : Timestamp), (-1 : ℚ)), (1, -2)].map Prod.snd) := by
    norm_num [List.Chain']
  exact ⟨h, hc, fun hiff => hc (hiff.mp h)⟩

theorem scanl_max_cons_tail (b : ℚ) (es : List ℚ) :
    List.scanl max b es = b :: (List.scanl max b es).tail := by
  cases es <;> rfl

/-- The entry of index i of the reference running peak is the maximum of the
equities at indices 0..i. -/
theorem scanl_max_getElem (es : List ℚ) (b : ℚ) (i : Nat) (hi : i ≤ es.length) :
    (List.scanl max b es)[i]? = some ((es.take i).foldl max b) := by
  induction es generalizing b i with
  | nil =>
    have : i = 0 := Nat.le_zero.mp hi
    subst this
    rfl
  | cons e rest ih =>
    cases i with
    | zero => simp [List.scanl]
    | succ j =>
      have hj : j ≤ rest.length := Nat.le_of_succ_le_succ hi
      show (b :: List.scanl max (max b e) rest)[j + 1]? = _
      rw [List.getElem?_cons_succ, ih _ _ hj]
      rfl

/-- The loop of calculate_max_drawdown, started with a non-negative maximum,
computes the maximum of that start value and the reference drawdown values. -/
theorem max_drawdown_fold_dips (l : List (Timestamp × ℚ)) (md peak : ℚ) (hmd : 0 ≤ md) :
    (l.foldl max_drawdown_step (md, peak)).1
      = ((((List.scanl max peak (l.map Prod.snd)).tail).zip (l.map Prod.snd)).filterMap
          (fun pe => if pe.2 < pe.1 then some ((pe.1 - pe.2) / pe.1) else none)).foldl max md := by
  induction l generalizing md peak with
  | nil => rfl
  | cons p rest ih =>
    have hshape : (List.scanl max peak ((p :: rest).map Prod.snd)).tail
        = max peak p.2 :: (List.scanl max (max peak p.2) (rest.map Prod.snd)).tail := by
      show List.scanl max (max peak p.2) (rest.map Prod.snd) = _
      exact scanl_max_cons_tail _ _
    rw [hshape, List.map_cons, List.zip_cons_cons, List.filterMap_cons, List.foldl_cons]
    rcases lt_trichotomy p.2 peak with hlt | heq | hgt
    · have hmax : max peak p.2 = peak := max_eq_left hlt.le
      rw [max_drawdown_step_le _ _ _ hlt.le, hmax]
      simp only [hlt, if_true, List.foldl_cons]
      rw [ih _ _ (std_max_nonneg _ _ hmd), std_max_eq_max]
    · have hmax : max peak p.2 = peak := max_eq_left heq.le
      rw [max_drawdown_step_le _ _ _ heq.le, hmax]
      have hnot : ¬ p.2 < peak := by rw [heq]; exact lt_irrefl _
      simp only [hnot, if_false]
      have hz : std_max md ((peak - p.2) / peak) = md := by
        rw [heq, sub_self, zero_div, std_max_eq_max, max_eq_left hmd]
      rw [hz, ih _ _ hmd]
    · have hmax : max peak p.2 = p.2 := max_eq_right hgt.le
      rw [max_drawdown_step_gt _ _ _ hgt, hmax]
      simp only [lt_irrefl, if_false]
      rw [ih _ _ hmd]

theorem calculate_max_drawdown_eq_dips (equity_curve : List (Timestamp × ℚ)) :
    calculate_max_drawdown equity_curve
      = (reference_dips (equity_curve.map Prod.snd)).foldl max 0 := by
  cases equity_curve with
  | nil => rfl
  | cons first rest =>
    have hdips : reference_dips ((first :: rest).map Prod.snd)
        = (((List.scanl max first.2 (rest.map Prod.snd)).tail).zip
            (rest.map Prod.snd)).filterMap
            (fun pe => if pe.2 < pe.1 then some ((pe.1 - pe.2) / pe.1) else none) := by
      unfold reference_dips reference_peaks
      rw [List.map_cons]
      simp only
      rw [scanl_max_cons_tail, List.zip_cons_cons, List.filterMap_cons]
      simp only [lt_irrefl, if_false, List.tail_cons]
    rw [hdips]
    show ((first :: rest).foldl max_drawdown_step (0, first.2)).1 = _
    rw [List.foldl_cons, max_drawdown_step_le _ _ _ (le_refl _)]
    have hz : std_max (0 : ℚ) ((first.2 - first.2) / first.2) = 0 := by
      rw [sub_self, zero_div]; simp [std_max]
    rw [hz]
    exact max_drawdown_fold_dips rest 0 first.2 (le_refl _)

theorem reference_dips_nonneg (es : List ℚ) (h : ∀ e ∈ es, 0 ≤ e) :
    ∀ d ∈ reference_dips es, 0 ≤ d := by
  intro d hd
  unfold reference_dips at hd
  rw [List.mem_filterMap] at hd
  obtain ⟨pe, hmem, hf⟩ := hd
  obtain ⟨pk, e⟩ := pe
  have he : 0 ≤ e := h e (List.of_mem_zip hmem).2
  by_cases hlt : e < pk
  · simp only [hlt, if_true, Option.some.injEq] at hf
    rw [← hf]
    exact div_nonneg (by linarith) (by linarith)
  · simp only [hlt, if_false] at hf
    exact absurd hf (by simp)

/-- C12 (amended): calculate_max_drawdown is the maximum of 0 and the values
(peak_i - equity_i) / peak_i over the indices where equity_i < peak_i, peak_i
being the maximum of the equities at indices 0..i; for every curve whose equity
values are all non-negative this is the reference definition: the maximum of
those values, and 0 when there is none. -/
theorem calculate_max_drawdown_reference (equity_curve : List (Timestamp × ℚ)) :
    calculate_max_drawdown equity_curve
        = (reference_dips (equity_curve.map Prod.snd)).foldl max 0 ∧
      ((∀ p ∈ equity_curve, 0 ≤ p.2) →
        calculate_max_drawdown equity_curve = reference_max_drawdown equity_curve) := by
  refine ⟨calculate_max_drawdown_eq_dips equity_curve, fun hl => ?_⟩
  rw [calculate_max_drawdown_eq_dips]
  have hnn : ∀ d ∈ reference_dips (equity_curve.map Prod.snd), 0 ≤ d := by
    apply reference_dips_nonneg
    intro e he
    rw [List.mem_map] at he
    obtain ⟨p, hp, hpe⟩ := he
    rw [← hpe]
    exact hl p hp
  unfold reference_max_drawdown
  cases hd : reference_dips (equity_curve.map Prod.snd) with
  | nil => rfl
  | cons d ds =>
    rw [hd] at hnn
    rw [List.foldl_cons, max_eq_right (hnn d (List.mem_cons_self _ _))]

/-- Witness of C12 (amended): on the non-negative curve 100, 50, 120, 90 the
code and the reference definition agree. -/
theorem calculate_max_drawdown_reference_witness :
    calculate_max_drawdown [(1, 100), (2, 50), (3, 120), (4, 90)]
      = reference_max_drawdown [(1, 100), (2, 50), (3, 120), (4, 90)] :=
  (calculate_max_drawdown_reference [(1, 100), (2, 50), (3, 120), (4, 90)]).2
    (by
      intro p hp
      simp only [List.mem_cons, List.mem_singleton, List.not_mem_nil, or_false] at hp
      rcases hp with h | h | h | h <;> rw [h] <;> norm_num)

/-- Counterexample to C12 as stated: on the curve -4, -5 the reference value
is the single drawdown (-4 - (-5)) / (-4) = -1/4, while the code, which starts
its maximum at 0, returns 0. -/
theorem calculate_max_drawdown_differs_from_reference :
    calculate_max_drawdown [(0, -4), (1, -5)] = 0 ∧
      reference_max_drawdown [(0, -4), (1, -5)] = -1 / 4 ∧
      calculate_max_drawdown [(0, -4), (1, -5)] ≠ reference_max_drawdown [(0, -4), (1, -5)] := by
  have h1 : calculate_max_drawdown [(0, -4), (1, -5)] = 0 := by
    norm_num [calculate_max_drawdown, max_drawdown_step, std_max]
  have h2 : reference_max_drawdown [(0, -4), (1, -5)] = -1 / 4 := by
    have hd : reference_dips [(-4 : ℚ), -5] = [-1 / 4] := by
      norm_num [reference_dips, reference_peaks, List.scanl, List.filterMap_cons]
    unfold reference_max_drawdown
    simp only [List.map_cons, List.map_nil]
    rw [hd]
    rfl
  refine ⟨h1, h2, ?_⟩
  rw [h1, h2]
  norm_num

end drawdown

section returns

/-- The return series built by the code is the reference per-step series. -/
theorem daily_returns_eq_reference (equity_curve : List (Timestamp × ℚ)) :
    daily_returns equity_curve = reference_returns equity_curve := by
  induction equity_curve with
  | nil => rfl
  | cons prev t ih =>
    cases t with
    | nil => rfl
    | cons curr rest =>
      have href : reference_returns (prev :: curr :: rest)
          = (if prev.2 ≤ 0 then reference_returns (curr :: rest)
             else ((curr.2 - prev.2) / prev.2) :: reference_returns (curr :: rest)) := by
        unfold reference_returns
        rw [List.tail_cons, List.zip_cons_cons, List.filterMap_cons]
        by_cases h : prev.2 ≤ 0
        · simp only [h, if_true, List.tail_cons]
        · simp only [h, if_false, List.tail_cons]
      rw [href, ← ih]
      by_cases h : prev.2 ≤ 0
      · rw [if_pos h]
        simp only [daily_returns, not_lt.mpr h, if_false, gt_iff_lt]
      · rw [if_neg h]
        simp only [daily_returns, not_le.mp h, if_true, gt_iff_lt]

theorem foldl_add_eq_sum (f : ℚ → ℚ) (l : List ℚ) (a : ℚ) :
    l.foldl (fun acc r => acc + f r) a = a + (l.map f).sum := by
  induction l generalizing a with
  | nil => simp
  | cons x rest ih =>
    rw [List.foldl_cons, ih, List.map_cons, List.sum_cons]
    ring

theorem sum_squared_diff_eq (r : List ℚ) :
    sum_squared_diff r = (r.map (fun x => (x - reference_mean r) ^ 2)).sum := by
  unfold sum_squared_diff
  rw [foldl_add_eq_sum (fun x => (x - mean_return r) * (x - mean_return r)) r 0, zero_add]
  congr 1
  apply List.map_congr_left
  intro x _
  show (x - mean_return r) * (x - mean_return r) = (x - reference_mean r) ^ 2
  rw [pow_two]
  rfl

/-- The standard deviation computed by calculate_sharpe_ratio and by
calculate_volatility is the reference population standard deviation. -/
theorem std_dev_eq_reference (m : CMath) (r : List ℚ) :
    m.sqrt (sum_squared_diff r / (r.length : ℚ)) = reference_stddev m r := by
  unfold reference_stddev
  rw [sum_squared_diff_eq]

/-- C13: calculate_sharpe_ratio is (mean(r) - rf) / stddev(r) over the
reference per-step return series r (steps with prior equity <= 0 skipped),
stddev being the population standard deviation without annualisation; it is 0
when the curve has fewer than 2 points, when r is empty, or when stddev(r) = 0,
so the quotient is only formed with a non-zero divisor. -/
theorem calculate_sharpe_ratio_reference (m : CMath) (equity_curve : List (Timestamp × ℚ))
    (risk_free_rate : ℚ) :
    calculate_sharpe_ratio m equity_curve risk_free_rate
      = if equity_curve.length < 2 ∨ reference_returns equity_curve = [] ∨
            reference_stddev m (reference_returns equity_curve) = 0 then 0
        else (reference_mean (reference_returns equity_curve) - risk_free_rate)
              / reference_stddev m (reference_returns equity_curve) := by
  unfold calculate_sharpe_ratio
  simp only [daily_returns_eq_reference, std_dev_eq_reference, List.isEmpty_iff]
  by_cases h1 : equity_curve.length < 2
  · simp [h1]
  · by_cases h2 : reference_returns equity_curve = []
    · simp [h1, h2]
    · by_cases h3 : reference_stddev m (reference_returns equity_curve) = 0
      · simp [h1, h2, h3]
      · simp only [h1, h2, h3, if_false, or_self]
        rfl

/-- C14: calculate_volatility is stddev(r) * sqrt(252) over the same reference
per-step return series r, stddev being the population form dividing by N; it
is 0 when the curve has fewer than 2 points or r is empty; and it is never
negative, the library square root being non-negative. -/
theorem calculate_volatility_reference (m : CMath) (equity_curve : List (Timestamp × ℚ)) :
    calculate_volatility m equity_curve
        = (if equity_curve.length < 2 ∨ reference_returns equity_curve = [] then 0
           else reference_stddev m (reference_returns equity_curve) * m.sqrt 252) ∧
      ((∀ x : ℚ, 0 ≤ m.sqrt x) → 0 ≤ calculate_volatility m equity_curve) := by
  have heq : calculate_volatility m equity_curve
        = (if equity_curve.length < 2 ∨ reference_returns equity_curve = [] then 0
           else reference_stddev m (reference_returns equity_curve) * m.sqrt 252) := by
    unfold calculate_volatility
    simp only [daily_returns_eq_reference, std_dev_eq_reference, List.isEmpty_iff]
    by_cases h1 : equity_curve.length < 2
    · simp [h1]
    · by_cases h2 : reference_returns equity_curve = []
      · simp [h1, h2]
      · simp only [h1, h2, if_false, or_self]
  refine ⟨heq, fun hsqrt => ?_⟩
  rw [heq]
  split
  · exact le_refl _
  · exact mul_nonneg (hsqrt _) (hsqrt _)

theorem sample_sqrt_nonneg (x : ℚ) : 0 ≤ sample_cmath.sqrt x := by
  show 0 ≤ (if x ≤ 0 then (0 : ℚ)
    else ((Nat.sqrt (Int.toNat ⌊x * 10 ^ 12⌋) : Nat) : ℚ) / 10 ^ 6)
  split
  · exact le_refl _
  · positivity

/-- Witness of C14 with the sample library, on the curve 100, 110, 99. -/
theorem calculate_volatility_reference_witness :
    0 ≤ calculate_volatility sample_cmath [(1, 100), (2, 110), (3, 99)] :=
  (calculate_volatility_reference sample_cmath [(1, 100), (2, 110), (3, 99)]).2
    sample_sqrt_nonneg

end returns

section report

theorem annualized_return_eq (m : CMath) (front : Timestamp × ℚ)
    (rest : List (Timestamp × ℚ)) (orders : List Order) (initial_capital : ℚ) :
    (calculate_performance m (front :: rest) orders initial_capital).annualized_return
      = if ((((front :: rest).getLast (List.cons_ne_nil front rest)).1 - front.1 : Int) : ℚ)
            / (36525 / 100 * 24 * 60 * 60) > 0 then
          m.pow (1 + (calculate_performance m (front :: rest) orders
              initial_capital).total_return)
            (1 / (((((front :: rest).getLast (List.cons_ne_nil front rest)).1 - front.1 : Int)
              : ℚ) / (36525 / 100 * 24 * 60 * 60))) - 1
        else 0 := rfl

/-- C15: for a non-empty curve, with years = (last timestamp - first
timestamp) / (365.25 * 86400), annualized_return is
(1 + total_return)^(1 / years) - 1 when years > 0 and 0 otherwise; it is 0 for
a single-point curve and whenever the first and last timestamps coincide. -/
theorem calculate_performance_annualized_return (m : CMath)
    (equity_curve : List (Timestamp × ℚ)) (orders : List Order) (initial_capital years : ℚ)
    (h : equity_curve ≠ [])
    (hy : years = (((equity_curve.getLast h).1 - (equity_curve.head h).1 : Int) : ℚ)
      / (36525 / 100 * 86400)) :
    (calculate_performance m equity_curve orders initial_capital).annualized_return
        = (if 0 < years then
            m.pow (1 + (calculate_performance m equity_curve orders
              initial_capital).total_return) (1 / years) - 1
          else 0) ∧
      (equity_curve.length = 1 →
        (calculate_performance m equity_curve orders initial_capital).annualized_return = 0) ∧
      ((equity_curve.head h).1 = (equity_curve.getLast h).1 →
        (calculate_performance m equity_curve orders initial_capital).annualized_return = 0) := by
  cases equity_curve with
  | nil => exact absurd rfl h
  | cons front rest =>
    have hyears : ((((front :: rest).getLast (List.cons_ne_nil front rest)).1 - front.1 : Int)
        : ℚ) / (36525 / 100 * 24 * 60 * 60) = years := by
      rw [hy, List.head_cons]
      norm_num
    have hmain := annualized_return_eq m front rest orders initial_capital
    rw [hyears] at hmain
    have hmain2 : (calculate_performance m (front :: rest) orders
          initial_capital).annualized_return
        = (if 0 < years then
            m.pow (1 + (calculate_performance m (front :: rest) orders
              initial_capital).total_return) (1 / years) - 1
          else 0) := hmain
    have hzero : (front :: rest).head h = front := rfl
    have hsame : ((front :: rest).head h).1 = ((front :: rest).getLast h).1 →
        (calculate_performance m (front :: rest) orders initial_capital).annualized_return
          = 0 := by
      intro heq
      have hy0 : years = 0 := by
        rw [hy, heq, sub_self]
        simp
      rw [hmain2, hy0]
      simp
    refine ⟨hmain2, fun hlen => ?_, hsame⟩
    apply hsame
    cases rest with
    | nil => rfl
    | cons x xs => simp at hlen

/-- Witness of C15 with the sample library: a curve spanning exactly one year,
from 100 to 121 with capital 100, has annualized_return 21/100. -/
theorem calculate_performance_annualized_return_witness :
    (calculate_performance sample_cmath [(0, 100), (31557600, 121)] [] 100).annualized_return
      = 21 / 100 := by
  have h := (calculate_performance_annualized_return sample_cmath
    [(0, 100), (31557600, 121)] [] 100 1 (by simp) (by norm_num)).1
  rw [h, total_return_eq sample_cmath _ _ _ (by simp)]
  norm_num [sample_cmath]

end report

section trades

theorem reference_pairs_nil : reference_pairs [] = [] := rfl

theorem reference_pairs_single (a : Order) : reference_pairs [a] = [] := by
  simp [reference_pairs, reference_pair_at, List.range_succ]

theorem reference_pair_at_shift (a b : Order) (rest : List Order) (k : Nat) :
    reference_pair_at (a :: b :: rest) (k + 1) = reference_pair_at rest k := by
  have e1 : 2 * (k + 1) = (2 * k + 1) + 1 := by omega
  unfold reference_pair_at
  rw [e1]
  simp only [List.getElem?_cons_succ]

theorem reference_pairs_cons_cons (a b : Order) (rest : List Order) :
    reference_pairs (a :: b :: rest) = (a, b) :: reference_pairs rest := by
  unfold reference_pairs
  have hlen : (a :: b :: rest).length = (rest.length + 1) + 1 := rfl
  rw [hlen, List.range_succ_eq_map (rest.length + 1), List.filterMap_cons]
  have h0 : reference_pair_at (a :: b :: rest) 0 = some (a, b) := by
    simp [reference_pair_at]
  rw [h0, List.filterMap_map]
  have hshift : reference_pair_at (a :: b :: rest) ∘ Nat.succ = reference_pair_at rest := by
    funext k
    exact reference_pair_at_shift a b rest k
  rw [hshift, List.range_succ, List.filterMap_append]
  have hlast : reference_pair_at rest rest.length = none := by
    have hnone : rest[2 * rest.length]? = none := List.getElem?_eq_none (by omega)
    simp [reference_pair_at, hnone]
  simp [hlast]

/-- The trade loop is a left fold of the classification step over the
reference pairs. -/
theorem trade_loop_eq_fold : ∀ (orders : List Order) (acc : TradeStats),
    trade_loop orders acc
      = (reference_pairs orders).foldl (fun t p => trade_step t p.1 p.2) acc
  | [], acc => rfl
  | [a], acc => by rw [reference_pairs_single]; rfl
  | a :: b :: rest, acc => by
    rw [reference_pairs_cons_cons, List.foldl_cons]
    show trade_loop rest (trade_step acc a b) = _
    exact trade_loop_eq_fold rest _

/-- A trailing order after an even number of orders is not seen by the trade
loop. -/
theorem trade_loop_trailing : ∀ (orders : List Order) (extra : Order) (acc : TradeStats),
    Even orders.length → trade_loop (orders ++ [extra]) acc = trade_loop orders acc
  | [], extra, acc, _ => rfl
  | [a], extra, acc, h => by simp at h
  | a :: b :: rest, extra, acc, h => by
    have hrest : Even rest.length := by
      have h2 : Even (rest.length + 2) := h
      rcases h2 with ⟨k, hk⟩
      exact ⟨k - 1, by omega⟩
    show trade_loop (rest ++ [extra]) (trade_step acc a b) = trade_loop rest (trade_step acc a b)
    exact trade_loop_trailing rest extra _ hrest

theorem pair_profit_eq_reference (p : Order × Order) :
    pair_profit p.1 p.2 = reference_profit p := rfl

theorem std_abs_eq_abs (a : ℚ) : std_abs a = |a| := by
  unfold std_abs
  rcases lt_or_le a 0 with h | h
  · rw [if_pos h, abs_of_neg h]
  · rw [if_neg (not_lt.mpr h), abs_of_nonneg h]

theorem trade_step_win (acc : TradeStats) (p : Order × Order) (h : 0 < reference_profit p) :
    trade_step acc p.1 p.2 =
      { acc with
        winning_trades := acc.winning_trades + 1
        total_profit := acc.total_profit + reference_profit p
        largest_profit := std_max acc.largest_profit (reference_profit p) } := by
  unfold trade_step
  simp only [pair_profit_eq_reference, gt_iff_lt, h, if_true]

theorem trade_step_loss (acc : TradeStats) (p : Order × Order) (h : reference_profit p ≤ 0) :
    trade_step acc p.1 p.2 =
      { acc with
        losing_trades := acc.losing_trades + 1
        total_loss := acc.total_loss + |reference_profit p|
        largest_loss := std_max acc.largest_loss |reference_profit p| } := by
  unfold trade_step
  simp only [pair_profit_eq_reference, gt_iff_lt, not_lt.mpr h, if_false, std_abs_eq_abs]

/-- The four accumulators of the trade loop after a fold over a list of pairs. -/
theorem trade_fold_stats (pairs : List (Order × Order)) (acc : TradeStats) :
    (pairs.foldl (fun t p => trade_step t p.1 p.2) acc).winning_trades
        = acc.winning_trades + ((pairs.filter (fun p => 0 < reference_profit p)).length : Int) ∧
      (pairs.foldl (fun t p => trade_step t p.1 p.2) acc).losing_trades
        = acc.losing_trades + ((pairs.filter (fun p => reference_profit p ≤ 0)).length : Int) ∧
      (pairs.foldl (fun t p => trade_step t p.1 p.2) acc).total_profit
        = acc.total_profit + (((pairs.map reference_profit).filter (fun x => 0 < x)).sum) ∧
      (pairs.foldl (fun t p => trade_step t p.1 p.2) acc).total_loss
        = acc.total_loss
          + ((((pairs.map reference_profit).filter (fun x => x ≤ 0)).map (fun x => |x|)).sum) := by
  induction pairs generalizing acc with
  | nil => simp
  | cons p rest ih =>
    rw [List.foldl_cons]
    obtain ⟨h1, h2, h3, h4⟩ := ih (trade_step acc p.1 p.2)
    rw [h1, h2, h3, h4]
    rcases lt_or_le 0 (reference_profit p) with hw | hl
    · rw [trade_step_win acc p hw]
      have hnl : ¬ reference_profit p ≤ 0 := not_le.mpr hw
      simp [hw, hnl]
      refine ⟨by ring, by ring⟩
    · rw [trade_step_loss acc p hl]
      have hnw : ¬ 0 < reference_profit p := not_lt.mpr hl
      simp [hl, hnw]
      refine ⟨by ring, by ring⟩

/-- The trade fields of the report of a non-empty curve, in terms of the
accumulators of the trade loop. -/
theorem report_trade_fields (m : CMath) (front : Timestamp × ℚ) (rest : List (Timestamp × ℚ))
    (orders : List Order) (initial_capital : ℚ) :
    (calculate_performance m (front :: rest) orders initial_capital).total_trades
        = (orders.length : Int) ∧
      (calculate_performance m (front :: rest) orders initial_capital).winning_trades
        = (trade_loop orders {}).winning_trades ∧
      (calculate_performance m (front :: rest) orders initial_capital).losing_trades
        = (trade_loop orders {}).losing_trades ∧
      (calculate_performance m (front :: rest) orders initial_capital).largest_profit
        = (trade_loop orders {}).largest_profit ∧
      (calculate_performance m (front :: rest) orders initial_capital).largest_loss
        = (trade_loop orders {}).largest_loss ∧
      (calculate_performance m (front :: rest) orders initial_capital).win_rate
        = (if (orders.length : Int) > 0 then
            ((trade_loop orders {}).winning_trades : ℚ) / ((orders.length : Int) : ℚ)
          else 0) ∧
      (calculate_performance m (front :: rest) orders initial_capital).profit_factor
        = (if (trade_loop orders {}).losing_trades > 0 ∧ (trade_loop orders {}).total_loss > 0
            then (trade_loop orders {}).total_profit / (trade_loop orders {}).total_loss
          else 0) ∧
      (calculate_performance m (front :: rest) orders initial_capital).average_profit
        = (if (trade_loop orders {}).winning_trades > 0 then
            (trade_loop orders {}).total_profit / ((trade_loop orders {}).winning_trades : ℚ)
          else 0) ∧
      (calculate_performance m (front :: rest) orders initial_capital).average_loss
        = (if (trade_loop orders {}).losing_trades > 0 then
            (trade_loop orders {}).total_loss / ((trade_loop orders {}).losing_trades : ℚ)
          else 0) :=
  ⟨rfl, rfl, rfl, rfl, rfl, rfl, rfl, rfl, rfl⟩

/-- The accumulators of the trade loop, in terms of the reference pairs. -/
theorem trade_loop_stats (orders : List Order) :
    (trade_loop orders {}).winning_trades
        = (((reference_pairs orders).filter (fun p => 0 < reference_profit p)).length : Int) ∧
      (trade_loop orders {}).losing_trades
        = (((reference_pairs orders).filter (fun p => reference_profit p ≤ 0)).length : Int) ∧
      (trade_loop orders {}).total_profit = reference_total_profit orders ∧
      (trade_loop orders {}).total_loss = reference_total_loss orders := by
  rw [trade_loop_eq_fold]
  obtain ⟨h1, h2, h3, h4⟩ := trade_fold_stats (reference_pairs orders) {}
  rw [h1, h2, h3, h4]
  refine ⟨zero_add _, zero_add _, zero_add _, zero_add _⟩

/-- C16: trade pairing is by list position only. For a non-empty curve,
winning_trades is the number of reference pairs (orders[2k], orders[2k+1]),
2k+1 < n, whose profit is > 0 and losing_trades the number whose profit is
<= 0, the profit being exit notional minus entry notional for a BUY entry and
the opposite otherwise; the exit's side does not enter the profit; and an
unmatched trailing order changes none of winning_trades, losing_trades,
profit_factor, average_profit, average_loss, largest_profit, largest_loss. -/
theorem calculate_performance_trade_pairing (m : CMath) (equity_curve : List (Timestamp × ℚ))
    (orders : List Order) (initial_capital : ℚ) (h : equity_curve ≠ []) :
    (calculate_performance m equity_curve orders initial_capital).winning_trades
        = (((reference_pairs orders).filter (fun p => 0 < reference_profit p)).length : Int) ∧
      (calculate_performance m equity_curve orders initial_capital).losing_trades
        = (((reference_pairs orders).filter (fun p => reference_profit p ≤ 0)).length : Int) ∧
      (∀ (entry exit : Order) (side : OrderSide),
        pair_profit entry { exit with side := side } = pair_profit entry exit) ∧
      (∀ extra : Order, Even orders.length →
        (calculate_performance m equity_curve (orders ++ [extra]) initial_capital).winning_trades
            = (calculate_performance m equity_curve orders initial_capital).winning_trades ∧
          (calculate_performance m equity_curve (orders ++ [extra]) initial_capital).losing_trades
            = (calculate_performance m equity_curve orders initial_capital).losing_trades ∧
          (calculate_performance m equity_curve (orders ++ [extra]) initial_capital).profit_factor
            = (calculate_performance m equity_curve orders initial_capital).profit_factor ∧
          (calculate_performance m equity_curve (orders ++ [extra]) initial_capital).average_profit
            = (calculate_performance m equity_curve orders initial_capital).average_profit ∧
          (calculate_performance m equity_curve (orders ++ [extra]) initial_capital).average_loss
            = (calculate_performance m equity_curve orders initial_capital).average_loss ∧
          (calculate_performance m equity_curve (orders ++ [extra]) initial_capital).largest_profit
            = (calculate_performance m equity_curve orders initial_capital).largest_profit ∧
          (calculate_performance m equity_curve (orders ++ [extra]) initial_capital).largest_loss
            = (calculate_performance m equity_curve orders initial_capital).largest_loss) := by
  cases equity_curve with
  | nil => exact absurd rfl h
  | cons front rest =>
    obtain ⟨_, hw, hl, _, _, _, _, _, _⟩ :=
      report_trade_fields m front rest orders initial_capital
    obtain ⟨sw, sl, _, _⟩ := trade_loop_stats orders
    refine ⟨hw.trans sw, hl.trans sl, fun _ _ _ => rfl, fun extra heven => ?_⟩
    obtain ⟨_, hw2, hl2, hlp2, hll2, _, hpf2, hap2, hal2⟩ :=
      report_trade_fields m front rest (orders ++ [extra]) initial_capital
    obtain ⟨_, hw1, hl1, hlp1, hll1, _, hpf1, hap1, hal1⟩ :=
      report_trade_fields m front rest orders initial_capital
    rw [hw2, hl2, hlp2, hll2, hpf2, hap2, hal2, hw1, hl1, hlp1, hll1, hpf1, hap1, hal1,
      trade_loop_trailing orders extra {} heven]
    exact ⟨rfl, rfl, rfl, rfl, rfl, rfl, rfl⟩

/-- Witness of C16: BUY 90 at 100, SELL 90 at 120 and an unmatched BUY give one
pair, of profit 1800, hence one winning trade. -/
theorem calculate_performance_trade_pairing_witness :
    (calculate_performance sample_cmath [(1, 10000)]
        [scenario_buy_order, scenario_sell_order, scenario_buy_order] 10000).winning_trades
      = 1 := by
  rw [(calculate_performance_trade_pairing sample_cmath [(1, 10000)]
    [scenario_buy_order, scenario_sell_order, scenario_buy_order] 10000 (by simp)).1,
    reference_pairs_cons_cons, reference_pairs_single]
  norm_num [reference_profit, scenario_buy_order, scenario_sell_order]

/-- C17: for a non-empty curve, total_trades is the number of orders in the
list (raw orders, not pairs), and win_rate is winning_trades / total_trades
when total_trades > 0 and 0 when the order list is empty. -/
theorem calculate_performance_total_trades (m : CMath) (equity_curve : List (Timestamp × ℚ))
    (orders : List Order) (initial_capital : ℚ) (h : equity_curve ≠ []) :
    (calculate_performance m equity_curve orders initial_capital).total_trades
        = (orders.length : Int) ∧
      (0 < (calculate_performance m equity_curve orders initial_capital).total_trades →
        (calculate_performance m equity_curve orders initial_capital).win_rate
          = ((calculate_performance m equity_curve orders initial_capital).winning_trades : ℚ)
            / ((calculate_performance m equity_curve orders initial_capital).total_trades : ℚ)) ∧
      (orders = [] →
        (calculate_performance m equity_curve orders initial_capital).win_rate = 0) := by
  cases equity_curve with
  | nil => exact absurd rfl h
  | cons front rest =>
    obtain ⟨ht, hw, _, _, _, hr, _, _, _⟩ :=
      report_trade_fields m front rest orders initial_capital
    refine ⟨ht, fun hpos => ?_, fun hnil => ?_⟩
    · rw [ht] at hpos
      rw [hr, ht, hw, if_pos hpos]
    · rw [hr, hnil]
      simp

/-- Witness of C17: three raw orders forming one winning pair give
total_trades = 3 and win_rate = 1/3. -/
theorem calculate_performance_total_trades_witness :
    (calculate_performance sample_cmath [(1, 10000)]
        [scenario_buy_order, scenario_sell_order, scenario_buy_order] 10000).total_trades = 3 ∧
      (calculate_performance sample_cmath [(1, 10000)]
        [scenario_buy_order, scenario_sell_order, scenario_buy_order] 10000).win_rate
        = ((calculate_performance sample_cmath [(1, 10000)]
            [scenario_buy_order, scenario_sell_order, scenario_buy_order]
            10000).winning_trades : ℚ) / 3 := by
  have h := calculate_performance_total_trades sample_cmath [(1, 10000)]
    [scenario_buy_order, scenario_sell_order, scenario_buy_order] 10000 (by simp)
  have ht : (calculate_performance sample_cmath [(1, 10000)]
      [scenario_buy_order, scenario_sell_order, scenario_buy_order] 10000).total_trades = 3 :=
    h.1
  refine ⟨ht, ?_⟩
  rw [h.2.1 (by rw [ht]; norm_num), ht]
  norm_num

/-- Some losing pair has a non-zero loss exactly when the loop's guard
losing_trades > 0 and total_loss > 0 holds. -/
theorem loss_guard_iff (pairs : List (Order × Order)) :
    (0 < ((pairs.filter (fun p => reference_profit p ≤ 0)).length : Int) ∧
        0 < ((((pairs.map reference_profit).filter (fun x => x ≤ 0)).map
          (fun x => |x|)).sum)) ↔
      ∃ p ∈ pairs, reference_profit p ≤ 0 ∧ reference_profit p ≠ 0 := by
  constructor
  · rintro ⟨_, hsum⟩
    by_contra hno
    have hall : ∀ x ∈ ((pairs.map reference_profit).filter (fun x => x ≤ 0)).map
        (fun x => |x|), x = 0 := by
      intro x hx
      rw [List.mem_map] at hx
      obtain ⟨y, hy, hyx⟩ := hx
      rw [List.mem_filter, List.mem_map] at hy
      obtain ⟨⟨p, hp, hpy⟩, hle⟩ := hy
      have hle2 : y ≤ 0 := by simpa using hle
      have hy0 : y = 0 := by
        by_contra hne
        exact hno ⟨p, hp, by rw [hpy]; exact hle2, by rw [hpy]; exact hne⟩
      rw [← hyx, hy0, abs_zero]
    rw [List.sum_eq_zero hall] at hsum
    exact lt_irrefl _ hsum
  · rintro ⟨p, hp, hle, hne⟩
    constructor
    · have hmem : p ∈ pairs.filter (fun p => reference_profit p ≤ 0) := by
        rw [List.mem_filter]
        exact ⟨hp, by simpa using hle⟩
      have hlen : 0 < (pairs.filter (fun p => reference_profit p ≤ 0)).length :=
        List.length_pos_of_mem hmem
      exact_mod_cast hlen
    · have hmem : |reference_profit p| ∈
          ((pairs.map reference_profit).filter (fun x => x ≤ 0)).map (fun x => |x|) := by
        rw [List.mem_map]
        refine ⟨reference_profit p, ?_, rfl⟩
        rw [List.mem_filter]
        exact ⟨List.mem_map_of_mem _ hp, by simpa using hle⟩
      have hnn : ∀ x ∈ ((pairs.map reference_profit).filter (fun x => x ≤ 0)).map
          (fun x => |x|), 0 ≤ x := by
        intro x hx
        rw [List.mem_map] at hx
        obtain ⟨y, _, hyx⟩ := hx
        rw [← hyx]
        exact abs_nonneg y
      exact lt_of_lt_of_le (abs_pos.mpr hne) (List.single_le_sum hnn _ hmem)

/-- C18: degenerate trade sets give zero-valued ratios. For a non-empty curve,
with total_profit the sum of the profits of the winning pairs and total_loss
the sum of |profit| over the losing pairs: profit_factor is
total_profit / total_loss when some losing pair has a non-zero loss and 0
otherwise (in particular without losing pairs); average_profit is
total_profit / winning_trades when winning_trades > 0 and 0 otherwise;
average_loss is total_loss / losing_trades when losing_trades > 0 and 0
otherwise. -/
theorem calculate_performance_ratios (m : CMath) (equity_curve : List (Timestamp × ℚ))
    (orders : List Order) (initial_capital : ℚ) (h : equity_curve ≠ []) :
    ((∃ p ∈ reference_pairs orders, reference_profit p ≤ 0 ∧ reference_profit p ≠ 0) →
        (calculate_performance m equity_curve orders initial_capital).profit_factor
          = reference_total_profit orders / reference_total_loss orders) ∧
      ((¬ ∃ p ∈ reference_pairs orders, reference_profit p ≤ 0 ∧ reference_profit p ≠ 0) →
        (calculate_performance m equity_curve orders initial_capital).profit_factor = 0) ∧
      ((∀ p ∈ reference_pairs orders, 0 < reference_profit p) →
        (calculate_performance m equity_curve orders initial_capital).profit_factor = 0) ∧
      (calculate_performance m equity_curve orders initial_capital).average_profit
        = (if 0 < (calculate_performance m equity_curve orders initial_capital).winning_trades
          then reference_total_profit orders
            / ((calculate_performance m equity_curve orders initial_capital).winning_trades : ℚ)
          else 0) ∧
      (calculate_performance m equity_curve orders initial_capital).average_loss
        = (if 0 < (calculate_performance m equity_curve orders initial_capital).losing_trades
          then reference_total_loss orders
            / ((calculate_performance m equity_curve orders initial_capital).losing_trades : ℚ)
          else 0) := by
  cases equity_curve with
  | nil => exact absurd rfl h
  | cons front rest =>
    obtain ⟨_, hw, hl, _, _, _, hpf, hap, hal⟩ :=
      report_trade_fields m front rest orders initial_capital
    obtain ⟨sw, sl, sp, st⟩ := trade_loop_stats orders
    have hguard := loss_guard_iff (reference_pairs orders)
    have hst : (trade_loop orders {}).total_loss
        = ((((reference_pairs orders).map reference_profit).filter (fun x => x ≤ 0)).map
            (fun x => |x|)).sum := st
    have hno : (¬ ∃ p ∈ reference_pairs orders, reference_profit p ≤ 0 ∧ reference_profit p ≠ 0) →
        (calculate_performance m (front :: rest) orders initial_capital).profit_factor = 0 := by
      intro hnone
      rw [hpf, if_neg]
      rintro ⟨h1, h2⟩
      apply hnone
      apply hguard.mp
      rw [sl] at h1
      rw [hst] at h2
      exact ⟨h1, h2⟩
    refine ⟨fun hex => ?_, hno, fun hall => ?_, ?_, ?_⟩
    · obtain ⟨h1, h2⟩ := hguard.mpr hex
      rw [hpf, if_pos, sp, st]
      rw [sl, hst]
      exact ⟨h1, h2⟩
    · apply hno
      rintro ⟨p, hp, hle, _⟩
      exact absurd (hall p hp) (not_lt.mpr hle)
    · rw [hap, hw, sp]
    · rw [hal, hl, st]

/-- Witness of C18: one winning pair of profit 1800 and no losing pair give
profit_factor 0. -/
theorem calculate_performance_ratios_witness :
    (calculate_performance sample_cmath [(1, 10000)]
        [scenario_buy_order, scenario_sell_order] 10000).profit_factor = 0 :=
  (calculate_performance_ratios sample_cmath [(1, 10000)]
    [scenario_buy_order, scenario_sell_order] 10000 (by simp)).2.2.1
    (by
      rw [reference_pairs_cons_cons, reference_pairs_nil]
      intro p hp
      rw [List.mem_singleton] at hp
      rw [hp]
      norm_num [reference_profit, scenario_buy_order, scenario_sell_order])

end trades

section degenerate

variable {σ : Type}

theorem std_sort_nil (srt : StdSort) : srt.sort [] = [] :=
  List.perm_nil.mp (srt.is_perm [])

/-- C19: empty input degrades to zeros. calculate_performance returns the
all-zero report (every numeric field 0, total_trades included, and an empty
metric map) on an empty curve, for every order list and initial capital; and
run() on a fresh engine whose supplier returns no bars leaves an equity curve
of length 0, an empty order history and the all-zero report. -/
theorem empty_input_zero_report :
    (∀ (m : CMath) (orders : List Order) (initial_capital : ℚ),
        calculate_performance m [] orders initial_capital
          = { total_return := 0, annualized_return := 0, sharpe_ratio := 0, max_drawdown := 0,
              volatility := 0, total_trades := 0, winning_trades := 0, losing_trades := 0,
              win_rate := 0, profit_factor := 0, average_profit := 0, average_loss := 0,
              largest_profit := 0, largest_loss := 0, metrics := [] }) ∧
      (∀ (srt : StdSort) (m : CMath) (feed : DataFeed) (strat : Strategy σ)
          (config : BacktestConfig) (e : BacktestEngine σ),
        BacktestEngine.construct (some feed) (some strat) config = Except.ok e →
        feed.get_historical_bars "BTCUSDT" config.start_time config.end_time "1d" = [] →
        (e.run srt m).equity_curve_.length = 0 ∧
          (e.run srt m).order_history_ = [] ∧
          (e.run srt m).performance_report_
            = { total_return := 0, annualized_return := 0, sharpe_ratio := 0,
                max_drawdown := 0, volatility := 0, total_trades := 0, winning_trades := 0,
                losing_trades := 0, win_rate := 0, profit_factor := 0, average_profit := 0,
                average_loss := 0, largest_profit := 0, largest_loss := 0, metrics := [] }) := by
  refine ⟨fun _ _ _ => rfl, ?_⟩
  intro srt m feed strat config e hfresh hbars
  have he := construct_ok feed strat config e hfresh
  have hreplay : BacktestEngine.replay_bars srt e = [] := by
    rw [he]
    show srt.sort (feed.get_historical_bars "BTCUSDT" config.start_time config.end_time "1d")
      = []
    rw [hbars]
    exact std_sort_nil srt
  have hrun : e.run srt m
      = { e.after_reset with
          performance_report_ :=
            calculate_performance m e.after_reset.equity_curve_ e.after_reset.order_history_
              e.after_reset.config_.initial_capital } := by
    unfold BacktestEngine.run
    rw [hreplay]
    rfl
  rw [hrun, he]
  exact ⟨rfl, rfl, rfl⟩

/-- Witness of C19: the scenario engine with a supplier returning no bars. -/
theorem empty_input_zero_report_witness :
    (BacktestEngine.run insertion_sort sample_cmath
        { scenario_engine with data_feed_ := empty_feed }).equity_curve_.length = 0 :=
  (empty_input_zero_report.2 insertion_sort sample_cmath empty_feed scenario_strategy
    scenario_config { scenario_engine with data_feed_ := empty_feed } rfl rfl).1

end degenerate

section construction

variable {σ : Type}

/-- C21: construction fails with an invalid-argument error exactly when the
data feed or the strategy is absent; with both present it succeeds with
cash = equity = config.initial_capital, an empty position map, an empty order
history, an empty equity curve and the all-zero report. -/
theorem construct_fails_iff (data_feed : Option DataFeed) (strategy : Option (Strategy σ))
    (config : BacktestConfig) :
    ((∃ what : String, BacktestEngine.construct data_feed strategy config
          = Except.error (Exception.invalid_argument what)) ↔
        (data_feed = none ∨ strategy = none)) ∧
      (∀ (feed : DataFeed) (strat : Strategy σ),
        ∃ e : BacktestEngine σ,
          BacktestEngine.construct (some feed) (some strat) config = Except.ok e ∧
          e.cash_ = config.initial_capital ∧ e.equity_ = config.initial_capital ∧
          e.positions_ = [] ∧ e.order_history_ = [] ∧ e.equity_curve_ = [] ∧
          e.performance_report_
            = { total_return := 0, annualized_return := 0, sharpe_ratio := 0,
                max_drawdown := 0, volatility := 0, total_trades := 0, winning_trades := 0,
                losing_trades := 0, win_rate := 0, profit_factor := 0, average_profit := 0,
                average_loss := 0, largest_profit := 0, largest_loss := 0, metrics := [] }) := by
  refine ⟨?_, fun feed strat => ⟨_, rfl, rfl, rfl, rfl, rfl, rfl, rfl⟩⟩
  cases data_feed with
  | none =>
    exact ⟨fun _ => Or.inl rfl, fun _ => ⟨_, rfl⟩⟩
  | some feed =>
    cases strategy with
    | none => exact ⟨fun _ => Or.inr rfl, fun _ => ⟨_, rfl⟩⟩
    | some strat =>
      constructor
      · rintro ⟨what, hw⟩
        simp [BacktestEngine.construct] at hw
      · rintro (h | h) <;> simp at h

end construction

section order_records

variable {σ : Type}

/-- One call of process_signal leaves the order history alone or appends one
order that records the signal at the bar. -/
theorem process_signal_history (e : BacktestEngine σ) (signal : Signal) (bar : BarData) :
    (e.process_signal signal bar).order_history_ = e.order_history_ ∨
      ∃ order : Order,
        (e.process_signal signal bar).order_history_ = e.order_history_ ++ [order] ∧
        caused_by order signal bar := by
  rcases hs : signal.type with _ | _ | _
  · rcases le_or_lt (e.buy_quantity bar) 0 with hq | hq
    · rw [process_signal_buy_skip e signal bar hs hq]; exact Or.inl rfl
    · rw [process_signal_buy_fill e signal bar hs hq]
      exact Or.inr ⟨_, rfl, rfl, rfl, hq, rfl, rfl, rfl, Or.inl ⟨hs, rfl⟩⟩
  · rcases hf : e.positions_.find signal.symbol with _ | q
    · rw [process_signal_sell_absent e signal bar hs hf]; exact Or.inl rfl
    · rcases le_or_lt q 0 with hq | hq
      · rw [process_signal_sell_skip e signal bar q hs hf hq]; exact Or.inl rfl
      · rw [process_signal_sell_fill e signal bar q hs hf hq]
        exact Or.inr ⟨_, rfl, rfl, rfl, hq, rfl, rfl, rfl, Or.inr ⟨hs, rfl⟩⟩
  · rw [process_signal_hold e signal bar hs]; exact Or.inl rfl

theorem run_bar_history (e : BacktestEngine σ) (bar : BarData) :
    (e.run_bar bar).order_history_ = e.order_history_ ∨
      ∃ (order : Order) (signal : Signal), e.signal_for bar = some signal ∧
        (e.run_bar bar).order_history_ = e.order_history_ ++ [order] ∧
        caused_by order signal bar := by
  show (e.after_signal bar).order_history_ = e.order_history_ ∨
    ∃ (order : Order) (signal : Signal), e.signal_for bar = some signal ∧
      (e.after_signal bar).order_history_ = e.order_history_ ++ [order] ∧
      caused_by order signal bar
  unfold BacktestEngine.after_signal
  rcases hsig : e.signal_for bar with _ | signal
  · exact Or.inl rfl
  · rcases process_signal_history (e.after_on_data bar) signal bar with h | ⟨o, h, hc⟩
    · exact Or.inl h
    · exact Or.inr ⟨o, signal, rfl, h, hc⟩

end order_records

section replay_order

variable {σ : Type}

/-- C23 (amended): run() replays the bars in non-decreasing timestamp order.
The sequence passed to the strategy is a permutation of the supplied one,
sorted by timestamp; its bars are the ones met by the loop, in that order, and
their timestamps are the ones of the equity curve; and a supplied sequence
whose timestamps are strictly ascending is replayed unchanged. -/
theorem run_replays_sorted (srt : StdSort) (m : CMath) (feed : DataFeed)
    (strat : Strategy σ) (config : BacktestConfig) (e : BacktestEngine σ)
    (hfresh : BacktestEngine.construct (some feed) (some strat) config = Except.ok e) :
    List.Perm (BacktestEngine.replay_bars srt e)
        (feed.get_historical_bars "BTCUSDT" config.start_time config.end_time "1d") ∧
      List.Pairwise (fun a b : BarData => a.timestamp ≤ b.timestamp)
        (BacktestEngine.replay_bars srt e) ∧
      (e.after_reset.replay_trace (BacktestEngine.replay_bars srt e)).map Prod.snd
        = BacktestEngine.replay_bars srt e ∧
      (e.run srt m).equity_curve_.map Prod.fst
        = (BacktestEngine.replay_bars srt e).map BarData.timestamp ∧
      (List.Pairwise (fun a b : BarData => a.timestamp < b.timestamp)
          (feed.get_historical_bars "BTCUSDT" config.start_time config.end_time "1d") →
        BacktestEngine.replay_bars srt e
          = feed.get_historical_bars "BTCUSDT" config.start_time config.end_time "1d") := by
  have he := construct_ok feed strat config e hfresh
  have hbars : BacktestEngine.replay_bars srt e
      = srt.sort (feed.get_historical_bars "BTCUSDT" config.start_time config.end_time "1d") := by
    rw [he]; rfl
  have hcurve : e.after_reset.equity_curve_ = [] := by rw [he]; rfl
  refine ⟨?_, ?_, replay_trace_bars _ _, ?_, fun hasc => ?_⟩
  · rw [hbars]; exact srt.is_perm _
  · rw [hbars]; exact srt.is_sorted _
  · show ((BacktestEngine.replay_bars srt e).foldl BacktestEngine.run_bar
      e.after_reset).equity_curve_.map Prod.fst = _
    rw [replay_curve_timestamps, hcurve]
    simp
  · rw [hbars]
    exact std_sort_ascending srt _ hasc

/-- Witness of C23 (amended): the three ascending bars of the scenario are
replayed in the order supplied. -/
theorem run_replays_sorted_witness :
    BacktestEngine.replay_bars libstdcxx_sort scenario_engine
      = [scenario_bar 1 100, scenario_bar 2 110, scenario_bar 3 120] :=
  (run_replays_sorted libstdcxx_sort sample_cmath scenario_feed scenario_strategy
    scenario_config scenario_engine rfl).2.2.2.2 (by simp [scenario_feed, scenario_bar])

/-- The library sort on the seventeen tied bars: the embedded path runs to its
end. -/
theorem seventeen_stl_sort : stl_algo.sort timestamp_less seventeen_ties = some seventeen_sorted := by
  decide

theorem seventeen_replay_bars :
    BacktestEngine.replay_bars libstdcxx_sort seventeen_engine = seventeen_sorted := by
  decide

theorem seventeen_first_bar :
    seventeen_engine.after_reset.run_bar (scenario_bar 1 108)
      = { seventeen_engine with
          strategy_ := { scenario_strategy with state := 1 }
          cash_ := 1000
          equity_ := 10000
          positions_ := [("BTCUSDT", 250 / 3)]
          order_history_ :=
            [{ symbol := "BTCUSDT", timestamp := 1, type := OrderType.MARKET,
               side := OrderSide.BUY, quantity := 250 / 3, price := 108,
               status := OrderStatus.FILLED }]
          equity_curve_ := [(1, 10000)] } := by
  norm_num [BacktestEngine.run_bar, BacktestEngine.after_signal, BacktestEngine.signal_for,
    BacktestEngine.after_on_data, BacktestEngine.after_reset, BacktestEngine.process_signal,
    BacktestEngine.buy_quantity, BacktestEngine.update_portfolio,
    BacktestEngine.position_value, Positions.assign, Positions.held, Positions.find,
    seventeen_engine, scenario_strategy, scenario_signal, scenario_bar, scenario_config]

/-- The replay loop only appends to the order history. -/
theorem replay_history_extends (bars : List BarData) (e : BacktestEngine σ) :
    ∃ later : List Order,
      (bars.foldl BacktestEngine.run_bar e).order_history_ = e.order_history_ ++ later := by
  induction bars generalizing e with
  | nil => exact ⟨[], by simp⟩
  | cons bar rest ih =>
    obtain ⟨later, hlater⟩ := ih (e.run_bar bar)
    rw [List.foldl_cons, hlater]
    rcases run_bar_history e bar with h | ⟨o, _, _, h, _⟩
    · exact ⟨later, by rw [h]⟩
    · exact ⟨o :: later, by rw [h, List.append_assoc]; rfl⟩

/-- Counterexample to C23 as stated: the supplier returns seventeen bars of
timestamp 1 with closes 100, 101, ..., 116.  The library's std::sort (more
than 16 elements, so one partitioning step runs before the insertion sort)
leaves them in the order 108, 116, 115, ..., 109, 100, 107, ..., 101: that is
the order in which the loop passes them to the strategy, and the BUY emitted
for the first bar fills at 108, the close of the ninth supplied bar, not at
100. -/
theorem run_ties_reordered :
    seventeen_feed.get_historical_bars "BTCUSDT" scenario_config.start_time
        scenario_config.end_time "1d" = seventeen_ties ∧
      stl_algo.sort timestamp_less seventeen_ties = some seventeen_sorted ∧
      (seventeen_engine.after_reset.replay_trace
          (BacktestEngine.replay_bars libstdcxx_sort seventeen_engine)).map Prod.snd
        = seventeen_sorted ∧
      seventeen_sorted ≠ seventeen_ties ∧
      ∃ later : List Order,
        (seventeen_engine.run libstdcxx_sort sample_cmath).order_history_
          = { symbol := "BTCUSDT", timestamp := 1, type := OrderType.MARKET,
              side := OrderSide.BUY, quantity := 250 / 3, price := 108,
              status := OrderStatus.FILLED } :: later := by
  refine ⟨rfl, seventeen_stl_sort, ?_, by decide, ?_⟩
  · rw [replay_trace_bars, seventeen_replay_bars]
  · show ∃ later : List Order,
      ((BacktestEngine.replay_bars libstdcxx_sort seventeen_engine).foldl
        BacktestEngine.run_bar seventeen_engine.after_reset).order_history_ = _ :: later
    rw [seventeen_replay_bars]
    show ∃ later : List Order,
      ((seventeen_sorted.tail).foldl BacktestEngine.run_bar
        (seventeen_engine.after_reset.run_bar (scenario_bar 1 108))).order_history_ = _ :: later
    rw [seventeen_first_bar]
    obtain ⟨later, hlater⟩ := replay_history_extends seventeen_sorted.tail
      { seventeen_engine with
          strategy_ := { scenario_strategy with state := 1 }
          cash_ := 1000
          equity_ := 10000
          positions_ := [("BTCUSDT", 250 / 3)]
          order_history_ :=
            [{ symbol := "BTCUSDT", timestamp := 1, type := OrderType.MARKET,
               side := OrderSide.BUY, quantity := 250 / 3, price := 108,
               status := OrderStatus.FILLED }]
          equity_curve_ := [(1, 10000)] }
    exact ⟨later, hlater⟩

end replay_order

section moving_average

/-- C24, the code at the failing input: a MovingAverageStrategy with periods 1
and 2 that has processed the closes 10, 1 keeps the previous values 1 and 11/2
through initialize(), and then emits a BUY on the second bar of the closes 1,
10, where a freshly constructed strategy emits nothing. -/
theorem moving_average_reset_is_not_fresh :
    MovingAverageStrategy.construct 1 2 = Except.ok ma_fresh ∧
      ma_fresh.after_bars [scenario_bar 1 10, scenario_bar 2 1] = Except.ok ma_used ∧
      ma_used.reset.prev_fast_value_ = 1 ∧ ma_used.reset.prev_slow_value_ = 11 / 2 ∧
      ma_used.reset.signals [scenario_bar 3 1, scenario_bar 4 10]
        = Except.ok [none, some { type := SignalType.BUY, symbol := "BTCUSDT", timestamp := 4 }] ∧
      ma_fresh.signals [scenario_bar 3 1, scenario_bar 4 10] = Except.ok [none, none] := by
  refine ⟨?_, ?_, rfl, rfl, ?_, ?_⟩
  · simp [MovingAverageStrategy.construct, indicators.SimpleMovingAverage.construct, ma_fresh]
  · norm_num [MovingAverageStrategy.after_bars, MovingAverageStrategy.on_data,
      indicators.SimpleMovingAverage.update, indicators.SimpleMovingAverage.is_valid, indicators.SimpleMovingAverage.get_value,
      ma_fresh, ma_used, scenario_bar]
  · norm_num [MovingAverageStrategy.signals, MovingAverageStrategy.on_data,
      MovingAverageStrategy.reset, indicators.SimpleMovingAverage.reset,
      indicators.SimpleMovingAverage.update, indicators.SimpleMovingAverage.is_valid, indicators.SimpleMovingAverage.get_value,
      ma_used, scenario_bar]
  · norm_num [MovingAverageStrategy.signals, MovingAverageStrategy.on_data,
      indicators.SimpleMovingAverage.update, indicators.SimpleMovingAverage.is_valid, indicators.SimpleMovingAverage.get_value,
      ma_fresh, scenario_bar]

end moving_average

section determinism

variable {σ τ : Type}

theorem process_signal_strategy (e : BacktestEngine σ) (signal : Signal) (bar : BarData) :
    (e.process_signal signal bar).strategy_ = e.strategy_ := by
  rcases process_signal_cases e signal bar with h1 | ⟨c, v, o, h1⟩ <;> rw [h1]

theorem run_bar_strategy (e : BacktestEngine σ) (bar : BarData) :
    (e.run_bar bar).strategy_
      = { e.strategy_ with state := (e.strategy_.on_data e.strategy_.state bar).1 } := by
  show (e.after_signal bar).strategy_ = _
  unfold BacktestEngine.after_signal
  split
  · rw [process_signal_strategy]; rfl
  · rfl

theorem buy_quantity_congr (e1 : BacktestEngine σ) (e2 : BacktestEngine τ) (bar : BarData)
    (h : same_portfolio e1 e2) : e1.buy_quantity bar = e2.buy_quantity bar := by
  obtain ⟨hc, hcash, _, _, _, _⟩ := h
  unfold BacktestEngine.buy_quantity
  rw [hc, hcash]

/-- Two engines with the same portfolio process a signal to the same
portfolio. -/
theorem process_signal_congr (e1 : BacktestEngine σ) (e2 : BacktestEngine τ)
    (signal : Signal) (bar : BarData) (h : same_portfolio e1 e2) :
    same_portfolio (e1.process_signal signal bar) (e2.process_signal signal bar) := by
  have hq := buy_quantity_congr e1 e2 bar h
  obtain ⟨hc, hcash, heq, hpos, hhist, hcurve⟩ := h
  rcases hs : signal.type with _ | _ | _
  · rcases le_or_lt (e1.buy_quantity bar) 0 with hle | hlt
    · rw [process_signal_buy_skip e1 signal bar hs hle,
        process_signal_buy_skip e2 signal bar hs (hq ▸ hle)]
      exact ⟨hc, hcash, heq, hpos, hhist, hcurve⟩
    · rw [process_signal_buy_fill e1 signal bar hs hlt,
        process_signal_buy_fill e2 signal bar hs (hq ▸ hlt)]
      refine ⟨hc, ?_, heq, ?_, ?_, hcurve⟩
      · show e1.cash_ - _ = e2.cash_ - _
        rw [hq, hcash, hc]
      · show Positions.assign e1.positions_ _ _ = Positions.assign e2.positions_ _ _
        rw [hq, hpos]
      · show e1.order_history_ ++ _ = e2.order_history_ ++ _
        rw [hq, hhist]
  · rcases hf : e1.positions_.find signal.symbol with _ | q
    · rw [process_signal_sell_absent e1 signal bar hs hf,
        process_signal_sell_absent e2 signal bar hs (hpos ▸ hf)]
      exact ⟨hc, hcash, heq, hpos, hhist, hcurve⟩
    · rcases le_or_lt q 0 with hle | hlt
      · rw [process_signal_sell_skip e1 signal bar q hs hf hle,
          process_signal_sell_skip e2 signal bar q hs (hpos ▸ hf) hle]
        exact ⟨hc, hcash, heq, hpos, hhist, hcurve⟩
      · rw [process_signal_sell_fill e1 signal bar q hs hf hlt,
          process_signal_sell_fill e2 signal bar q hs (hpos ▸ hf) hlt]
        refine ⟨hc, ?_, heq, ?_, ?_, hcurve⟩
        · show e1.cash_ + _ = e2.cash_ + _
          rw [hcash, hc]
        · show Positions.assign e1.positions_ _ _ = Positions.assign e2.positions_ _ _
          rw [hpos]
        · show e1.order_history_ ++ _ = e2.order_history_ ++ _
          rw [hhist]
  · rw [process_signal_hold e1 signal bar hs, process_signal_hold e2 signal bar hs]
    exact ⟨hc, hcash, heq, hpos, hhist, hcurve⟩

theorem run_bar_congr (e1 : BacktestEngine σ) (e2 : BacktestEngine τ) (bar : BarData)
    (h : same_portfolio e1 e2) (hsig : e1.signal_for bar = e2.signal_for bar) :
    same_portfolio (e1.run_bar bar) (e2.run_bar bar) := by
  have hafter : same_portfolio (e1.after_signal bar) (e2.after_signal bar) := by
    unfold BacktestEngine.after_signal
    rw [← hsig]
    rcases e1.signal_for bar with _ | signal
    · exact h
    · exact process_signal_congr (e1.after_on_data bar) (e2.after_on_data bar) signal bar h
  obtain ⟨hc, hcash, _, hpos, hhist, hcurve⟩ := hafter
  refine ⟨hc, hcash, ?_, hpos, hhist, ?_⟩
  · show (e1.after_signal bar).cash_ + _ = (e2.after_signal bar).cash_ + _
    rw [hcash, hpos]
  · show (e1.after_signal bar).equity_curve_ ++ [(bar.timestamp, (e1.after_signal bar).cash_ + _)]
      = (e2.after_signal bar).equity_curve_ ++ [(bar.timestamp, (e2.after_signal bar).cash_ + _)]
    rw [hcurve, hcash, hpos]

theorem replay_congr (bars : List BarData) (e1 : BacktestEngine σ) (e2 : BacktestEngine τ)
    (h : same_portfolio e1 e2)
    (hsig : emitted_signals e1.strategy_.on_data e1.strategy_.state bars
      = emitted_signals e2.strategy_.on_data e2.strategy_.state bars) :
    same_portfolio (bars.foldl BacktestEngine.run_bar e1)
      (bars.foldl BacktestEngine.run_bar e2) := by
  induction bars generalizing e1 e2 with
  | nil => exact h
  | cons bar rest ih =>
    rw [List.foldl_cons, List.foldl_cons]
    simp only [emitted_signals, List.cons.injEq] at hsig
    apply ih _ _ (run_bar_congr e1 e2 bar h hsig.1)
    rw [run_bar_strategy, run_bar_strategy]
    exact hsig.2

/-- C25: determinism. Two freshly constructed engines with the same
configuration, suppliers returning the same bar sequence, and strategies that
after initialize() return the same signals on every bar sequence, produce the
same equity curve, the same order history and the same performance report. -/
theorem run_deterministic (srt : StdSort) (m : CMath) (feed1 feed2 : DataFeed)
    (strat1 : Strategy σ) (strat2 : Strategy τ) (config : BacktestConfig)
    (e1 : BacktestEngine σ) (e2 : BacktestEngine τ)
    (h1 : BacktestEngine.construct (some feed1) (some strat1) config = Except.ok e1)
    (h2 : BacktestEngine.construct (some feed2) (some strat2) config = Except.ok e2)
    (hbars : feed1.get_historical_bars "BTCUSDT" config.start_time config.end_time "1d"
      = feed2.get_historical_bars "BTCUSDT" config.start_time config.end_time "1d")
    (hsig : ∀ bars : List BarData,
      emitted_signals strat1.on_data (strat1.reset strat1.state) bars
        = emitted_signals strat2.on_data (strat2.reset strat2.state) bars) :
    (e1.run srt m).equity_curve_ = (e2.run srt m).equity_curve_ ∧
      (e1.run srt m).order_history_ = (e2.run srt m).order_history_ ∧
      (e1.run srt m).performance_report_ = (e2.run srt m).performance_report_ := by
  have he1 := construct_ok feed1 strat1 config e1 h1
  have he2 := construct_ok feed2 strat2 config e2 h2
  have hb : BacktestEngine.replay_bars srt e1 = BacktestEngine.replay_bars srt e2 := by
    rw [he1, he2]
    show srt.sort _ = srt.sort _
    rw [hbars]
  have hstart : same_portfolio e1.after_reset e2.after_reset := by
    rw [he1, he2]
    exact ⟨rfl, rfl, rfl, rfl, rfl, rfl⟩
  have hs : emitted_signals e1.after_reset.strategy_.on_data e1.after_reset.strategy_.state
        (BacktestEngine.replay_bars srt e1)
      = emitted_signals e2.after_reset.strategy_.on_data e2.after_reset.strategy_.state
        (BacktestEngine.replay_bars srt e1) := by
    rw [he1, he2]
    exact hsig _
  obtain ⟨hc, _, _, _, hhist, hcurve⟩ :=
    replay_congr (BacktestEngine.replay_bars srt e1) e1.after_reset e2.after_reset hstart hs
  have hcurve2 : ((BacktestEngine.replay_bars srt e1).foldl BacktestEngine.run_bar
        e1.after_reset).equity_curve_
      = ((BacktestEngine.replay_bars srt e2).foldl BacktestEngine.run_bar
        e2.after_reset).equity_curve_ := by rw [← hb]; exact hcurve
  have hhist2 : ((BacktestEngine.replay_bars srt e1).foldl BacktestEngine.run_bar
        e1.after_reset).order_history_
      = ((BacktestEngine.replay_bars srt e2).foldl BacktestEngine.run_bar
        e2.after_reset).order_history_ := by rw [← hb]; exact hhist
  have hc2 : ((BacktestEngine.replay_bars srt e1).foldl BacktestEngine.run_bar
        e1.after_reset).config_
      = ((BacktestEngine.replay_bars srt e2).foldl BacktestEngine.run_bar
        e2.after_reset).config_ := by rw [← hb]; exact hc
  refine ⟨hcurve2, hhist2, ?_⟩
  show calculate_performance m _ _ _ = calculate_performance m _ _ _
  rw [hcurve2, hhist2, hc2]

/-- Witness of C25: the scenario engine and an engine whose strategy object
starts in another state (reset by initialize()) produce the same equity
curve. -/
theorem run_deterministic_witness :
    (scenario_engine.run insertion_sort sample_cmath).equity_curve_
      = (BacktestEngine.run insertion_sort sample_cmath
          { scenario_engine with strategy_ := scenario_strategy_used }).equity_curve_ :=
  (run_deterministic insertion_sort sample_cmath scenario_feed scenario_feed scenario_strategy
    scenario_strategy_used scenario_config scenario_engine
    { scenario_engine with strategy_ := scenario_strategy_used } rfl rfl rfl
    (fun _ => rfl)).1

end determinism

section fills

variable {σ : Type}

/-- C26, the code at the failing input: the BUY order that process_signal
appends on the fresh scenario engine at a bar of close 100 has quantity 90 and
price 100 and status FILLED, but filled_quantity 0 and average_price 0, the
defaults of the Order record, which process_signal never assigns. -/
theorem process_signal_leaves_fill_fields :
    (scenario_engine.process_signal (scenario_signal SignalType.BUY (scenario_bar 1 100))
        (scenario_bar 1 100)).order_history_ = [scenario_buy_order] ∧
      scenario_buy_order.status = OrderStatus.FILLED ∧
      scenario_buy_order.quantity = 90 ∧ scenario_buy_order.filled_quantity = 0 ∧
      scenario_buy_order.price = 100 ∧ scenario_buy_order.average_price = 0 ∧
      scenario_buy_order.filled_quantity ≠ scenario_buy_order.quantity ∧
      scenario_buy_order.average_price ≠ scenario_buy_order.price := by
  refine ⟨?_, rfl, rfl, rfl, rfl, rfl, ?_, ?_⟩
  · norm_num [BacktestEngine.process_signal, BacktestEngine.buy_quantity, scenario_engine,
      scenario_signal, scenario_bar, scenario_config, scenario_buy_order]
  · norm_num [scenario_buy_order]
  · norm_num [scenario_buy_order]

end fills

section cash

variable {σ : Type}

end cash

section win_rate

theorem reference_pairs_length : ∀ orders : List Order,
    (reference_pairs orders).length = orders.length / 2
  | [] => rfl
  | [a] => by rw [reference_pairs_single]; simp
  | a :: b :: rest => by
    rw [reference_pairs_cons_cons, List.length_cons, reference_pairs_length rest]
    simp only [List.length_cons]
    omega

theorem win_loss_partition (pairs : List (Order × Order)) :
    (pairs.filter (fun p => 0 < reference_profit p)).length
        + (pairs.filter (fun p => reference_profit p ≤ 0)).length
      = pairs.length := by
  induction pairs with
  | nil => rfl
  | cons p rest ih =>
    rcases lt_or_le 0 (reference_profit p) with hw | hl
    · have hnl : ¬ reference_profit p ≤ 0 := not_le.mpr hw
      simp [List.filter_cons, hw, hnl]
      omega
    · have hnw : ¬ 0 < reference_profit p := not_lt.mpr hl
      simp [List.filter_cons, hl, hnw]
      omega

/-- C29: wins are counted per pair and divided by the raw order count, so
win_rate is at most 1/2 for every equity curve and order list; and for a
non-empty curve winning_trades + losing_trades = floor(total_trades / 2). -/
theorem win_rate_at_most_half (m : CMath) (equity_curve : List (Timestamp × ℚ))
    (orders : List Order) (initial_capital : ℚ) :
    (calculate_performance m equity_curve orders initial_capital).win_rate ≤ 1 / 2 ∧
      (equity_curve ≠ [] →
        (calculate_performance m equity_curve orders initial_capital).winning_trades
            + (calculate_performance m equity_curve orders initial_capital).losing_trades
          = (calculate_performance m equity_curve orders initial_capital).total_trades / 2) := by
  cases equity_curve with
  | nil =>
    refine ⟨?_, fun h => absurd rfl h⟩
    show (0 : ℚ) ≤ 1 / 2
    norm_num
  | cons front rest =>
    obtain ⟨ht, hw, hl, _, _, hr, _, _, _⟩ :=
      report_trade_fields m front rest orders initial_capital
    obtain ⟨sw, sl, _, _⟩ := trade_loop_stats orders
    have hpart := win_loss_partition (reference_pairs orders)
    have hlen := reference_pairs_length orders
    constructor
    · rw [hr, sw]
      split
      · rename_i hpos
        have hn : (0 : ℚ) < ((orders.length : Int) : ℚ) := by exact_mod_cast hpos
        rw [div_le_iff₀ hn]
        have h2 : 2 * ((reference_pairs orders).filter
            (fun p => 0 < reference_profit p)).length ≤ orders.length := by
          have := Nat.mul_div_le orders.length 2
          omega
        have h3 : (2 : ℚ) * ((((reference_pairs orders).filter
            (fun p => 0 < reference_profit p)).length : Int) : ℚ)
            ≤ ((orders.length : Int) : ℚ) := by exact_mod_cast h2
        linarith
      · norm_num
    · intro _
      rw [hw, hl, ht, sw, sl]
      have h4 : ((reference_pairs orders).filter (fun p => 0 < reference_profit p)).length
          + ((reference_pairs orders).filter (fun p => reference_profit p ≤ 0)).length
          = orders.length / 2 := by rw [hpart, hlen]
      exact_mod_cast h4

/-- Witness of C29: three orders give one pair, so winning_trades +
losing_trades = 3 / 2 = 1. -/
theorem win_rate_at_most_half_witness :
    (calculate_performance sample_cmath [(1, 10000)]
          [scenario_buy_order, scenario_sell_order, scenario_buy_order] 10000).winning_trades
        + (calculate_performance sample_cmath [(1, 10000)]
          [scenario_buy_order, scenario_sell_order, scenario_buy_order] 10000).losing_trades
      = 1 := by
  rw [(win_rate_at_most_half sample_cmath [(1, 10000)]
    [scenario_buy_order, scenario_sell_order, scenario_buy_order] 10000).2 (by simp)]
  rfl

end win_rate

section history_shape

variable {σ : Type}

theorem open_quantity_nil : reference_open_quantity [] = 0 := rfl

theorem open_quantity_buy (orders : List Order) (o : Order) (h : o.side = OrderSide.BUY) :
    reference_open_quantity (orders ++ [o]) = reference_open_quantity orders + o.quantity := by
  unfold reference_open_quantity
  rw [List.reverse_append, List.reverse_singleton, List.singleton_append,
    List.takeWhile_cons_of_pos (by simpa using h), List.map_cons, List.sum_cons]
  ring

theorem open_quantity_sell (orders : List Order) (o : Order) (h : o.side = OrderSide.SELL) :
    reference_open_quantity (orders ++ [o]) = 0 := by
  unfold reference_open_quantity
  have hne : ¬ o.side = OrderSide.BUY := by rw [h]; decide
  rw [List.reverse_append, List.reverse_singleton, List.singleton_append,
    List.takeWhile_cons_of_neg (by simpa using hne)]
  rfl

theorem sells_open_quantity_append (orders : List Order) (o : Order)
    (h : sells_open_quantity orders)
    (ho : o.side = OrderSide.SELL →
      o.quantity = reference_open_quantity orders ∧ 0 < reference_open_quantity orders) :
    sells_open_quantity (orders ++ [o]) := by
  intro pre x post heq hx
  rcases List.eq_nil_or_concat post with hnil | ⟨post1, b, hpost⟩
  · rw [hnil] at heq
    obtain ⟨h1, h2⟩ := List.append_inj' heq rfl
    have hxo : o = x := by simpa using h2
    subst hxo
    rw [← h1]
    exact ho hx
  · rw [hpost, List.concat_eq_append] at heq
    have heq2 : orders ++ [o] = (pre ++ x :: post1) ++ [b] := by
      rw [heq]; simp
    obtain ⟨h1, _⟩ := List.append_inj' heq2 rfl
    exact h pre x post1 h1 hx

theorem held_of_find (m : Positions) (key : String) (q : ℚ)
    (h : Positions.find m key = some q) : Positions.held m key = q := by
  unfold Positions.held
  rw [h]
  rfl

/-- One call of process_signal with a signal of symbol `sym` keeps the held
quantity of `sym` equal to the open quantity of the order history, and keeps
every SELL order selling the open quantity before it. -/
theorem process_signal_shape (e : BacktestEngine σ) (signal : Signal) (bar : BarData)
    (sym : String) (hsym : signal.symbol = sym)
    (hheld : Positions.held e.positions_ sym = reference_open_quantity e.order_history_)
    (hshape : sells_open_quantity e.order_history_) :
    Positions.held (e.process_signal signal bar).positions_ sym
        = reference_open_quantity (e.process_signal signal bar).order_history_ ∧
      sells_open_quantity (e.process_signal signal bar).order_history_ := by
  rcases hs : signal.type with _ | _ | _
  · rcases le_or_lt (e.buy_quantity bar) 0 with hq | hq
    · rw [process_signal_buy_skip e signal bar hs hq]; exact ⟨hheld, hshape⟩
    · rw [process_signal_buy_fill e signal bar hs hq]
      constructor
      · show Positions.held (Positions.assign e.positions_ signal.symbol
            (Positions.held e.positions_ signal.symbol + e.buy_quantity bar)) sym
          = reference_open_quantity (e.order_history_ ++ [_])
        rw [hsym, held_assign_same, open_quantity_buy _ _ rfl, hheld]
      · apply sells_open_quantity_append _ _ hshape
        intro hside
        have hbuy : OrderSide.BUY = OrderSide.SELL := hside
        exact absurd hbuy (by decide)
  · rcases hf : e.positions_.find signal.symbol with _ | q
    · rw [process_signal_sell_absent e signal bar hs hf]; exact ⟨hheld, hshape⟩
    · rcases le_or_lt q 0 with hq | hq
      · rw [process_signal_sell_skip e signal bar q hs hf hq]; exact ⟨hheld, hshape⟩
      · rw [process_signal_sell_fill e signal bar q hs hf hq]
        have hq2 : Positions.held e.positions_ sym = q := by
          rw [← hsym]; exact held_of_find _ _ _ hf
        constructor
        · show Positions.held (Positions.assign e.positions_ signal.symbol 0) sym
            = reference_open_quantity (e.order_history_ ++ [_])
          rw [hsym, held_assign_same, open_quantity_sell _ _ rfl]
        · apply sells_open_quantity_append _ _ hshape
          intro _
          show q = reference_open_quantity e.order_history_
            ∧ 0 < reference_open_quantity e.order_history_
          rw [← hheld, hq2]
          exact ⟨rfl, hq⟩
  · rw [process_signal_hold e signal bar hs]; exact ⟨hheld, hshape⟩

theorem run_bar_shape (e : BacktestEngine σ) (bar : BarData) (sym : String)
    (hsym : ∀ signal : Signal, e.signal_for bar = some signal → signal.symbol = sym)
    (hheld : Positions.held e.positions_ sym = reference_open_quantity e.order_history_)
    (hshape : sells_open_quantity e.order_history_) :
    Positions.held (e.run_bar bar).positions_ sym
        = reference_open_quantity (e.run_bar bar).order_history_ ∧
      sells_open_quantity (e.run_bar bar).order_history_ := by
  show Positions.held (e.after_signal bar).positions_ sym
      = reference_open_quantity (e.after_signal bar).order_history_ ∧
    sells_open_quantity (e.after_signal bar).order_history_
  unfold BacktestEngine.after_signal
  rcases hsig : e.signal_for bar with _ | signal
  · exact ⟨hheld, hshape⟩
  · exact process_signal_shape (e.after_on_data bar) signal bar sym (hsym signal hsig)
      hheld hshape

theorem replay_shape (bars : List BarData) (e : BacktestEngine σ) (sym : String)
    (hsym : ∀ sb ∈ e.replay_trace bars, ∀ signal : Signal,
      sb.1.signal_for sb.2 = some signal → signal.symbol = sym)
    (hheld : Positions.held e.positions_ sym = reference_open_quantity e.order_history_)
    (hshape : sells_open_quantity e.order_history_) :
    sells_open_quantity (bars.foldl BacktestEngine.run_bar e).order_history_ := by
  induction bars generalizing e with
  | nil => exact hshape
  | cons bar rest ih =>
    rw [List.foldl_cons]
    obtain ⟨h1, h2⟩ := run_bar_shape e bar sym
      (fun signal hs => hsym (e, bar) (List.mem_cons_self _ _) signal hs) hheld hshape
    exact ih (e.run_bar bar)
      (fun sb hsb signal hs => hsym sb (List.mem_cons_of_mem _ hsb) signal hs) h1 h2

/-- The three shape properties follow from every SELL selling the positive
open quantity before it. -/
theorem shape_of_sells_open (orders : List Order) (h : sells_open_quantity orders) :
    (∀ (o : Order) (rest : List Order), orders = o :: rest → o.side = OrderSide.BUY) ∧
      (∀ (pre : List Order) (a b : Order) (post : List Order),
        orders = pre ++ a :: b :: post →
        ¬ (a.side = OrderSide.SELL ∧ b.side = OrderSide.SELL)) ∧
      (∀ (pre : List Order) (o : Order) (post : List Order), orders = pre ++ o :: post →
        o.side = OrderSide.SELL → o.quantity = reference_open_quantity pre) := by
  refine ⟨fun o rest heq => ?_, fun pre a b post heq hab => ?_,
    fun pre o post heq hs => (h pre o post heq hs).1⟩
  · cases hside : o.side with
    | BUY => rfl
    | SELL =>
      have := (h [] o rest (by rw [heq]; rfl) hside).2
      rw [open_quantity_nil] at this
      exact absurd this (lt_irrefl _)
  · have heq2 : orders = (pre ++ [a]) ++ b :: post := by rw [heq]; simp
    have := (h (pre ++ [a]) b post heq2 hab.2).2
    rw [open_quantity_sell pre a hab.1] at this
    exact absurd this (lt_irrefl _)

theorem replay_trace_mem (bars : List BarData) (e : BacktestEngine σ) :
    ∀ sb ∈ e.replay_trace bars,
      sb.1.strategy_.on_data = e.strategy_.on_data ∧ sb.2 ∈ bars := by
  induction bars generalizing e with
  | nil => intro sb h; exact absurd h (List.not_mem_nil _)
  | cons bar rest ih =>
    intro sb h
    simp only [BacktestEngine.replay_trace, List.mem_cons] at h
    rcases h with h | h
    · rw [h]; exact ⟨rfl, List.mem_cons_self _ _⟩
    · obtain ⟨h1, h2⟩ := ih (e.run_bar bar) sb h
      rw [run_bar_strategy] at h1
      exact ⟨h1, List.mem_cons_of_mem _ h2⟩

theorem buy_engine_history :
    (buy_engine.run insertion_sort sample_cmath).order_history_
      = [{ symbol := "BTCUSDT", timestamp := 1, type := OrderType.MARKET,
           side := OrderSide.BUY, quantity := 90, price := 100,
           status := OrderStatus.FILLED },
         { symbol := "BTCUSDT", timestamp := 1, type := OrderType.MARKET,
           side := OrderSide.BUY, quantity := 9 / 2, price := 200,
           status := OrderStatus.FILLED }] := by
  have hb : BacktestEngine.replay_bars insertion_sort buy_engine
      = [scenario_bar 1 100, scenario_bar 1 200] := by
    show List.insertionSort (fun a b : BarData => a.timestamp ≤ b.timestamp)
      [scenario_bar 1 100, scenario_bar 1 200] = _
    simp [List.insertionSort, List.orderedInsert, scenario_bar]
  have h1 : buy_engine.after_reset.run_bar (scenario_bar 1 100)
      = { buy_engine with
          strategy_ := { buy_strategy with state := 1 }
          cash_ := 1000
          equity_ := 10000
          positions_ := [("BTCUSDT", 90)]
          order_history_ :=
            [{ symbol := "BTCUSDT", timestamp := 1, type := OrderType.MARKET,
               side := OrderSide.BUY, quantity := 90, price := 100,
               status := OrderStatus.FILLED }]
          equity_curve_ := [(1, 10000)] } := by
    norm_num [BacktestEngine.run_bar, BacktestEngine.after_signal, BacktestEngine.signal_for,
      BacktestEngine.after_on_data, BacktestEngine.after_reset, BacktestEngine.process_signal,
      BacktestEngine.buy_quantity, BacktestEngine.update_portfolio,
      BacktestEngine.position_value, Positions.assign, Positions.held, Positions.find,
      buy_engine, buy_strategy, scenario_signal, scenario_bar, scenario_config]
  show ((BacktestEngine.replay_bars insertion_sort buy_engine).foldl BacktestEngine.run_bar
    buy_engine.after_reset).order_history_ = _
  rw [hb, List.foldl_cons, h1, List.foldl_cons, List.foldl_nil]
  norm_num [BacktestEngine.run_bar, BacktestEngine.after_signal, BacktestEngine.signal_for,
    BacktestEngine.after_on_data, BacktestEngine.process_signal,
    BacktestEngine.buy_quantity, BacktestEngine.update_portfolio,
    BacktestEngine.position_value, Positions.assign, Positions.held, Positions.find,
    buy_engine, buy_strategy, scenario_signal, scenario_bar, scenario_config]

/-- C30: order-history shape. For every run from a fresh engine in which all
signals carry the same symbol, the first order of the history is a BUY, no two
consecutive orders are both SELL, and each SELL order's quantity is the sum of
the quantities of the BUY orders recorded since the previous SELL (or since the
start); consecutive BUY orders do occur: the always-BUY strategy on two bars
records two BUY orders in a row. -/
theorem order_history_shape (srt : StdSort) (m : CMath) (feed : DataFeed)
    (strat : Strategy σ) (config : BacktestConfig) (e : BacktestEngine σ) (sym : String)
    (hfresh : BacktestEngine.construct (some feed) (some strat) config = Except.ok e)
    (hsym : ∀ sb ∈ e.after_reset.replay_trace (BacktestEngine.replay_bars srt e),
      ∀ signal : Signal, sb.1.signal_for sb.2 = some signal → signal.symbol = sym) :
    (∀ (o : Order) (rest : List Order),
        (e.run srt m).order_history_ = o :: rest → o.side = OrderSide.BUY) ∧
      (∀ (pre : List Order) (a b : Order) (post : List Order),
        (e.run srt m).order_history_ = pre ++ a :: b :: post →
        ¬ (a.side = OrderSide.SELL ∧ b.side = OrderSide.SELL)) ∧
      (∀ (pre : List Order) (o : Order) (post : List Order),
        (e.run srt m).order_history_ = pre ++ o :: post →
        o.side = OrderSide.SELL → o.quantity = reference_open_quantity pre) ∧
      (∃ (a b : Order),
        (buy_engine.run insertion_sort sample_cmath).order_history_ = [a, b] ∧
        a.side = OrderSide.BUY ∧ b.side = OrderSide.BUY ∧ a.symbol = b.symbol) := by
  have he := construct_ok feed strat config e hfresh
  have hheld : Positions.held e.after_reset.positions_ sym
      = reference_open_quantity e.after_reset.order_history_ := by
    rw [he]; rfl
  have hshape0 : sells_open_quantity e.after_reset.order_history_ := by
    rw [he]
    intro pre o post heq _
    have hnil : ([] : List Order) = pre ++ o :: post := heq
    exact absurd hnil (by simp)
  have hshape : sells_open_quantity (e.run srt m).order_history_ :=
    replay_shape (BacktestEngine.replay_bars srt e) e.after_reset sym hsym hheld hshape0
  obtain ⟨h1, h2, h3⟩ := shape_of_sells_open _ hshape
  exact ⟨h1, h2, h3, _, _, buy_engine_history, rfl, rfl, rfl⟩

/-- Witness of C30: in the scenario run every signal carries BTCUSDT, and the
SELL order sells the 90 units bought by the BUY order before it. -/
theorem order_history_shape_witness :
    scenario_sell_order.quantity = reference_open_quantity [scenario_buy_order] := by
  have hsym : ∀ sb ∈ scenario_engine.after_reset.replay_trace
      (BacktestEngine.replay_bars insertion_sort scenario_engine),
      ∀ signal : Signal, sb.1.signal_for sb.2 = some signal → signal.symbol = "BTCUSDT" := by
    intro sb hsb signal hsig
    obtain ⟨hon, hbar⟩ := replay_trace_mem _ _ sb hsb
    rw [scenario_replay_bars] at hbar
    have hbsym : sb.2.symbol = "BTCUSDT" := by
      simp only [List.mem_cons, List.mem_singleton, List.not_mem_nil, or_false] at hbar
      rcases hbar with h | h | h <;> rw [h] <;> rfl
    have hsig2 : (scenario_strategy.on_data sb.1.strategy_.state sb.2).2 = some signal := by
      have : (sb.1.strategy_.on_data sb.1.strategy_.state sb.2).2 = some signal := hsig
      rw [hon] at this
      exact this
    have hcases : signal.symbol = sb.2.symbol := by
      simp only [scenario_strategy] at hsig2
      split at hsig2 <;> first
        | (simp only [Option.some.injEq] at hsig2; rw [← hsig2]; rfl)
        | exact absurd hsig2 (by simp)
    rw [hcases, hbsym]
  exact (order_history_shape insertion_sort sample_cmath scenario_feed scenario_strategy
    scenario_config scenario_engine "BTCUSDT" rfl hsym).2.2.1 [scenario_buy_order]
    scenario_sell_order [] (by rw [scenario_run_eq]; rfl) rfl

end history_shape

section drawdown_series

theorem drawdowns_step_eq (peak : ℚ) (acc : List (Timestamp × ℚ)) (p : Timestamp × ℚ) :
    drawdowns_step (peak, acc) p
      = (max peak p.2, acc ++ [(p.1, (max peak p.2 - p.2) / max peak p.2)]) := by
  have hmax : (if p.2 > peak then p.2 else peak) = max peak p.2 := by
    rcases lt_or_le peak p.2 with h | h
    · rw [if_pos h, max_eq_right h.le]
    · rw [if_neg (not_lt.mpr h), max_eq_left h]
  show ((if p.2 > peak then p.2 else peak),
      acc ++ [(p.1, ((if p.2 > peak then p.2 else peak) - p.2)
        / (if p.2 > peak then p.2 else peak))]) = _
  rw [hmax]

end drawdown_series

section aggregates

end aggregates

section special_values

variable {σ : Type}

theorem sub_finite (a b : ℚ) :
    ieee.Double.sub (ieee.Double.finite a) (ieee.Double.finite b) = ieee.Double.finite (a - b) := by
  simp [ieee.Double.sub, ieee.Double.neg, ieee.Double.add, sub_eq_add_neg]

theorem div_finite (a b : ℚ) (h : b ≠ 0) :
    ieee.Double.div (ieee.Double.finite a) (ieee.Double.finite b) = ieee.Double.finite (a / b) := by
  simp [ieee.Double.div, h]

theorem find_of_rational (m : Positions) (key : String) :
    ieee.Positions.find (ieee.Positions.of_rational m) key
      = (Positions.find m key).map ieee.Double.finite := by
  induction m with
  | nil => rfl
  | cons hd tl ih =>
    obtain ⟨k, v⟩ := hd
    by_cases hk : k = key
    · simp [ieee.Positions.of_rational, ieee.Positions.find, Positions.find, hk]
    · have ih2 : ieee.Positions.find (List.map (fun kv => (kv.1, ieee.Double.finite kv.2)) tl) key
          = (Positions.find tl key).map ieee.Double.finite := ih
      simp [ieee.Positions.of_rational, ieee.Positions.find, Positions.find, hk, ih2]

theorem held_of_rational (m : Positions) (key : String) :
    ieee.Positions.held (ieee.Positions.of_rational m) key
      = ieee.Double.finite (Positions.held m key) := by
  unfold ieee.Positions.held Positions.held
  rw [find_of_rational]
  cases Positions.find m key <;> rfl

theorem assign_of_rational (m : Positions) (key : String) (value : ℚ) :
    ieee.Positions.assign (ieee.Positions.of_rational m) key (ieee.Double.finite value)
      = ieee.Positions.of_rational (Positions.assign m key value) := by
  induction m with
  | nil => rfl
  | cons hd tl ih =>
    obtain ⟨k, v⟩ := hd
    have ih2 : ieee.Positions.assign (List.map (fun kv => (kv.1, ieee.Double.finite kv.2)) tl) key
        (ieee.Double.finite value)
        = List.map (fun kv => (kv.1, ieee.Double.finite kv.2)) (Positions.assign tl key value) := ih
    by_cases hk : k = key
    · simp [ieee.Positions.of_rational, ieee.Positions.assign, Positions.assign, hk]
    · simp [ieee.Positions.of_rational, ieee.Positions.assign, Positions.assign, hk, ih2]

/-- On a bar of non-zero close the BUY quantity over doubles is the rational
one. -/
theorem buy_quantity_of_rational (e : BacktestEngine σ) (bar : BarData) (h : bar.close ≠ 0) :
    (ieee.BacktestEngine.of_rational e).buy_quantity bar
      = ieee.Double.finite (e.buy_quantity bar) := by
  unfold ieee.BacktestEngine.buy_quantity BacktestEngine.buy_quantity
  cases hfrac : e.config_.use_fractional_shares <;>
    simp [ieee.BacktestEngine.of_rational, ieee.Double.mul, div_finite _ _ h, ieee.Double.floor,
      hfrac]

/-- On a bar of non-zero close, process_signal over doubles and over rationals
agree: from a state whose values are all finite the two embeddings compute the
same state. -/
theorem process_signal_of_rational (e : BacktestEngine σ) (signal : Signal) (bar : BarData)
    (h : bar.close ≠ 0) :
    (ieee.BacktestEngine.of_rational e).process_signal signal bar
      = ieee.BacktestEngine.of_rational (e.process_signal signal bar) := by
  rcases hs : signal.type with _ | _ | _
  · rcases le_or_lt (e.buy_quantity bar) 0 with hq | hq
    · rw [process_signal_buy_skip e signal bar hs hq]
      simp [ieee.BacktestEngine.process_signal, hs, buy_quantity_of_rational e bar h,
        ieee.Double.le, hq]
    · rw [process_signal_buy_fill e signal bar hs hq]
      simp [ieee.BacktestEngine.process_signal, hs, buy_quantity_of_rational e bar h,
        ieee.Double.le, not_le.mpr hq]
      simp [ieee.BacktestEngine.of_rational, ieee.Double.mul, ieee.Double.add, sub_finite,
        held_of_rational, assign_of_rational, ieee.Order.of_rational]
  · rcases hf : e.positions_.find signal.symbol with _ | q
    · rw [process_signal_sell_absent e signal bar hs hf]
      have hf2 : ieee.Positions.find (ieee.BacktestEngine.of_rational e).positions_ signal.symbol
          = none := by
        show ieee.Positions.find (ieee.Positions.of_rational e.positions_) signal.symbol = none
        rw [find_of_rational, hf]; rfl
      simp [ieee.BacktestEngine.process_signal, hs, hf2]
    · have hf2 : ieee.Positions.find (ieee.BacktestEngine.of_rational e).positions_ signal.symbol
          = some (ieee.Double.finite q) := by
        show ieee.Positions.find (ieee.Positions.of_rational e.positions_) signal.symbol = _
        rw [find_of_rational, hf]; rfl
      rcases le_or_lt q 0 with hq | hq
      · rw [process_signal_sell_skip e signal bar q hs hf hq]
        simp [ieee.BacktestEngine.process_signal, hs, hf2, ieee.Double.le, hq]
      · rw [process_signal_sell_fill e signal bar q hs hf hq]
        simp [ieee.BacktestEngine.process_signal, hs, hf2, ieee.Double.le, not_le.mpr hq]
        simp [ieee.BacktestEngine.of_rational, ieee.Double.mul, ieee.Double.add, sub_finite,
          assign_of_rational, ieee.Order.of_rational]
  · rw [process_signal_hold e signal bar hs]
    simp [ieee.BacktestEngine.process_signal, hs]

theorem position_fold_of_rational (m : Positions) (bar : BarData) (acc : ℚ) :
    (ieee.Positions.of_rational m).foldl
        (fun acc entry =>
          if entry.1 = bar.symbol then
            acc.add (entry.2.mul (ieee.Double.finite bar.close))
          else acc) (ieee.Double.finite acc)
      = ieee.Double.finite (m.foldl
          (fun acc entry => if entry.1 = bar.symbol then acc + entry.2 * bar.close else acc)
          acc) := by
  induction m generalizing acc with
  | nil => rfl
  | cons hd tl ih =>
    obtain ⟨k, v⟩ := hd
    have ih2 := fun a => ih a
    unfold ieee.Positions.of_rational at ih2 ⊢
    by_cases hk : k = bar.symbol
    · simp only [List.map_cons, List.foldl_cons, hk, if_true, ieee.Double.mul, ieee.Double.add]
      exact ih2 _
    · simp only [List.map_cons, List.foldl_cons, hk, if_false]
      exact ih2 _

/-- One iteration of the replay loop on a bar of non-zero close: the two
embeddings agree. -/
theorem run_bar_of_rational (e : BacktestEngine σ) (bar : BarData) (h : bar.close ≠ 0) :
    (ieee.BacktestEngine.of_rational e).run_bar bar
      = ieee.BacktestEngine.of_rational (e.run_bar bar) := by
  have hsignal : (ieee.BacktestEngine.of_rational e).after_signal bar
      = ieee.BacktestEngine.of_rational (e.after_signal bar) := by
    unfold ieee.BacktestEngine.after_signal BacktestEngine.after_signal
    have hfor : (ieee.BacktestEngine.of_rational e).signal_for bar = e.signal_for bar := rfl
    have hdata : (ieee.BacktestEngine.of_rational e).after_on_data bar
        = ieee.BacktestEngine.of_rational (e.after_on_data bar) := rfl
    rw [hfor, hdata]
    cases e.signal_for bar with
    | none => rfl
    | some signal => exact process_signal_of_rational _ signal bar h
  unfold ieee.BacktestEngine.run_bar BacktestEngine.run_bar
  rw [hsignal]
  have hvalue : ieee.BacktestEngine.position_value
      (ieee.Positions.of_rational (e.after_signal bar).positions_) bar
      = ieee.Double.finite (BacktestEngine.position_value (e.after_signal bar).positions_ bar) :=
    position_fold_of_rational _ bar 0
  simp [ieee.BacktestEngine.update_portfolio, BacktestEngine.update_portfolio, hvalue,
    ieee.BacktestEngine.of_rational, ieee.Double.add]

/-- The replay loop on bars of non-zero close: the two embeddings agree. -/
theorem replay_of_rational (bars : List BarData) (e : BacktestEngine σ)
    (h : ∀ bar ∈ bars, bar.close ≠ 0) :
    bars.foldl ieee.BacktestEngine.run_bar (ieee.BacktestEngine.of_rational e)
      = ieee.BacktestEngine.of_rational (bars.foldl BacktestEngine.run_bar e) := by
  induction bars generalizing e with
  | nil => rfl
  | cons bar rest ih =>
    rw [List.foldl_cons, List.foldl_cons, run_bar_of_rational e bar (h bar (List.mem_cons_self _ _))]
    exact ih _ (fun b hb => h b (List.mem_cons_of_mem _ hb))

/-- Agreement of the two embeddings of run(): when no supplied bar has close 0,
the engine over doubles ends the replay loop in the state the rational engine
ends it in, every value finite. -/
theorem run_of_rational (srt : StdSort) (m : CMath) (e : BacktestEngine σ)
    (h : ∀ bar ∈ e.data_feed_.get_historical_bars "BTCUSDT" e.config_.start_time
      e.config_.end_time "1d", bar.close ≠ 0) :
    (ieee.BacktestEngine.of_rational e).run srt
      = ieee.BacktestEngine.of_rational (e.run srt m) := by
  have hbars : ∀ bar ∈ BacktestEngine.replay_bars srt e, bar.close ≠ 0 :=
    fun bar hbar => h bar ((srt.is_perm _).subset hbar)
  exact replay_of_rational (BacktestEngine.replay_bars srt e) e.after_reset hbars

/-- One iteration of the loop of calculate_drawdowns at a non-zero running
peak: the two embeddings agree. -/
theorem drawdowns_step_of_rational (peak : ℚ) (acc : List (Timestamp × ℚ)) (p : Timestamp × ℚ)
    (h : max peak p.2 ≠ 0) :
    ieee.drawdowns_step
        (ieee.Double.finite peak, acc.map (fun q => (q.1, ieee.Double.finite q.2)))
        (p.1, ieee.Double.finite p.2)
      = (ieee.Double.finite (drawdowns_step (peak, acc) p).1,
          (drawdowns_step (peak, acc) p).2.map (fun q => (q.1, ieee.Double.finite q.2))) := by
  rw [drawdowns_step_eq]
  rcases lt_or_le peak p.2 with hlt | hle
  · have hmax : max peak p.2 = p.2 := max_eq_right hlt.le
    rw [hmax] at h ⊢
    simp [ieee.drawdowns_step, ieee.Double.lt, hlt, sub_finite, div_finite _ _ h]
  · have hmax : max peak p.2 = peak := max_eq_left hle
    rw [hmax] at h ⊢
    simp [ieee.drawdowns_step, ieee.Double.lt, not_lt.mpr hle, sub_finite, div_finite _ _ h]

theorem drawdowns_fold_of_rational (l : List (Timestamp × ℚ)) (peak : ℚ)
    (acc : List (Timestamp × ℚ))
    (h : ∀ pk ∈ (List.scanl max peak (l.map Prod.snd)).tail, pk ≠ 0) :
    (l.map (fun q => (q.1, ieee.Double.finite q.2))).foldl ieee.drawdowns_step
        (ieee.Double.finite peak, acc.map (fun q => (q.1, ieee.Double.finite q.2)))
      = (ieee.Double.finite (l.foldl drawdowns_step (peak, acc)).1,
          (l.foldl drawdowns_step (peak, acc)).2.map (fun q => (q.1, ieee.Double.finite q.2))) := by
  induction l generalizing peak acc with
  | nil => rfl
  | cons p rest ih =>
    have hshape : (List.scanl max peak ((p :: rest).map Prod.snd)).tail
        = max peak p.2 :: (List.scanl max (max peak p.2) (rest.map Prod.snd)).tail := by
      show List.scanl max (max peak p.2) (rest.map Prod.snd) = _
      exact scanl_max_cons_tail _ _
    rw [hshape] at h
    have hstep := drawdowns_step_of_rational peak acc p (h _ (List.mem_cons_self _ _))
    have hrest := ih (drawdowns_step (peak, acc) p).1 (drawdowns_step (peak, acc) p).2 (by
      rw [drawdowns_step_eq]
      exact fun pk hpk => h pk (List.mem_cons_of_mem _ hpk))
    rw [List.map_cons, List.foldl_cons, List.foldl_cons, hstep]
    exact hrest

/-- Agreement of the two embeddings of calculate_drawdowns on a curve none of
whose running peaks is 0. -/
theorem calculate_drawdowns_of_rational (equity_curve : List (Timestamp × ℚ))
    (h : ∀ pk ∈ reference_peaks (equity_curve.map Prod.snd), pk ≠ 0) :
    ieee.calculate_drawdowns (equity_curve.map (fun q => (q.1, ieee.Double.finite q.2)))
      = (calculate_drawdowns equity_curve).map (fun q => (q.1, ieee.Double.finite q.2)) := by
  cases equity_curve with
  | nil => rfl
  | cons first rest =>
    have hpk : (List.scanl max first.2 ((first :: rest).map Prod.snd)).tail
        = reference_peaks ((first :: rest).map Prod.snd) := by
      show List.scanl max (max first.2 first.2) (rest.map Prod.snd)
        = List.scanl max first.2 (rest.map Prod.snd)
      rw [max_self]
    have hfold := drawdowns_fold_of_rational (first :: rest) first.2 [] (by rw [hpk]; exact h)
    show (((first :: rest).map (fun q => (q.1, ieee.Double.finite q.2))).foldl
      ieee.drawdowns_step (ieee.Double.finite first.2, [])).2 = _
    exact congrArg Prod.snd hfold

theorem max_drawdown_step_of_rational (md peak : ℚ) (p : Timestamp × ℚ)
    (h : max peak p.2 ≠ 0) :
    ieee.max_drawdown_step (ieee.Double.finite md, ieee.Double.finite peak)
        (p.1, ieee.Double.finite p.2)
      = (ieee.Double.finite (max_drawdown_step (md, peak) p).1,
          ieee.Double.finite (max_drawdown_step (md, peak) p).2) := by
  rcases lt_or_le peak p.2 with hlt | hle
  · rw [max_drawdown_step_gt _ _ _ hlt]
    simp [ieee.max_drawdown_step, ieee.Double.lt, hlt]
  · have hmax : max peak p.2 = peak := max_eq_left hle
    rw [hmax] at h
    rw [max_drawdown_step_le _ _ _ hle]
    by_cases hmd : md < (peak - p.2) / peak
    · simp [ieee.max_drawdown_step, ieee.std_max, std_max, ieee.Double.lt, not_lt.mpr hle,
        sub_finite, div_finite _ _ h, hmd]
    · simp [ieee.max_drawdown_step, ieee.std_max, std_max, ieee.Double.lt, not_lt.mpr hle,
        sub_finite, div_finite _ _ h, hmd]

theorem max_drawdown_fold_of_rational (l : List (Timestamp × ℚ)) (md peak : ℚ)
    (h : ∀ pk ∈ (List.scanl max peak (l.map Prod.snd)).tail, pk ≠ 0) :
    (l.map (fun q => (q.1, ieee.Double.finite q.2))).foldl ieee.max_drawdown_step
        (ieee.Double.finite md, ieee.Double.finite peak)
      = (ieee.Double.finite (l.foldl max_drawdown_step (md, peak)).1,
          ieee.Double.finite (l.foldl max_drawdown_step (md, peak)).2) := by
  induction l generalizing md peak with
  | nil => rfl
  | cons p rest ih =>
    have hshape : (List.scanl max peak ((p :: rest).map Prod.snd)).tail
        = max peak p.2 :: (List.scanl max (max peak p.2) (rest.map Prod.snd)).tail := by
      show List.scanl max (max peak p.2) (rest.map Prod.snd) = _
      exact scanl_max_cons_tail _ _
    rw [hshape] at h
    have hstep := max_drawdown_step_of_rational md peak p (h _ (List.mem_cons_self _ _))
    have hpeak : (max_drawdown_step (md, peak) p).2 = max peak p.2 := by
      rcases lt_or_le peak p.2 with hlt | hle
      · rw [max_drawdown_step_gt _ _ _ hlt, max_eq_right hlt.le]
      · rw [max_drawdown_step_le _ _ _ hle, max_eq_left hle]
    have hrest := ih (max_drawdown_step (md, peak) p).1 (max_drawdown_step (md, peak) p).2 (by
      rw [hpeak]
      exact fun pk hpk => h pk (List.mem_cons_of_mem _ hpk))
    rw [List.map_cons, List.foldl_cons, List.foldl_cons, hstep]
    exact hrest

/-- Agreement of the two embeddings of calculate_max_drawdown on a curve none
of whose running peaks is 0. -/
theorem calculate_max_drawdown_of_rational (equity_curve : List (Timestamp × ℚ))
    (h : ∀ pk ∈ reference_peaks (equity_curve.map Prod.snd), pk ≠ 0) :
    ieee.calculate_max_drawdown (equity_curve.map (fun q => (q.1, ieee.Double.finite q.2)))
      = ieee.Double.finite (calculate_max_drawdown equity_curve) := by
  cases equity_curve with
  | nil => rfl
  | cons first rest =>
    have hpk : (List.scanl max first.2 ((first :: rest).map Prod.snd)).tail
        = reference_peaks ((first :: rest).map Prod.snd) := by
      show List.scanl max (max first.2 first.2) (rest.map Prod.snd)
        = List.scanl max first.2 (rest.map Prod.snd)
      rw [max_self]
    have hfold := max_drawdown_fold_of_rational (first :: rest) 0 first.2 (by rw [hpk]; exact h)
    show (((first :: rest).map (fun q => (q.1, ieee.Double.finite q.2))).foldl
      ieee.max_drawdown_step (ieee.Double.finite 0, ieee.Double.finite first.2)).1 = _
    exact congrArg Prod.fst hfold

end special_values

end quant
